import Mathlib

/-!
# NV2A vertex shader translation (`hw/xbox/nv2a_gpu_vsh.c`)

A shallow embedding of the microcode-to-GLSL translator.

* Machine integers are natural numbers or integers with explicit wrap-around.
* The token array is a list of words; a pointer into it (`shader_token`,
  `cur_token`) is the list together with an offset `cur`.
* `QString` values are strings; appending to a `QString` is `++`.
* Every operation that can abort (a failed `assert`) or leave the defined
  behaviour of C (a read past the token array or past a static table, a shift by
  the width of the operand) returns a `VshFault`.
* The build is the one without `DEBUG_NV2A_GPU_SHADER_FEEDBACK`, and of the
  `#if 0` / `#else` alternatives the one that is compiled.
* The diagnostics that the C code prints with `printf` go to standard output,
  not into the returned text, and are left out.
-/

namespace Vsh

/-! ## Faults -/

/-- The ways in which a run of the translator can stop without returning text. -/
inductive VshFault where
  /-- A word of the token array was read at an index the array does not have. -/
  | token_out_of_bounds (index : Nat)
  /-- One of the static tables was indexed past its last entry. -/
  | table_out_of_bounds (index : Nat)
  /-- The `assert(false)` in the `default` case of `decode_opcode_input`. -/
  | assert_param (param : Nat)
  /-- The `assert(has_final)` after the scan loop of `vsh_translate`. -/
  | assert_has_final
  /-- A shift by 32 bits or more, which C leaves undefined for a 32-bit operand. -/
  | shift_out_of_range (count : Nat)
  /-- The iteration budget of the scan loop model ran out. -/
  | out_of_fuel
  deriving DecidableEq, Repr

/-! ## Constants and enumerations

C enumerations are integers: the code increments field names and compares
fields with enumerators, so they are numbers here as well. -/

def VSH_D3DSCM_CORRECTION : Int := 96

def VSH_TOKEN_SIZE : Nat := 4

abbrev VshFieldName := Nat

def FLD_ILU : VshFieldName := 0
def FLD_MAC : VshFieldName := 1
def FLD_CONST : VshFieldName := 2
def FLD_V : VshFieldName := 3
def FLD_A_NEG : VshFieldName := 4
def FLD_A_SWZ_X : VshFieldName := 5
def FLD_A_SWZ_Y : VshFieldName := 6
def FLD_A_SWZ_Z : VshFieldName := 7
def FLD_A_SWZ_W : VshFieldName := 8
def FLD_A_R : VshFieldName := 9
def FLD_A_MUX : VshFieldName := 10
def FLD_B_NEG : VshFieldName := 11
def FLD_B_SWZ_X : VshFieldName := 12
def FLD_B_SWZ_Y : VshFieldName := 13
def FLD_B_SWZ_Z : VshFieldName := 14
def FLD_B_SWZ_W : VshFieldName := 15
def FLD_B_R : VshFieldName := 16
def FLD_B_MUX : VshFieldName := 17
def FLD_C_NEG : VshFieldName := 18
def FLD_C_SWZ_X : VshFieldName := 19
def FLD_C_SWZ_Y : VshFieldName := 20
def FLD_C_SWZ_Z : VshFieldName := 21
def FLD_C_SWZ_W : VshFieldName := 22
def FLD_C_R_HIGH : VshFieldName := 23
def FLD_C_R_LOW : VshFieldName := 24
def FLD_C_MUX : VshFieldName := 25
def FLD_OUT_MAC_MASK : VshFieldName := 26
def FLD_OUT_R : VshFieldName := 27
def FLD_OUT_ILU_MASK : VshFieldName := 28
def FLD_OUT_O_MASK : VshFieldName := 29
def FLD_OUT_ORB : VshFieldName := 30
def FLD_OUT_ADDRESS : VshFieldName := 31
def FLD_OUT_MUX : VshFieldName := 32
def FLD_A0X : VshFieldName := 33
def FLD_FINAL : VshFieldName := 34

abbrev VshParameterType := Nat

def PARAM_UNKNOWN : VshParameterType := 0
def PARAM_R : VshParameterType := 1
def PARAM_V : VshParameterType := 2
def PARAM_C : VshParameterType := 3

abbrev VshOutputType := Nat

def OUTPUT_C : VshOutputType := 0
def OUTPUT_O : VshOutputType := 1

abbrev VshOutputMux := Nat

def OMUX_MAC : VshOutputMux := 0
def OMUX_ILU : VshOutputMux := 1

abbrev VshILU := Nat

def ILU_NOP : VshILU := 0
def ILU_MOV : VshILU := 1
def ILU_RCP : VshILU := 2
def ILU_RCC : VshILU := 3
def ILU_RSQ : VshILU := 4
def ILU_EXP : VshILU := 5
def ILU_LOG : VshILU := 6
def ILU_LIT : VshILU := 7

abbrev VshMAC := Nat

def MAC_NOP : VshMAC := 0
def MAC_MOV : VshMAC := 1
def MAC_MUL : VshMAC := 2
def MAC_ADD : VshMAC := 3
def MAC_MAD : VshMAC := 4
def MAC_DP3 : VshMAC := 5
def MAC_DPH : VshMAC := 6
def MAC_DP4 : VshMAC := 7
def MAC_DST : VshMAC := 8
def MAC_MIN : VshMAC := 9
def MAC_MAX : VshMAC := 10
def MAC_SLT : VshMAC := 11
def MAC_SGE : VshMAC := 12
def MAC_ARL : VshMAC := 13

abbrev VshSwizzle := Nat

def SWIZZLE_X : VshSwizzle := 0
def SWIZZLE_Y : VshSwizzle := 1
def SWIZZLE_Z : VshSwizzle := 2
def SWIZZLE_W : VshSwizzle := 3

/-! ## Static tables -/

structure VshFieldMapping where
  field_name : VshFieldName
  subtoken : Nat
  start_bit : Nat
  bit_length : Nat
  deriving DecidableEq, Repr

def field_mapping : List VshFieldMapping := [
  ⟨FLD_ILU, 1, 25, 3⟩,
  ⟨FLD_MAC, 1, 21, 4⟩,
  ⟨FLD_CONST, 1, 13, 8⟩,
  ⟨FLD_V, 1, 9, 4⟩,
  ⟨FLD_A_NEG, 1, 8, 1⟩,
  ⟨FLD_A_SWZ_X, 1, 6, 2⟩,
  ⟨FLD_A_SWZ_Y, 1, 4, 2⟩,
  ⟨FLD_A_SWZ_Z, 1, 2, 2⟩,
  ⟨FLD_A_SWZ_W, 1, 0, 2⟩,
  ⟨FLD_A_R, 2, 28, 4⟩,
  ⟨FLD_A_MUX, 2, 26, 2⟩,
  ⟨FLD_B_NEG, 2, 25, 1⟩,
  ⟨FLD_B_SWZ_X, 2, 23, 2⟩,
  ⟨FLD_B_SWZ_Y, 2, 21, 2⟩,
  ⟨FLD_B_SWZ_Z, 2, 19, 2⟩,
  ⟨FLD_B_SWZ_W, 2, 17, 2⟩,
  ⟨FLD_B_R, 2, 13, 4⟩,
  ⟨FLD_B_MUX, 2, 11, 2⟩,
  ⟨FLD_C_NEG, 2, 10, 1⟩,
  ⟨FLD_C_SWZ_X, 2, 8, 2⟩,
  ⟨FLD_C_SWZ_Y, 2, 6, 2⟩,
  ⟨FLD_C_SWZ_Z, 2, 4, 2⟩,
  ⟨FLD_C_SWZ_W, 2, 2, 2⟩,
  ⟨FLD_C_R_HIGH, 2, 0, 2⟩,
  ⟨FLD_C_R_LOW, 3, 30, 2⟩,
  ⟨FLD_C_MUX, 3, 28, 2⟩,
  ⟨FLD_OUT_MAC_MASK, 3, 24, 4⟩,
  ⟨FLD_OUT_R, 3, 20, 4⟩,
  ⟨FLD_OUT_ILU_MASK, 3, 16, 4⟩,
  ⟨FLD_OUT_O_MASK, 3, 12, 4⟩,
  ⟨FLD_OUT_ORB, 3, 11, 1⟩,
  ⟨FLD_OUT_ADDRESS, 3, 3, 8⟩,
  ⟨FLD_OUT_MUX, 3, 2, 1⟩,
  ⟨FLD_A0X, 3, 1, 1⟩,
  ⟨FLD_FINAL, 3, 0, 1⟩
]

/-- Indexing of a static table: an index past the end has no defined value in C
and is a fault here. -/
def table_get {α : Type} (table : List α) (index : Nat) : Except VshFault α :=
  match table[index]? with
  | some entry => .ok entry
  | none => .error (.table_out_of_bounds index)

structure VshOpcodeParams where
  A : Bool
  B : Bool
  C : Bool
  deriving DecidableEq, Repr

def ilu_opcode_params : List VshOpcodeParams := [
  ⟨false, false, false⟩,
  ⟨false, false, true⟩,
  ⟨false, false, true⟩,
  ⟨false, false, true⟩,
  ⟨false, false, true⟩,
  ⟨false, false, true⟩,
  ⟨false, false, true⟩,
  ⟨false, false, true⟩
]

def mac_opcode_params : List VshOpcodeParams := [
  ⟨false, false, false⟩,
  ⟨true, false, false⟩,
  ⟨true, true, false⟩,
  ⟨true, false, true⟩,
  ⟨true, true, true⟩,
  ⟨true, true, false⟩,
  ⟨true, true, false⟩,
  ⟨true, true, false⟩,
  ⟨true, true, false⟩,
  ⟨true, true, false⟩,
  ⟨true, true, false⟩,
  ⟨true, true, false⟩,
  ⟨true, true, false⟩,
  ⟨true, false, false⟩
]

def mask_str : List String := [
  "",
  ",w",
  ",z",
  ",zw",
  ",y",
  ",yw",
  ",yz",
  ",yzw",
  ",x",
  ",xw",
  ",xz",
  ",xzw",
  ",xy",
  ",xyw",
  ",xyz",
  ",xyzw"
]

def mac_opcode : List String := [
  "NOP",
  "MOV",
  "MUL",
  "ADD",
  "MAD",
  "DP3",
  "DPH",
  "DP4",
  "DST",
  "MIN",
  "MAX",
  "SLT",
  "SGE",
  "ARL A0.x"
]

def ilu_opcode : List String := [
  "NOP",
  "MOV",
  "RCP",
  "RCC",
  "RSQ",
  "EXP",
  "LOG",
  "LIT"
]

def ilu_force_scalar : List Bool := [
  false,
  false,
  true,
  true,
  true,
  true,
  true,
  false
]

def out_reg_name : List String := [
  "oPos",
  "???",
  "???",
  "oD0",
  "oD1",
  "oFog",
  "oPts",
  "oB0",
  "oB1",
  "oT0",
  "oT1",
  "oT2",
  "oT3",
  "???",
  "???",
  "A0.x"
]

/-! ## Token memory and field extraction -/

/-- The expression `shader_token[subtoken]`: the token array is `tokens`, the
pointer `shader_token` is the offset `cur`, and the cell read is a `uint32_t`. -/
def load_token (tokens : List Nat) (cur subtoken : Nat) : Except VshFault Nat :=
  match tokens[cur + subtoken]? with
  | some word => .ok (word % 2 ^ 32)
  | none => .error (.token_out_of_bounds (cur + subtoken))

/-- Conversion of an `unsigned int` value to `int` (two's complement). -/
def to_int32 (u : Nat) : Int :=
  if u % 2 ^ 32 < 2 ^ 31 then ((u % 2 ^ 32 : Nat) : Int) else ((u % 2 ^ 32 : Nat) : Int) - 2 ^ 32

/-- Retrieves a number of bits in the instruction token: the C expression
`(shader_token[subtoken] >> start_bit) & ~(0xFFFFFFFF << bit_length)`
in 32-bit unsigned arithmetic, returned as `int`. -/
def vsh_get_from_token (tokens : List Nat) (cur : Nat)
    (subtoken start_bit bit_length : Nat) : Except VshFault Int := do
  let word ← load_token tokens cur subtoken
  if start_bit ≥ 32 then
    throw (VshFault.shift_out_of_range start_bit)
  else if bit_length ≥ 32 then
    throw (VshFault.shift_out_of_range bit_length)
  else
    let mask := 0xFFFFFFFF - (0xFFFFFFFF <<< bit_length) % 2 ^ 32
    pure (to_int32 ((word >>> start_bit) &&& mask))

/-- Conversion of an `int` to `uint8_t`. -/
def to_uint8 (i : Int) : Nat := (i % 256).toNat

def vsh_get_field (tokens : List Nat) (cur : Nat) (field_name : VshFieldName) :
    Except VshFault Nat := do
  let m ← table_get field_mapping field_name
  let r ← vsh_get_from_token tokens cur m.subtoken m.start_bit m.bit_length
  .ok (to_uint8 r)

/-- Conversion of an `int` to `int16_t` (two's complement). -/
def to_int16 (i : Int) : Int :=
  if i % 2 ^ 16 < 2 ^ 15 then i % 2 ^ 16 else i % 2 ^ 16 - 2 ^ 16

/-- Converts the C register address to disassembly format. -/
def convert_c_register (c_reg : Int) : Int :=
  let r := to_int16 ((((Int.land (c_reg >>> 5) 7) - 3) * 32) + Int.land c_reg 31)
  to_int16 (r + VSH_D3DSCM_CORRECTION)

/-! ## Operand and opcode decoding -/

/-- The letters of `swizzle_str` in `decode_swizzle`.  The lane fields are two
bits wide; an index past the four letters is a table fault. -/
def swizzle_str : List Char := ['x', 'y', 'z', 'w']

def decode_swizzle (tokens : List Nat) (cur : Nat) (swizzle_field : VshFieldName) :
    Except VshFault String := do
  /- some microcode instructions force a scalar value -/
  let force ← (if swizzle_field = FLD_C_SWZ_X then do
      let ilu ← vsh_get_field tokens cur FLD_ILU
      table_get ilu_force_scalar ilu
    else pure false)
  let (x, y, z, w) ← (if force then do
      let v ← vsh_get_field tokens cur swizzle_field
      pure (v, v, v, v)
    else do
      let x ← vsh_get_field tokens cur swizzle_field
      let y ← vsh_get_field tokens cur (swizzle_field + 1)
      let z ← vsh_get_field tokens cur (swizzle_field + 2)
      let w ← vsh_get_field tokens cur (swizzle_field + 3)
      pure (x, y, z, w))
  if x = SWIZZLE_X ∧ y = SWIZZLE_Y ∧ z = SWIZZLE_Z ∧ w = SWIZZLE_W then
    /- Don't print the swizzle if it's .xyzw -/
    pure ""
  else if x = y ∧ y = z ∧ z = w then do
    /- Don't print duplicates -/
    let cx ← table_get swizzle_str x
    pure (String.mk ['.', cx])
  else do
    let cx ← table_get swizzle_str x
    let cy ← table_get swizzle_str y
    let cz ← table_get swizzle_str z
    let cw ← table_get swizzle_str w
    pure (String.mk ['.', cx, cy, cz, cw])

/-- Decodes a vertex shader opcode parameter into a string.  Input A, B or C is
controlled via the `param` and `neg_field` arguments; the R-register address is
given by the caller. -/
def decode_opcode_input (tokens : List Nat) (cur : Nat) (param : VshParameterType)
    (neg_field : VshFieldName) (reg_num : Int) : Except VshFault String := do
  let neg ← vsh_get_field tokens cur neg_field
  let ret_str := if neg > 0 then "-" else ""
  /- PARAM_R uses the supplied reg_num, but the other two need to be determined -/
  let tmp ← (if param = PARAM_R then
      pure ("R" ++ toString reg_num)
    else if param = PARAM_V then do
      let reg_num ← vsh_get_field tokens cur FLD_V
      pure ("v" ++ toString reg_num)
    else if param = PARAM_C then do
      let c_reg ← vsh_get_field tokens cur FLD_CONST
      let reg_num := convert_c_register c_reg
      let a0x ← vsh_get_field tokens cur FLD_A0X
      if a0x > 0 then
        pure ("c[A0+" ++ toString reg_num ++ "]")
      else
        pure ("c[" ++ toString reg_num ++ "]")
    else
      throw (VshFault.assert_param param))
  let ret_str := ret_str ++ tmp
  /- swizzle bits are next to the neg bit -/
  let swizzle ← decode_swizzle tokens cur (neg_field + 1)
  pure (ret_str ++ swizzle)

def decode_opcode (tokens : List Nat) (cur : Nat) (out_mux : VshOutputMux) (mask : Nat)
    (opcode : String) (inputs : String) : Except VshFault String := do
  let reg_num ← vsh_get_field tokens cur FLD_OUT_R
  /- Test for paired opcodes (in other words : Are both <> NOP?) -/
  let mac_paired ← (if out_mux = OMUX_MAC then do
      let ilu ← vsh_get_field tokens cur FLD_ILU
      pure (decide (ilu ≠ ILU_NOP ∧ reg_num = 1))
    else pure false)
  let ilu_paired ← (if mac_paired then pure false
    else if out_mux = OMUX_ILU then do
      let mac ← vsh_get_field tokens cur FLD_MAC
      pure (decide (mac ≠ MAC_NOP))
    else pure false)
  /- Ignore paired MAC opcodes that write to R1 -/
  let mask := if mac_paired then 0 else mask
  /- Paired ILU opcodes can only write to R1 -/
  let reg_num := if ilu_paired then 1 else reg_num
  let ret ← (if mask > 0 then do
      let arl ← table_get mac_opcode MAC_ARL
      if opcode = arl then
        pure ("  ARL(a0" ++ inputs ++ ";\n")
      else do
        let lanes ← table_get mask_str mask
        pure ("  " ++ opcode ++ "(" ++ "R" ++ toString reg_num ++ lanes ++ inputs ++ ");\n")
    else pure "")
  /- See if we must add a muxed opcode too: -/
  let o_mux ← vsh_get_field tokens cur FLD_OUT_MUX
  let muxed ← (if o_mux = out_mux then do
      /- Only if it's not masked away: -/
      let o_mask ← vsh_get_field tokens cur FLD_OUT_O_MASK
      pure (decide (o_mask ≠ 0))
    else pure false)
  if muxed then do
    let ret := ret ++ "  " ++ opcode ++ "("
    let orb ← vsh_get_field tokens cur FLD_OUT_ORB
    let ret ← (if orb = OUTPUT_C then do
        let address ← vsh_get_field tokens cur FLD_OUT_ADDRESS
        pure (ret ++ "c" ++ toString (convert_c_register address))
      else do
        let address ← vsh_get_field tokens cur FLD_OUT_ADDRESS
        let name ← table_get out_reg_name (address &&& 0xF)
        pure (ret ++ name))
    let o_mask ← vsh_get_field tokens cur FLD_OUT_O_MASK
    let lanes ← table_get mask_str o_mask
    pure (ret ++ lanes ++ inputs ++ ");\n")
  else
    pure ret

def decode_token (tokens : List Nat) (cur : Nat) : Except VshFault String := do
  /- Since it's potentially used twice, decode input C once: -/
  let c_mux ← vsh_get_field tokens cur FLD_C_MUX
  let c_r_high ← vsh_get_field tokens cur FLD_C_R_HIGH
  let c_r_low ← vsh_get_field tokens cur FLD_C_R_LOW
  let input_c ← decode_opcode_input tokens cur c_mux FLD_C_NEG
    (((c_r_high <<< 2) ||| c_r_low : Nat) : Int)
  /- See what MAC opcode is written to (if not masked away): -/
  let mac ← vsh_get_field tokens cur FLD_MAC
  let ret ← (if mac ≠ MAC_NOP then do
      let inputs_mac := ""
      let params_a ← table_get mac_opcode_params mac
      let inputs_mac ← (if params_a.A then do
          let a_mux ← vsh_get_field tokens cur FLD_A_MUX
          let a_r ← vsh_get_field tokens cur FLD_A_R
          let input_a ← decode_opcode_input tokens cur a_mux FLD_A_NEG (a_r : Int)
          pure (inputs_mac ++ ", " ++ input_a)
        else pure inputs_mac)
      let params_b ← table_get mac_opcode_params mac
      let inputs_mac ← (if params_b.B then do
          let b_mux ← vsh_get_field tokens cur FLD_B_MUX
          let b_r ← vsh_get_field tokens cur FLD_B_R
          let input_b ← decode_opcode_input tokens cur b_mux FLD_B_NEG (b_r : Int)
          pure (inputs_mac ++ ", " ++ input_b)
        else pure inputs_mac)
      let params_c ← table_get mac_opcode_params mac
      let inputs_mac := if params_c.C then inputs_mac ++ ", " ++ input_c else inputs_mac
      /- Then prepend these inputs with the actual opcode, mask, and input : -/
      let mac_mask ← vsh_get_field tokens cur FLD_OUT_MAC_MASK
      let opcode ← table_get mac_opcode mac
      decode_opcode tokens cur OMUX_MAC mac_mask opcode inputs_mac
    else pure "")
  /- See if a ILU opcode is present too: -/
  let ilu ← vsh_get_field tokens cur FLD_ILU
  if ilu ≠ ILU_NOP then do
    let inputs_c := ", " ++ input_c
    /- Append the ILU opcode, mask and (the already determined) input C: -/
    let ilu_mask ← vsh_get_field tokens cur FLD_OUT_ILU_MASK
    let opcode ← table_get ilu_opcode ilu
    let ilu_op ← decode_opcode tokens cur OMUX_ILU ilu_mask opcode inputs_c
    pure (ret ++ ilu_op)
  else
    pure ret

/-! ## Static text -/

/-- Vertex shader header: register declarations and the helper library (the text of the build without the disabled preprocessor branches). -/
@[irreducible]
def vsh_header : String :=
  "#version 110\n" ++
  "\n" ++
  "vec4 R0 = vec4(0.0,0.0,0.0,1.0);\n" ++
  "vec4 R1 = vec4(0.0,0.0,0.0,1.0);\n" ++
  "vec4 R2 = vec4(0.0,0.0,0.0,1.0);\n" ++
  "vec4 R3 = vec4(0.0,0.0,0.0,1.0);\n" ++
  "vec4 R4 = vec4(0.0,0.0,0.0,1.0);\n" ++
  "vec4 R5 = vec4(0.0,0.0,0.0,1.0);\n" ++
  "vec4 R6 = vec4(0.0,0.0,0.0,1.0);\n" ++
  "vec4 R7 = vec4(0.0,0.0,0.0,1.0);\n" ++
  "vec4 R8 = vec4(0.0,0.0,0.0,1.0);\n" ++
  "vec4 R9 = vec4(0.0,0.0,0.0,1.0);\n" ++
  "vec4 R10 = vec4(0.0,0.0,0.0,1.0);\n" ++
  "vec4 R11 = vec4(0.0,0.0,0.0,1.0);\n" ++
  "vec4 R12 = vec4(0.0,0.0,0.0,1.0);\n" ++
  "\n" ++
  "int A0 = 0;\n" ++
  "\n" ++
  "attribute vec4 v0;\n" ++
  "attribute vec4 v1;\n" ++
  "attribute vec4 v2;\n" ++
  "attribute vec4 v3;\n" ++
  "attribute vec4 v4;\n" ++
  "attribute vec4 v5;\n" ++
  "attribute vec4 v6;\n" ++
  "attribute vec4 v7;\n" ++
  "attribute vec4 v8;\n" ++
  "attribute vec4 v9;\n" ++
  "attribute vec4 v10;\n" ++
  "attribute vec4 v11;\n" ++
  "attribute vec4 v12;\n" ++
  "attribute vec4 v13;\n" ++
  "attribute vec4 v14;\n" ++
  "attribute vec4 v15;\n" ++
  "\n" ++
  "#define oPos R12 /* oPos is a mirror of R12 */\n" ++
  "vec4 oD0 = vec4(0.0,0.0,0.0,1.0);\n" ++
  "vec4 oD1 = vec4(0.0,0.0,0.0,1.0);\n" ++
  "vec4 oB0 = vec4(0.0,0.0,0.0,1.0);\n" ++
  "vec4 oB1 = vec4(0.0,0.0,0.0,1.0);\n" ++
  "vec4 oPts = vec4(0.0,0.0,0.0,1.0);\n" ++
  "vec4 oFog = vec4(0.0,0.0,0.0,1.0);\n" ++
  "vec4 oT0 = vec4(0.0,0.0,0.0,1.0);\n" ++
  "vec4 oT1 = vec4(0.0,0.0,0.0,1.0);\n" ++
  "vec4 oT2 = vec4(0.0,0.0,0.0,1.0);\n" ++
  "vec4 oT3 = vec4(0.0,0.0,0.0,1.0);\n" ++
  "\n" ++
  "uniform vec4 c[192];\n" ++
  "#define viewport_scale c[58] /* This seems to be hardwired? See comment in nv2a_gpu.c */\n" ++
  "#define viewport_offset c[59] /* Same as above */\n" ++
  "uniform vec2 cliprange;\n" ++
  "\n" ++
  "/* Converts number of components of rvalue to lvalue */\n" ++
  "float components(float l, vec4 r) \x7b return r.x; \x7d\n" ++
  "vec2 components(vec2 l, vec4 r) \x7b return r.xy; \x7d\n" ++
  "vec3 components(vec3 l, vec4 r) \x7b return r.xyz; \x7d\n" ++
  "vec4 components(vec4 l, vec4 r) \x7b return r.xyzw; \x7d\n" ++
  "\n" ++
  "#define MOV(dest,mask, src) dest.mask = components(dest.mask,_MOV(vec4(src)))\n" ++
  "vec4 _MOV(vec4 src)\n" ++
  "\x7b\n" ++
  "  return src;\n" ++
  "\x7d\n" ++
  "\n" ++
  "#define MUL(dest,mask, src0, src1) dest.mask = components(dest.mask,_MUL(vec4(src0), vec4(src1)))\n" ++
  "vec4 _MUL(vec4 src0, vec4 src1)\n" ++
  "\x7b\n" ++
  "  return src0 * src1;\n" ++
  "\x7d\n" ++
  "\n" ++
  "#define ADD(dest,mask, src0, src1) dest.mask = components(dest.mask,_ADD(vec4(src0), vec4(src1)))\n" ++
  "vec4 _ADD(vec4 src0, vec4 src1)\n" ++
  "\x7b\n" ++
  "  return src0 + src1;\n" ++
  "\x7d\n" ++
  "\n" ++
  "#define MAD(dest,mask, src0, src1, src2) dest.mask = components(dest.mask,_MAD(vec4(src0), vec4(src1), vec4(src2)))\n" ++
  "vec4 _MAD(vec4 src0, vec4 src1, vec4 src2)\n" ++
  "\x7b\n" ++
  "  return src0 * src1 + src2;\n" ++
  "\x7d\n" ++
  "\n" ++
  "#define DP3(dest,mask, src0, src1) dest.mask = components(dest.mask,_DP3(vec4(src0), vec4(src1)))\n" ++
  "vec4 _DP3(vec4 src0, vec4 src1)\n" ++
  "\x7b\n" ++
  "  return vec4(dot(src0.xyz, src1.xyz));\n" ++
  "\x7d\n" ++
  "\n" ++
  "#define DPH(dest,mask, src0, src1) dest.mask = components(dest.mask,_DPH(vec4(src0), vec4(src1)))\n" ++
  "vec4 _DPH(vec4 src0, vec4 src1)\n" ++
  "\x7b\n" ++
  "  return vec4(dot(vec4(src0.xyz, 1.0), src1));\n" ++
  "\x7d\n" ++
  "\n" ++
  "#define DP4(dest,mask, src0, src1) dest.mask = components(dest.mask,_DP4(vec4(src0), vec4(src1)))\n" ++
  "vec4 _DP4(vec4 src0, vec4 src1)\n" ++
  "\x7b\n" ++
  "  return vec4(dot(src0, src1));\n" ++
  "\x7d\n" ++
  "\n" ++
  "#define DST(dest,mask, src0, src1) dest.mask = components(dest.mask,_DST(vec4(src0), vec4(src1)))\n" ++
  "vec4 _DST(vec4 src0, vec4 src1)\n" ++
  "\x7b\n" ++
  "  return vec4(1.0,\n" ++
  "              src0.y * src1.y,\n" ++
  "              src0.z,\n" ++
  "              src1.w);\n" ++
  "\x7d\n" ++
  "\n" ++
  "#define MIN(dest,mask, src0, src1) dest.mask = components(dest.mask,_MIN(vec4(src0), vec4(src1)))\n" ++
  "vec4 _MIN(vec4 src0, vec4 src1)\n" ++
  "\x7b\n" ++
  "  return min(src0, src1);\n" ++
  "\x7d\n" ++
  "\n" ++
  "#define MAX(dest,mask, src0, src1) dest.mask = components(dest.mask,_MAX(vec4(src0), vec4(src1)))\n" ++
  "vec4 _MAX(vec4 src0, vec4 src1)\n" ++
  "\x7b\n" ++
  "  return max(src0, src1);\n" ++
  "\x7d\n" ++
  "\n" ++
  "#define SLT(dest,mask, src0, src1) dest.mask = components(dest.mask,_SLT(vec4(src0), vec4(src1)))\n" ++
  "vec4 _SLT(vec4 src0, vec4 src1)\n" ++
  "\x7b\n" ++
  "  return vec4(src0.x < src1.x ? 1.0 : 0.0,\n" ++
  "              src0.y < src1.y ? 1.0 : 0.0,\n" ++
  "              src0.z < src1.z ? 1.0 : 0.0,\n" ++
  "              src0.w < src1.w ? 1.0 : 0.0);\n" ++
  "\x7d\n" ++
  "\n" ++
  "#define ARL(dest,mask, src) dest = _ARL(vec4(src).x)\n" ++
  "int _ARL(float src)\n" ++
  "\x7b\n" ++
  "  return int(src);\n" ++
  "\x7d\n" ++
  "\n" ++
  "#define SGE(dest,mask, src0, src1) dest.mask = components(dest.mask,_SGE(vec4(src0), vec4(src1)))\n" ++
  "vec4 _SGE(vec4 src0, vec4 src1)\n" ++
  "\x7b\n" ++
  "  return vec4(src0.x >= src1.x ? 1.0 : 0.0,\n" ++
  "              src0.y >= src1.y ? 1.0 : 0.0,\n" ++
  "              src0.z >= src1.z ? 1.0 : 0.0,\n" ++
  "              src0.w >= src1.w ? 1.0 : 0.0);\n" ++
  "\x7d\n" ++
  "\n" ++
  "#define RCP(dest,mask, src) dest.mask = components(dest.mask,_RCP(vec4(src).x))\n" ++
  "vec4 _RCP(float src)\n" ++
  "\x7b\n" ++
  "  return vec4(1.0 / src);\n" ++
  "\x7d\n" ++
  "\n" ++
  "#define RCC(dest,mask, src) dest.mask = components(dest.mask,_RCC(vec4(src).x))\n" ++
  "vec4 _RCC(float src)\n" ++
  "\x7b\n" ++
  "  float t = 1.0 / src;\n" ++
  "  if (t > 0.0) \x7b\n" ++
  "    t = min(t, 1.884467e+019);\n" ++
  "    t = max(t, 5.42101e-020);\n" ++
  "  \x7d else \x7b\n" ++
  "    t = max(t, -1.884467e+019);\n" ++
  "    t = min(t, -5.42101e-020);\n" ++
  "  \x7d\n" ++
  "  return vec4(t);\n" ++
  "\x7d\n" ++
  "\n" ++
  "#define RSQ(dest,mask, src) dest.mask = components(dest.mask,_RSQ(vec4(src).x))\n" ++
  "vec4 _RSQ(float src)\n" ++
  "\x7b\n" ++
  "  return vec4(1.0 / sqrt(src));\n" ++
  "\x7d\n" ++
  "\n" ++
  "#define EXP(dest,mask, src) dest.mask = components(dest.mask,_EXP(vec4(src).x))\n" ++
  "vec4 _EXP(float src)\n" ++
  "\x7b\n" ++
  "  return vec4(exp2(src));\n" ++
  "\x7d\n" ++
  "\n" ++
  "#define LOG(dest,mask, src) dest.mask = components(dest.mask,_LOG(vec4(src).x))\n" ++
  "vec4 _LOG(float src)\n" ++
  "\x7b\n" ++
  "  return vec4(log2(src));\n" ++
  "\x7d\n" ++
  "\n" ++
  "#define LIT(dest,mask, src) dest.mask = components(dest.mask,_LIT(vec4(src)))\n" ++
  "vec4 _LIT(vec4 src)\n" ++
  "\x7b\n" ++
  "  vec4 t = vec4(1.0, 0.0, 0.0, 1.0);\n" ++
  "  float power = src.w;\n" ++
  "  if (src.x > 0.0) \x7b\n" ++
  "    t.y = src.x;\n" ++
  "    if (src.y > 0.0) \x7b\n" ++
  "      t.z = pow(src.y, power);\n" ++
  "    \x7d\n" ++
  "  \x7d\n" ++
  "  return t;\n" ++
  "\x7d\n"

/-- The static text that `vsh_translate` appends to the body after the scan loop (build without `DEBUG_NV2A_GPU_SHADER_FEEDBACK`). -/
@[irreducible]
def vsh_epilogue : String :=
  "  /* Un-screenspace transform */\n" ++
  "  R12.xyz = R12.xyz - viewport_offset.xyz;\n" ++
  "  vec3 tmp = vec3(1.0)\n;" ++
  "  if (viewport_scale.x != 0.0) \x7b tmp.x /= viewport_scale.x; \x7d\n" ++
  "  if (viewport_scale.y != 0.0) \x7b tmp.y /= viewport_scale.y; \x7d\n" ++
  "  if (viewport_scale.z != 0.0) \x7b tmp.z /= viewport_scale.z; \x7d\n" ++
  "  R12.xyz = R12.xyz * tmp.xyz;\n" ++
  "  R12.xyz *= R12.w;\n" ++
  "\n" ++
  "  /* Set outputs */\n" ++
  "  gl_Position = oPos;\n" ++
  "  gl_FrontColor = oD0;\n" ++
  "  gl_FrontSecondaryColor = oD1;\n" ++
  "  gl_BackColor = oB0;\n" ++
  "  gl_BackSecondaryColor = oB1;\n" ++
  "  gl_PointSize = oPts.x;\n" ++
  "  gl_FogFragCoord = oFog.x;\n" ++
  "  gl_TexCoord[0] = oT0;\n" ++
  "  gl_TexCoord[1] = oT1;\n" ++
  "  gl_TexCoord[2] = oT2;\n" ++
  "  gl_TexCoord[3] = oT3;\n" ++
  "\n"

/-! ## Program translation -/

/-- The sixteen digits printed by the `X` conversion of `printf`. -/
def hex_digits : List Char :=
  ['0', '1', '2', '3', '4', '5', '6', '7', '8', '9', 'A', 'B', 'C', 'D', 'E', 'F']

def hex_digit (d : Nat) : Char := hex_digits.getD d '0'

/-- The `printf` conversion `%08X` of a `uint32_t`: upper-case hexadecimal,
zero-padded to eight digits, which is every digit a 32-bit value has. -/
def fmt_08X (word : Nat) : String :=
  let w := word % 2 ^ 32
  String.mk [hex_digit (w / 16 ^ 7 % 16), hex_digit (w / 16 ^ 6 % 16),
    hex_digit (w / 16 ^ 5 % 16), hex_digit (w / 16 ^ 4 % 16),
    hex_digit (w / 16 ^ 3 % 16), hex_digit (w / 16 ^ 2 % 16),
    hex_digit (w / 16 % 16), hex_digit (w % 16)]

/-- The text of
`qstring_append_fmt(body, "  /* Slot %d: 0x%08X 0x%08X 0x%08X 0x%08X */\n", ...)`. -/
def slot_comment (slot w0 w1 w2 w3 : Nat) : String :=
  "  /* Slot " ++ toString slot ++ ": 0x" ++ fmt_08X w0 ++ " 0x" ++ fmt_08X w1
    ++ " 0x" ++ fmt_08X w2 ++ " 0x" ++ fmt_08X w3 ++ " */\n"

/-- The scan loop of `vsh_translate`, started with `cur_token` at offset `cur`
and the text `body`; it returns the body and `has_final`.  `fuel` bounds the
number of times the loop condition is tested. -/
def vsh_scan (tokens : List Nat) (tokens_length : Nat) :
    Nat → Nat → String → Except VshFault (String × Bool)
  | 0, _, _ => .error .out_of_fuel
  | fuel + 1, cur, body =>
    if cur < tokens_length then do
      let slot := cur / VSH_TOKEN_SIZE
      let token_str ← decode_token tokens cur
      let w0 ← load_token tokens cur 0
      let w1 ← load_token tokens cur 1
      let w2 ← load_token tokens cur 2
      let w3 ← load_token tokens cur 3
      let body := body ++ slot_comment slot w0 w1 w2 w3
      let body := body ++ token_str
      let body := body ++ "\n"
      if (← vsh_get_field tokens cur FLD_FINAL) ≠ 0 then
        pure (body, true)
      else
        vsh_scan tokens tokens_length fuel (cur + VSH_TOKEN_SIZE) body
    else
      pure (body, false)

/-- Translation of a microcode program to GLSL text.  The loop advances
`cur_token` by `VSH_TOKEN_SIZE` words on every iteration, so its condition is
tested at most `tokens_length + 1` times. -/
def vsh_translate (version : Nat) (tokens : List Nat) (tokens_length : Nat) :
    Except VshFault String := do
  let _ := version
  let body := "\n"
  let header := vsh_header
  let (body, has_final) ← vsh_scan tokens tokens_length (tokens_length + 1) 0 body
  if ¬ has_final then
    throw VshFault.assert_has_final
  else
    let body := body ++ vsh_epilogue
    let ret := ""
    let ret := ret ++ header
    let ret := ret ++ "\nvoid main(void)\n\x7b\n"
    let ret := ret ++ body
    let ret := ret ++ "\x7d\n"
    pure ret

/-! ## Auxiliary notions used in the statements -/

/-- Every fault that the computation `x` can end in belongs to the class `S`. -/
def faults_in {α : Type} (S : VshFault → Prop) (x : Except VshFault α) : Prop :=
  ∀ e, x = .error e → S e

/-- Every value that the computation `x` can return satisfies `P`. -/
def results_in {α : Type} (P : α → Prop) (x : Except VshFault α) : Prop :=
  ∀ a, x = .ok a → P a

/-- The bits `start_bit .. start_bit + bit_length - 1` of a 32-bit word. -/
def word_bits (word start_bit bit_length : Nat) : Nat :=
  ((word % 2 ^ 32) >>> start_bit) % 2 ^ bit_length


/-- A class `S` of faults that contains what decoding the slot at `cur` can
end in: table faults, the operand-class assertion, and, unless the four words of
the slot lie inside the token array, reads past the array. -/
def DecodeFaults (S : VshFault → Prop) (tokens : List Nat) (cur : Nat) : Prop :=
  (∀ i, S (.table_out_of_bounds i)) ∧ (∀ p, S (.assert_param p))
    ∧ (cur + 3 < tokens.length ∨ ∀ i, S (.token_out_of_bounds i))

/-- The text that `decode_token` returns for the slot at `cur`, empty when the
decoding of that slot faults. -/
def decoded_text (tokens : List Nat) (cur : Nat) : String :=
  match decode_token tokens cur with
  | .ok text => text
  | .error _ => ""

/-- What one iteration of the scan loop appends to the body for slot `slot`:
the comment with the slot number and the four words, the decoded statements and
a blank line. -/
def slot_text (tokens : List Nat) (slot : Nat) : String :=
  slot_comment slot (tokens.getD (4 * slot) 0) (tokens.getD (4 * slot + 1) 0)
    (tokens.getD (4 * slot + 2) 0) (tokens.getD (4 * slot + 3) 0)
    ++ decoded_text tokens (4 * slot) ++ "\n"

/-- Number of positions of `text` at which `pattern` begins. -/
def count_occurrences (pattern : List Char) : List Char → Nat
  | [] => 0
  | c :: cs => (if pattern.isPrefixOf (c :: cs) then 1 else 0) + count_occurrences pattern cs

/-- The characters of the opening of a slot comment. -/
def slot_pattern : List Char := "/* Slot ".data

/-- Number of slot comments in a text: the places where `/* Slot ` begins. -/
def count_slot_comments (text : String) : Nat :=
  count_occurrences slot_pattern text.data

/-- The value of field `f` in the slot at `cur`, read from the word and the bit
window that the field table gives for `f` (0 for a number that names no field,
and with absent words read as 0). -/
def field_value (tokens : List Nat) (cur : Nat) (f : VshFieldName) : Nat :=
  match field_mapping[f]? with
  | some m => word_bits (tokens.getD (cur + m.subtoken) 0) m.start_bit m.bit_length
  | none => 0

/-- The text does not contain the character `/`. -/
def no_slash (s : String) : Prop := '/' ∉ s.data

instance (s : String) : Decidable (no_slash s) := by
  unfold no_slash
  exact inferInstance

/-- The text ends in a character that does not occur in `slot_pattern`, so that
no slot comment can begin in it and continue in a text appended to it. -/
def ends_outside (s : String) : Bool :=
  match s.data.getLast? with
  | some c => !(slot_pattern.contains c)
  | none => false

/-- The text has no slot comment and none can begin in it. -/
def plain (s : String) : Prop := count_slot_comments s = 0 ∧ ends_outside s = true

instance (s : String) : Decidable (plain s) := by
  unfold plain
  exact inferInstance

/-! ## Auxiliary notions for the decoders -/

/-- The letter that names a source lane: `"xyzw"[lane]` for a lane selector
0..3. -/
def lane_letter (lane : Nat) : Char :=
  match lane with
  | 0 => 'x'
  | 1 => 'y'
  | 2 => 'z'
  | _ => 'w'

/-- The swizzle suffix for the lane selectors `x y z w`: nothing for the
identity selection, one letter when the four selectors are equal, four letters
otherwise. -/
def swizzle_text (x y z w : Nat) : String :=
  if x = 0 ∧ y = 1 ∧ z = 2 ∧ w = 3 then ""
  else if x = y ∧ y = z ∧ z = w then String.mk ['.', lane_letter x]
  else String.mk ['.', lane_letter x, lane_letter y, lane_letter z, lane_letter w]

/-- The lane suffix of a 4-bit write mask: a comma and the letters of the
enabled lanes in the order x, y, z, w, where x is bit 3, y bit 2, z bit 1 and w
bit 0. -/
def mask_lanes (m : Nat) : String :=
  "," ++ (if m / 8 % 2 = 1 then "x" else "") ++ (if m / 4 % 2 = 1 then "y" else "")
    ++ (if m / 2 % 2 = 1 then "z" else "") ++ (if m % 2 = 1 then "w" else "")

/-- The destination of the named-output statement of the slot at `cur`: a
constant register when `FLD_OUT_ORB` selects the constant bank, else the output
register named by the low four bits of `FLD_OUT_ADDRESS`. -/
def output_dest (tokens : List Nat) (cur : Nat) : String :=
  if field_value tokens cur FLD_OUT_ORB = OUTPUT_C then
    "c" ++ toString (convert_c_register (field_value tokens cur FLD_OUT_ADDRESS))
  else
    out_reg_name.getD (field_value tokens cur FLD_OUT_ADDRESS &&& 0xF) ""

/-- The named-output statement that the unit `out_mux` emits for the slot at
`cur`: present when `FLD_OUT_MUX` selects the unit and `FLD_OUT_O_MASK` is not
zero, empty otherwise. -/
def output_statement (tokens : List Nat) (cur : Nat) (out_mux : VshOutputMux)
    (opcode inputs : String) : String :=
  if field_value tokens cur FLD_OUT_MUX = out_mux ∧ field_value tokens cur FLD_OUT_O_MASK ≠ 0 then
    "  " ++ opcode ++ "(" ++ output_dest tokens cur
      ++ mask_str.getD (field_value tokens cur FLD_OUT_O_MASK) "" ++ inputs ++ ");\n"
  else ""

/-- The write mask that a unit uses for its R-register statement: the co-issue
rule clears the mask of the MAC unit when the ILU opcode is not NOP and
`FLD_OUT_R` is 1. -/
def effective_mask (tokens : List Nat) (cur : Nat) (out_mux : VshOutputMux) (mask : Nat) : Nat :=
  if out_mux = OMUX_MAC ∧ field_value tokens cur FLD_ILU ≠ ILU_NOP
      ∧ field_value tokens cur FLD_OUT_R = 1 then 0
  else mask

/-- The R-register that a unit writes: the co-issue rule sends the ILU unit to
R1 when the MAC opcode is not NOP. -/
def effective_reg (tokens : List Nat) (cur : Nat) (out_mux : VshOutputMux) : Nat :=
  if out_mux = OMUX_ILU ∧ field_value tokens cur FLD_MAC ≠ MAC_NOP then 1
  else field_value tokens cur FLD_OUT_R

/-- The first statement that a unit emits for the slot at `cur`: nothing for
an effective mask of zero, the address-register load for the opcode text of
`MAC_ARL`, and an R-register write otherwise. -/
def reg_statement (tokens : List Nat) (cur : Nat) (out_mux : VshOutputMux) (mask : Nat)
    (opcode inputs : String) : String :=
  if effective_mask tokens cur out_mux mask > 0 then
    if opcode = "ARL A0.x" then "  ARL(a0" ++ inputs ++ ";\n"
    else "  " ++ opcode ++ "(" ++ "R" ++ toString (effective_reg tokens cur out_mux)
      ++ mask_str.getD (effective_mask tokens cur out_mux mask) "" ++ inputs ++ ");\n"
  else ""

/-! ## Auxiliary notions for whole slots -/

/-- The R-register index of operand C: the two bits of `FLD_C_R_HIGH` above the
two bits of `FLD_C_R_LOW`. -/
def c_reg_index (tokens : List Nat) (cur : Nat) : Nat :=
  (field_value tokens cur FLD_C_R_HIGH <<< 2) ||| field_value tokens cur FLD_C_R_LOW

/-- The operand list of the MAC unit: ", " and the operand text for each operand
that `params` marks as consumed, in the order A, B, C. -/
def mac_inputs (params : VshOpcodeParams) (a b c : String) : String :=
  (if params.A then ", " ++ a else "") ++ (if params.B then ", " ++ b else "")
    ++ (if params.C then ", " ++ c else "")

/-- The usage entry of MAC opcode `mac` (all unused past the table). -/
def mac_params (mac : Nat) : VshOpcodeParams :=
  mac_opcode_params.getD mac ⟨false, false, false⟩

/-- The text of the MAC unit of the slot at `cur` for the operand texts `a`, `b`
and `c`: nothing for the opcode NOP, else its R-register (or ARL) statement and
its named-output statement. -/
def mac_text (tokens : List Nat) (cur : Nat) (a b c : String) : String :=
  if field_value tokens cur FLD_MAC = MAC_NOP then ""
  else
    reg_statement tokens cur OMUX_MAC (field_value tokens cur FLD_OUT_MAC_MASK)
        (mac_opcode.getD (field_value tokens cur FLD_MAC) "")
        (mac_inputs (mac_params (field_value tokens cur FLD_MAC)) a b c)
      ++ output_statement tokens cur OMUX_MAC
        (mac_opcode.getD (field_value tokens cur FLD_MAC) "")
        (mac_inputs (mac_params (field_value tokens cur FLD_MAC)) a b c)

/-- The text of the ILU unit of the slot at `cur` for the operand text `c`:
nothing for the opcode NOP, else its R-register statement and its named-output
statement. -/
def ilu_text (tokens : List Nat) (cur : Nat) (c : String) : String :=
  if field_value tokens cur FLD_ILU = ILU_NOP then ""
  else
    reg_statement tokens cur OMUX_ILU (field_value tokens cur FLD_OUT_ILU_MASK)
        (ilu_opcode.getD (field_value tokens cur FLD_ILU) "") (", " ++ c)
      ++ output_statement tokens cur OMUX_ILU
        (ilu_opcode.getD (field_value tokens cur FLD_ILU) "") (", " ++ c)

/-- The number of newline characters of a text. -/
def newlines (s : String) : Nat := s.data.count '\n'

/-- The characters that occur in operand texts. -/
def operand_chars : List Char :=
  ['-', 'R', 'v', 'c', '[', ']', 'A', '+', '.', 'x', 'y', 'z', 'w',
   '0', '1', '2', '3', '4', '5', '6', '7', '8', '9']

/-- Every character of the text is one of `alphabet`. -/
def written_in (alphabet : List Char) (s : String) : Prop := ∀ ch ∈ s.data, ch ∈ alphabet

instance (alphabet : List Char) (s : String) : Decidable (written_in alphabet s) := by
  unfold written_in
  exact inferInstance

/-- The text ends in a character that does not occur in `pattern`, so that no
occurrence of `pattern` can begin in it and continue in a text appended to it. -/
def ends_clear (pattern : List Char) (s : String) : Bool :=
  match s.data.getLast? with
  | some c => !(pattern.contains c)
  | none => false

/-- The text holds `n` occurrences of `pattern` and ends clear of it. -/
def counts (pattern : List Char) (n : Nat) (s : String) : Prop :=
  count_occurrences pattern s.data = n ∧ ends_clear pattern s = true

instance (pattern : List Char) (n : Nat) (s : String) : Decidable (counts pattern n s) := by
  unfold counts
  exact inferInstance

/-! ## Reasoning about `Except` computations -/

@[simp] theorem except_bind_ok {ε α β : Type} (a : α) (f : α → Except ε β) :
    (Except.ok a >>= f) = f a := rfl

@[simp] theorem except_bind_error {ε α β : Type} (e : ε) (f : α → Except ε β) :
    (Except.error e >>= f) = Except.error e := rfl

@[simp] theorem except_pure {ε α : Type} (a : α) : (pure a : Except ε α) = Except.ok a := rfl

@[simp] theorem except_throw {ε α : Type} (e : ε) :
    (throw e : Except ε α) = Except.error e := rfl

theorem except_ite_bind {ε α β : Type} (c : Prop) [Decidable c] (x y : Except ε α)
    (f : α → Except ε β) :
    ((if c then x else y) >>= f) = if c then x >>= f else y >>= f := by
  split <;> rfl

theorem except_bind_eq_ok {ε α β : Type} (x : Except ε α) (f : α → Except ε β) (b : β) :
    (x >>= f) = .ok b ↔ ∃ a, x = .ok a ∧ f a = .ok b := by
  cases x <;> simp

theorem except_bind_eq_error {ε α β : Type} (x : Except ε α) (f : α → Except ε β) (e : ε) :
    (x >>= f) = .error e ↔ x = .error e ∨ ∃ a, x = .ok a ∧ f a = .error e := by
  cases x <;> simp

theorem faults_in_ok {α : Type} (S : VshFault → Prop) (a : α) :
    faults_in S (Except.ok a) ↔ True := by
  simp [faults_in]

theorem faults_in_error {α : Type} (S : VshFault → Prop) (e : VshFault) :
    faults_in S (Except.error e : Except VshFault α) ↔ S e := by
  simp [faults_in]

theorem faults_in_bind {α β : Type} (S : VshFault → Prop) (x : Except VshFault α)
    (f : α → Except VshFault β) :
    faults_in S (x >>= f) ↔ faults_in S x ∧ ∀ a, x = .ok a → faults_in S (f a) := by
  cases x <;> simp [faults_in]

theorem faults_in_ite {α : Type} (S : VshFault → Prop) (c : Prop) [Decidable c]
    (x y : Except VshFault α) :
    faults_in S (if c then x else y) ↔ (c → faults_in S x) ∧ (¬ c → faults_in S y) := by
  split <;> simp [*]

theorem results_in_ok {α : Type} (P : α → Prop) (a : α) :
    results_in P (Except.ok a) ↔ P a := by
  simp [results_in]

theorem results_in_error {α : Type} (P : α → Prop) (e : VshFault) :
    results_in P (Except.error e : Except VshFault α) ↔ True := by
  simp [results_in]

theorem results_in_bind {α β : Type} (P : β → Prop) (x : Except VshFault α)
    (f : α → Except VshFault β) :
    results_in P (x >>= f) ↔ ∀ a, x = .ok a → results_in P (f a) := by
  cases x <;> simp [results_in]

theorem results_in_ite {α : Type} (P : α → Prop) (c : Prop) [Decidable c]
    (x y : Except VshFault α) :
    results_in P (if c then x else y) ↔ (c → results_in P x) ∧ (¬ c → results_in P y) := by
  split <;> simp [*]

/-! ## The field table and field extraction -/

theorem field_mapping_entry (f : Nat) (m : VshFieldMapping) (h : field_mapping[f]? = some m) :
    m.field_name = f ∧ 1 ≤ m.subtoken ∧ m.subtoken ≤ 3 ∧ 1 ≤ m.bit_length ∧ m.bit_length ≤ 8
      ∧ m.start_bit + m.bit_length ≤ 32 := by
  have hf : f < 35 := by
    have := (List.getElem?_eq_some.mp h).1
    simpa [field_mapping] using this
  interval_cases f <;> simp [field_mapping] at h <;> subst h <;> decide

theorem table_get_eq_ok {α : Type} (table : List α) (i : Nat) (a : α) :
    table_get table i = .ok a ↔ table[i]? = some a := by
  unfold table_get
  cases table[i]? <;> simp

theorem table_get_of_lt {α : Type} (table : List α) (i : Nat) (h : i < table.length) :
    table_get table i = .ok table[i] := by
  simp [table_get, List.getElem?_eq_getElem h]

theorem table_get_of_ge {α : Type} (table : List α) (i : Nat) (h : table.length ≤ i) :
    table_get table i = .error (.table_out_of_bounds i) := by
  simp [table_get, List.getElem?_eq_none h]

theorem shift_mask (bit_length : Nat) (h : bit_length < 32) :
    0xFFFFFFFF - (0xFFFFFFFF <<< bit_length) % 2 ^ 32 = 2 ^ bit_length - 1 := by
  interval_cases bit_length <;> rfl

theorem to_int32_of_lt (u : Nat) (h : u < 2 ^ 31) : to_int32 u = (u : Int) := by
  have h1 : u % 2 ^ 32 = u := Nat.mod_eq_of_lt (by omega)
  unfold to_int32
  rw [h1]
  exact if_pos h

theorem to_uint8_of_lt (u : Nat) (h : u < 256) : to_uint8 (u : Int) = u := by
  unfold to_uint8
  have : ((u : Int) % 256) = (u : Int) := Int.emod_eq_of_lt (by omega) (by omega)
  simp [this]

theorem word_bits_lt (word start_bit bit_length : Nat) :
    word_bits word start_bit bit_length < 2 ^ bit_length :=
  Nat.mod_lt _ (Nat.two_pow_pos _)

theorem vsh_get_from_token_ok (tokens : List Nat) (cur subtoken start_bit bit_length word : Nat)
    (hw : tokens[cur + subtoken]? = some word) (hs : start_bit < 32) (hb : bit_length < 32) :
    vsh_get_from_token tokens cur subtoken start_bit bit_length
      = .ok ((word_bits word start_bit bit_length : Nat) : Int) := by
  have h1 : ¬ (32 ≤ start_bit) := by omega
  have h2 : ¬ (32 ≤ bit_length) := by omega
  have h3 : word_bits word start_bit bit_length < 2 ^ 31 :=
    lt_of_lt_of_le (word_bits_lt _ _ _) (Nat.pow_le_pow_right (by decide) (by omega))
  simp only [vsh_get_from_token, load_token, hw, except_bind_ok, ge_iff_le, h1, h2, if_false,
    shift_mask bit_length hb, Nat.and_pow_two_sub_one_eq_mod, except_pure]
  rw [← word_bits, to_int32_of_lt _ h3]

theorem vsh_get_field_ok (tokens : List Nat) (cur f word : Nat) (m : VshFieldMapping)
    (hm : field_mapping[f]? = some m) (hw : tokens[cur + m.subtoken]? = some word) :
    vsh_get_field tokens cur f = .ok (word_bits word m.start_bit m.bit_length) := by
  obtain ⟨-, -, -, h1, h8, h32⟩ := field_mapping_entry f m hm
  have hlt : word_bits word m.start_bit m.bit_length < 256 :=
    lt_of_lt_of_le (word_bits_lt _ _ _) (Nat.pow_le_pow_right (by decide) h8)
  simp only [vsh_get_field, (table_get_eq_ok _ _ _).mpr hm, except_bind_ok,
    vsh_get_from_token_ok tokens cur m.subtoken m.start_bit m.bit_length word hw (by omega) (by omega), except_pure,
    to_uint8_of_lt _ hlt]

/-! ## Field table and constant remapping -/

/-- C9: the field table has 35 entries, and the entry that `vsh_get_field` finds
at index `f` is the descriptor of field `f`, names one of the words 0..3 of the
slot and describes a bit window inside a 32-bit word. -/
theorem field_mapping_well_formed :
    field_mapping.length = 35 ∧
    ∀ f : Fin 35, ∃ m, table_get field_mapping f.val = .ok m ∧ m.field_name = f.val
      ∧ m.subtoken ≤ 3 ∧ m.start_bit + m.bit_length ≤ 32 := by
  refine ⟨rfl, fun f => ?_⟩
  have hlt : f.val < field_mapping.length := f.isLt
  refine ⟨field_mapping[f.val], table_get_of_lt _ _ hlt, ?_⟩
  obtain ⟨h1, -, h3, -, -, h6⟩ :=
    field_mapping_entry f.val _ (List.getElem?_eq_getElem hlt)
  exact ⟨h1, h3, h6⟩

set_option maxRecDepth 100000 in
/-- C10: on every 8-bit code the remap `(bank - 3) * 32 + offset` followed by
the correction 96 gives back the code itself; the code with bank 3 and offset 0
is 0x60 and maps to 96. -/
theorem convert_c_register_eq_raw :
    (∀ raw : Fin 256,
      convert_c_register (raw.val : Int)
          = ((((raw.val >>> 5) &&& 7 : Nat) : Int) - 3) * 32 + ((raw.val &&& 31 : Nat) : Int) + 96
        ∧ convert_c_register (raw.val : Int) = (raw.val : Int))
    ∧ (0x60 >>> 5) &&& 7 = 3 ∧ 0x60 &&& 31 = 0 ∧ convert_c_register 0x60 = 96 := by
  decide

/-- C6: the version tag is not consulted, so the result (text or fault) of a
translation is determined by the token words and the length alone. -/
theorem vsh_translate_version_irrelevant (v1 v2 : Nat) (tokens : List Nat) (tokens_length : Nat) :
    vsh_translate v1 tokens tokens_length = vsh_translate v2 tokens tokens_length := rfl

/-- C8 (as stated, refuted): with `start_bit = 0` and `bit_length = 32`, which
satisfy `start_bit + bit_length ≤ 32`, the mask expression shifts a 32-bit value
by 32 bits and the extractor does not return the word; the same happens for
`start_bit = 32`, `bit_length = 0`. -/
theorem vsh_get_from_token_full_width_fails :
    (0 + 32 ≤ 32
      ∧ vsh_get_from_token [0x80000000, 0, 0, 0] 0 0 0 32 = .error (.shift_out_of_range 32)
      ∧ vsh_get_from_token [0x80000000, 0, 0, 0] 0 0 0 32
          ≠ .ok (((0x80000000 >>> 0) &&& ((1 <<< 32) - 1) : Nat) : Int))
    ∧ (32 + 0 ≤ 32
      ∧ vsh_get_from_token [0x80000000, 0, 0, 0] 0 0 32 0 = .error (.shift_out_of_range 32)) := by
  refine ⟨⟨by decide, rfl, ?_⟩, by decide, rfl⟩
  intro h
  cases h

/-- C8 (amended): for shift counts below 32 the extractor returns the
zero-extended window `(word >> start_bit) & ((1 << bit_length) - 1)`: the mask
of the code is `2 ^ bit_length - 1` and the result is a natural number below
`2 ^ bit_length`. -/
theorem vsh_get_from_token_spec (tokens : List Nat) (cur subtoken start_bit bit_length word : Nat)
    (hword : tokens[cur + subtoken]? = some word) (h32 : word < 2 ^ 32)
    (_hwin : start_bit + bit_length ≤ 32) (hs : start_bit < 32) (hb : bit_length < 32) :
    vsh_get_from_token tokens cur subtoken start_bit bit_length
        = .ok (((word >>> start_bit) &&& ((1 <<< bit_length) - 1) : Nat) : Int)
      ∧ 0xFFFFFFFF - (0xFFFFFFFF <<< bit_length) % 2 ^ 32 = 2 ^ bit_length - 1
      ∧ (word >>> start_bit) &&& ((1 <<< bit_length) - 1) < 2 ^ bit_length := by
  have hmod : word % 2 ^ 32 = word := Nat.mod_eq_of_lt h32
  have hval : (word >>> start_bit) &&& ((1 <<< bit_length) - 1)
      = word_bits word start_bit bit_length := by
    rw [Nat.one_shiftLeft, Nat.and_pow_two_sub_one_eq_mod, word_bits, hmod]
  refine ⟨?_, shift_mask bit_length hb, ?_⟩
  · rw [hval]
    exact vsh_get_from_token_ok tokens cur subtoken start_bit bit_length word hword hs hb
  · rw [hval]
    exact word_bits_lt _ _ _

theorem vsh_get_from_token_spec_witness :
    [0, 0x00200000, 0, 1][0 + 1]? = some 0x00200000 ∧ 0x00200000 < 2 ^ 32 ∧ 21 + 4 ≤ 32
      ∧ 21 < 32 ∧ 4 < 32
      ∧ vsh_get_from_token [0, 0x00200000, 0, 1] 0 1 21 4 = .ok 1 :=
  ⟨rfl, by decide, by decide, by decide, by decide,
    (vsh_get_from_token_spec [0, 0x00200000, 0, 1] 0 1 21 4 0x00200000 rfl (by decide)
      (by decide) (by decide) (by decide)).1⟩

/-- C7: writing a value `v` that fits the window of field `f` into that window
of a zeroed slot and reading field `f` back gives `v`; the value is below 256,
so the `uint8_t` cast of `vsh_get_field` loses nothing. -/
theorem vsh_get_field_round_trip (f : Nat) (m : VshFieldMapping)
    (hm : table_get field_mapping f = .ok m) (v : Nat) (hv : v < 2 ^ m.bit_length) :
    vsh_get_field ((List.replicate 4 0).set m.subtoken (v <<< m.start_bit)) 0 f = .ok v
      ∧ v < 2 ^ 8 := by
  have hm' := (table_get_eq_ok _ _ _).mp hm
  obtain ⟨-, -, h3, h1, h8, h32⟩ := field_mapping_entry f m hm'
  have hw : ((List.replicate 4 0).set m.subtoken (v <<< m.start_bit))[0 + m.subtoken]?
      = some (v <<< m.start_bit) := by
    rw [Nat.zero_add, List.getElem?_set_self]
    simp
    omega
  have hlt : v <<< m.start_bit < 2 ^ 32 := by
    rw [Nat.shiftLeft_eq]
    calc v * 2 ^ m.start_bit < 2 ^ m.bit_length * 2 ^ m.start_bit :=
          Nat.mul_lt_mul_of_pos_right hv (Nat.two_pow_pos _)
      _ = 2 ^ (m.bit_length + m.start_bit) := (Nat.pow_add _ _ _).symm
      _ ≤ 2 ^ 32 := Nat.pow_le_pow_right (by decide) (by omega)
  refine ⟨?_, lt_of_lt_of_le hv (Nat.pow_le_pow_right (by decide) h8)⟩
  rw [vsh_get_field_ok _ 0 f (v <<< m.start_bit) m hm' hw, word_bits, Nat.mod_eq_of_lt hlt,
    Nat.shiftLeft_shiftRight, Nat.mod_eq_of_lt hv]

theorem vsh_get_field_round_trip_witness :
    table_get field_mapping FLD_CONST = .ok ⟨FLD_CONST, 1, 13, 8⟩ ∧ 0xAB < 2 ^ 8
      ∧ vsh_get_field [0, 0xAB <<< 13, 0, 0] 0 FLD_CONST = .ok 0xAB :=
  ⟨rfl, by decide,
    (vsh_get_field_round_trip FLD_CONST ⟨FLD_CONST, 1, 13, 8⟩ rfl 0xAB (by decide)).1⟩

/-! ## Faults of the decoders -/

theorem table_get_faults {α : Type} (S : VshFault → Prop) (h : ∀ i, S (.table_out_of_bounds i))
    (table : List α) (i : Nat) : faults_in S (table_get table i) := by
  unfold table_get
  cases table[i]? <;> simp [faults_in, h]

theorem load_token_faults (S : VshFault → Prop) (tokens : List Nat) (cur subtoken : Nat)
    (h : cur + subtoken < tokens.length ∨ ∀ i, S (.token_out_of_bounds i)) :
    faults_in S (load_token tokens cur subtoken) := by
  unfold load_token
  cases hw : tokens[cur + subtoken]? with
  | some w => simp [faults_in]
  | none =>
    rcases h with h | h
    · rw [List.getElem?_eq_none_iff] at hw
      omega
    · simp [faults_in, h]

theorem vsh_get_field_faults (S : VshFault → Prop) (tokens : List Nat) (cur : Nat)
    (h : DecodeFaults S tokens cur) (f : Nat) : faults_in S (vsh_get_field tokens cur f) := by
  cases hm : field_mapping[f]? with
  | none =>
    have : vsh_get_field tokens cur f = .error (.table_out_of_bounds f) := by
      simp [vsh_get_field, table_get, hm]
    rw [this]
    exact (faults_in_error S _).mpr (h.1 f)
  | some m =>
    have h3 := (field_mapping_entry f m hm).2.2.1
    cases hw : tokens[cur + m.subtoken]? with
    | some w =>
      rw [vsh_get_field_ok tokens cur f w m hm hw]
      exact (faults_in_ok S _).mpr trivial
    | none =>
      have : vsh_get_field tokens cur f = .error (.token_out_of_bounds (cur + m.subtoken)) := by
        simp [vsh_get_field, table_get, hm, vsh_get_from_token, load_token, hw]
      rw [this]
      refine (faults_in_error S _).mpr ?_
      rcases h.2.2 with h | h
      · rw [List.getElem?_eq_none_iff] at hw
        omega
      · exact h _

theorem decode_swizzle_faults (S : VshFault → Prop) (tokens : List Nat) (cur : Nat)
    (h : DecodeFaults S tokens cur) (f : Nat) : faults_in S (decode_swizzle tokens cur f) := by
  have hf := vsh_get_field_faults S tokens cur h
  have ht := fun {α : Type} => @table_get_faults α S h.1
  simp [decode_swizzle, faults_in_bind, faults_in_ite, faults_in_ok, faults_in_error, hf, ht]

theorem decode_opcode_input_faults (S : VshFault → Prop) (tokens : List Nat) (cur : Nat)
    (h : DecodeFaults S tokens cur) (param neg_field : Nat) (reg_num : Int) :
    faults_in S (decode_opcode_input tokens cur param neg_field reg_num) := by
  have hf := vsh_get_field_faults S tokens cur h
  have hs := decode_swizzle_faults S tokens cur h
  have hp := h.2.1
  simp [decode_opcode_input, faults_in_bind, faults_in_ite, faults_in_ok, faults_in_error, hf, hs,
    hp]

theorem decode_opcode_faults (S : VshFault → Prop) (tokens : List Nat) (cur : Nat)
    (h : DecodeFaults S tokens cur) (out_mux mask : Nat) (opcode inputs : String) :
    faults_in S (decode_opcode tokens cur out_mux mask opcode inputs) := by
  have hf := vsh_get_field_faults S tokens cur h
  have ht := fun {α : Type} => @table_get_faults α S h.1
  simp [decode_opcode, faults_in_bind, faults_in_ite, faults_in_ok, faults_in_error, hf, ht]

theorem decode_token_faults (S : VshFault → Prop) (tokens : List Nat) (cur : Nat)
    (h : DecodeFaults S tokens cur) : faults_in S (decode_token tokens cur) := by
  have hf := vsh_get_field_faults S tokens cur h
  have ht := fun {α : Type} => @table_get_faults α S h.1
  have hi := decode_opcode_input_faults S tokens cur h
  have ho := decode_opcode_faults S tokens cur h
  simp [decode_token, faults_in_bind, faults_in_ite, faults_in_ok, faults_in_error, hf, ht, hi, ho]

/-! ## The scan loop -/

theorem vsh_scan_zero (tokens : List Nat) (n cur : Nat) (body : String) :
    vsh_scan tokens n 0 cur body = .error .out_of_fuel := rfl

theorem vsh_scan_succ (tokens : List Nat) (n fuel cur : Nat) (body : String) :
    vsh_scan tokens n (fuel + 1) cur body =
      if cur < n then
        decode_token tokens cur >>= fun token_str =>
        load_token tokens cur 0 >>= fun w0 =>
        load_token tokens cur 1 >>= fun w1 =>
        load_token tokens cur 2 >>= fun w2 =>
        load_token tokens cur 3 >>= fun w3 =>
        vsh_get_field tokens cur FLD_FINAL >>= fun final =>
        if final ≠ 0 then
          .ok (body ++ slot_comment (cur / 4) w0 w1 w2 w3 ++ token_str ++ "\n", true)
        else
          vsh_scan tokens n fuel (cur + 4)
            (body ++ slot_comment (cur / 4) w0 w1 w2 w3 ++ token_str ++ "\n")
      else .ok (body, false) := by
  rw [vsh_scan]
  rfl

/-- The faults of the scan loop: with enough fuel it never runs out of it, and
when the token array holds `tokens_length` words, a multiple of four, it never
reads past the array. -/
theorem vsh_scan_faults (S : VshFault → Prop) (tokens : List Nat) (n : Nat)
    (h1 : ∀ i, S (.table_out_of_bounds i)) (h2 : ∀ p, S (.assert_param p))
    (h3 : (n % 4 = 0 ∧ n ≤ tokens.length) ∨ ∀ i, S (.token_out_of_bounds i)) :
    ∀ (fuel cur : Nat) (body : String), cur % 4 = 0 → 0 < fuel → n + 4 ≤ cur + 4 * fuel →
      faults_in S (vsh_scan tokens n fuel cur body) := by
  intro fuel
  induction fuel with
  | zero => intro cur body _ h0; omega
  | succ fuel ih =>
    intro cur body hcur _ hfuel
    rw [vsh_scan_succ]
    by_cases hlt : cur < n
    · have hD : DecodeFaults S tokens cur := by
        refine ⟨h1, h2, ?_⟩
        rcases h3 with h3 | h3
        · left; omega
        · right; exact h3
      have hload : ∀ s, s ≤ 3 → faults_in S (load_token tokens cur s) := by
        intro s hs
        apply load_token_faults
        rcases hD.2.2 with h | h
        · left; omega
        · right; exact h
      have hrec : ∀ b, faults_in S (vsh_scan tokens n fuel (cur + 4) b) :=
        fun b => ih (cur + 4) b (by omega) (by omega) (by omega)
      simp [hlt, faults_in_bind, faults_in_ite, faults_in_ok, decode_token_faults S tokens cur hD,
        vsh_get_field_faults S tokens cur hD, hload, hrec]
    · simp [hlt, faults_in_ok]

theorem vsh_translate_faults (S : VshFault → Prop) (version : Nat) (tokens : List Nat) (n : Nat)
    (h1 : ∀ i, S (.table_out_of_bounds i)) (h2 : ∀ p, S (.assert_param p))
    (h3 : (n % 4 = 0 ∧ n ≤ tokens.length) ∨ ∀ i, S (.token_out_of_bounds i))
    (h4 : S .assert_has_final) : faults_in S (vsh_translate version tokens n) := by
  have hs := vsh_scan_faults S tokens n h1 h2 h3 (n + 1) 0 "\n" rfl (by omega) (by omega)
  unfold vsh_translate
  simp only [faults_in_bind, faults_in_ite, faults_in_ok, faults_in_error, hs, h4, except_pure,
    except_throw, implies_true, and_self]

/-- Two budgets that both cover the remaining slots give the same result. -/
theorem vsh_scan_fuel_irrelevant (tokens : List Nat) (n : Nat) :
    ∀ (fuel1 fuel2 cur : Nat) (body : String), 0 < fuel1 → n + 4 ≤ cur + 4 * fuel1 →
      0 < fuel2 → n + 4 ≤ cur + 4 * fuel2 →
      vsh_scan tokens n fuel1 cur body = vsh_scan tokens n fuel2 cur body := by
  intro fuel1
  induction fuel1 with
  | zero => intro fuel2 cur body h0; omega
  | succ fuel1 ih =>
    intro fuel2 cur body _ hf1 h2 hf2
    obtain ⟨fuel2, rfl⟩ : ∃ k, fuel2 = k + 1 := ⟨fuel2 - 1, by omega⟩
    rw [vsh_scan_succ, vsh_scan_succ]
    by_cases hlt : cur < n
    · have hrec : ∀ b, vsh_scan tokens n fuel1 (cur + 4) b = vsh_scan tokens n fuel2 (cur + 4) b :=
        fun b => ih fuel2 (cur + 4) b (by omega) (by omega) (by omega) (by omega)
      simp only [hrec]
    · simp only [hlt, if_false]

/-- C5: when `tokens_length` is a multiple of four and the token array holds
`tokens_length` words, the translation never reads a word at an index that the
array does not have, and the scan loop ends within `tokens_length / 4` slot
iterations: a budget of that many iterations and the closing test of the loop
condition is never exhausted and gives the result of the translator's loop. -/
theorem vsh_translate_reads_in_bounds (version : Nat) (tokens : List Nat) (n : Nat)
    (h4 : n % 4 = 0) (hlen : tokens.length = n) :
    (∀ i, vsh_translate version tokens n ≠ .error (.token_out_of_bounds i))
      ∧ vsh_translate version tokens n ≠ .error .out_of_fuel
      ∧ ∀ body, vsh_scan tokens n (n / 4 + 1) 0 body ≠ .error .out_of_fuel
          ∧ (∀ i, vsh_scan tokens n (n / 4 + 1) 0 body ≠ .error (.token_out_of_bounds i))
          ∧ vsh_scan tokens n (n + 1) 0 body = vsh_scan tokens n (n / 4 + 1) 0 body := by
  have hS : ∀ fuel body, 0 < fuel → n + 4 ≤ 0 + 4 * fuel →
      faults_in (fun e => e ≠ .out_of_fuel ∧ ∀ i, e ≠ .token_out_of_bounds i)
        (vsh_scan tokens n fuel 0 body) := fun fuel body hpos hfuel =>
    vsh_scan_faults _ tokens n (fun i => ⟨by simp, by simp⟩) (fun p => ⟨by simp, by simp⟩)
      (Or.inl ⟨h4, by omega⟩) fuel 0 body rfl hpos hfuel
  have hT := vsh_translate_faults (fun e => e ≠ .out_of_fuel ∧ ∀ i, e ≠ .token_out_of_bounds i)
    version tokens n (fun i => ⟨by simp, by simp⟩) (fun p => ⟨by simp, by simp⟩)
    (Or.inl ⟨h4, by omega⟩) ⟨by simp, by simp⟩
  refine ⟨fun i h => (hT _ h).2 i rfl, fun h => (hT _ h).1 rfl, fun body => ⟨?_, ?_, ?_⟩⟩
  · exact fun h => (hS _ body (by omega) (by omega) _ h).1 rfl
  · exact fun i h => (hS _ body (by omega) (by omega) _ h).2 i rfl
  · exact vsh_scan_fuel_irrelevant tokens n _ _ 0 body (by omega) (by omega) (by omega)
      (by omega)

theorem vsh_translate_reads_in_bounds_witness :
    4 % 4 = 0 ∧ [0, 0x0020001B, 0x0836106C, 0x2F000FF9].length = 4
      ∧ (∀ i, vsh_translate 0 [0, 0x0020001B, 0x0836106C, 0x2F000FF9] 4
          ≠ .error (.token_out_of_bounds i)) :=
  ⟨rfl, rfl,
    (vsh_translate_reads_in_bounds 0 [0, 0x0020001B, 0x0836106C, 0x2F000FF9] 4 rfl rfl).1⟩

/-! ## Programs without a final slot -/

theorem vsh_scan_no_final (tokens : List Nat) (n : Nat)
    (hnf : ∀ slot, 4 * slot < n → ∀ f, vsh_get_field tokens (4 * slot) FLD_FINAL = .ok f → f = 0) :
    ∀ (fuel cur : Nat) (body : String), cur % 4 = 0 →
      results_in (fun r => r.2 = false) (vsh_scan tokens n fuel cur body) := by
  intro fuel
  induction fuel with
  | zero =>
    intro cur body _
    rw [vsh_scan_zero]
    exact (results_in_error _ _).mpr trivial
  | succ fuel ih =>
    intro cur body hcur
    rw [vsh_scan_succ]
    by_cases hlt : cur < n
    · have hcur4 : 4 * (cur / 4) = cur := by omega
      have hfin : ∀ f, vsh_get_field tokens cur FLD_FINAL = .ok f → f = 0 := by
        have := hnf (cur / 4) (by omega)
        rwa [hcur4] at this
      have hrec : ∀ b, results_in (fun r => r.2 = false) (vsh_scan tokens n fuel (cur + 4) b) :=
        fun b => ih (cur + 4) b (by omega)
      simp only [hlt, if_true, results_in_bind, results_in_ite, results_in_ok, hrec]
      intro _ _ _ _ _ _ _ _ _ _ f hf
      exact ⟨fun hne => absurd (hfin f hf) hne, fun _ => trivial⟩
    · simp [hlt, results_in_ok]

/-- A slot whose four words lie inside the token array has a value for every
field of the table. -/
theorem vsh_get_field_total (tokens : List Nat) (cur f : Nat) (hcur : cur + 3 < tokens.length)
    (hf : f < 35) : ∃ m, field_mapping[f]? = some m ∧
      vsh_get_field tokens cur f
        = .ok (word_bits (tokens.getD (cur + m.subtoken) 0) m.start_bit m.bit_length) := by
  have hlt : f < field_mapping.length := hf
  have hm : field_mapping[f]? = some field_mapping[f] := List.getElem?_eq_getElem hlt
  have h3 := (field_mapping_entry f _ hm).2.2.1
  have hi : cur + (field_mapping[f]).subtoken < tokens.length := by omega
  refine ⟨_, hm, ?_⟩
  rw [vsh_get_field_ok tokens cur f (tokens[cur + (field_mapping[f]).subtoken]) _ hm
    (List.getElem?_eq_getElem hi)]
  simp [List.getD, List.getElem?_eq_getElem hi]

theorem load_token_total (tokens : List Nat) (cur s : Nat) (h : cur + s < tokens.length) :
    load_token tokens cur s = .ok (tokens.getD (cur + s) 0 % 2 ^ 32) := by
  simp [load_token, List.getD, List.getElem?_eq_getElem h]

theorem vsh_translate_eq (version : Nat) (tokens : List Nat) (n : Nat) :
    vsh_translate version tokens n =
      vsh_scan tokens n (n + 1) 0 "\n" >>= fun r =>
        if r.2 = false then .error .assert_has_final
        else .ok (vsh_header ++ "\nvoid main(void)\n\x7b\n" ++ r.1 ++ vsh_epilogue ++ "\x7d\n") := by
  simp only [vsh_translate]
  cases vsh_scan tokens n (n + 1) 0 "\n" with
  | error e => simp only [except_bind_error]
  | ok r =>
    obtain ⟨b, hf⟩ := r
    cases hf
    · simp only [except_bind_ok, Bool.not_eq_true, if_true, except_throw]
    · simp only [except_bind_ok, Bool.not_eq_true, reduceCtorEq, if_false, except_pure,
        String.append_assoc, String.empty_append]

theorem vsh_scan_all_decoded (tokens : List Nat) (n : Nat)
    (hnf : ∀ slot, 4 * slot < n → ∀ f, vsh_get_field tokens (4 * slot) FLD_FINAL = .ok f → f = 0)
    (hdec : ∀ slot, 4 * slot < n →
      4 * slot + 3 < tokens.length ∧ ∃ text, decode_token tokens (4 * slot) = .ok text) :
    ∀ (fuel cur : Nat) (body : String), cur % 4 = 0 → 0 < fuel → n + 4 ≤ cur + 4 * fuel →
      ∃ b, vsh_scan tokens n fuel cur body = .ok (b, false) := by
  intro fuel
  induction fuel with
  | zero => intro cur body _ h0; omega
  | succ fuel ih =>
    intro cur body hcur _ hfuel
    rw [vsh_scan_succ]
    by_cases hlt : cur < n
    · have hcur4 : 4 * (cur / 4) = cur := by omega
      obtain ⟨hin, text, htext⟩ := hdec (cur / 4) (by omega)
      rw [hcur4] at hin htext
      obtain ⟨m, -, hfin⟩ := vsh_get_field_total tokens cur FLD_FINAL hin (by decide)
      have hzero := hnf (cur / 4) (by omega) _ (by rw [hcur4]; exact hfin)
      simp only [hlt, if_true, htext, except_bind_ok, load_token_total tokens cur _
        (show cur + 0 < tokens.length by omega), load_token_total tokens cur _
        (show cur + 1 < tokens.length by omega), load_token_total tokens cur _
        (show cur + 2 < tokens.length by omega), load_token_total tokens cur _
        (show cur + 3 < tokens.length by omega), hfin, hzero, ne_eq, not_true_eq_false, if_false]
      exact ih (cur + 4) _ (by omega) (by omega) (by omega)
    · exact ⟨body, by simp only [hlt, if_false]⟩

/-- C1 (as stated, refuted): the one-slot program of four zero words has no
final flag, but its translation does not reach `assert(has_final)`: operand C
has class 0 (`PARAM_UNKNOWN`), and the `assert(false)` of `decode_opcode_input`
stops the run while slot 0 is decoded. -/
theorem vsh_translate_no_final_decode_fault :
    (∀ slot, 4 * slot < 4 →
        ∀ f, vsh_get_field [0, 0, 0, 0] (4 * slot) FLD_FINAL = .ok f → f = 0)
      ∧ vsh_translate 0 [0, 0, 0, 0] 4 = .error (.assert_param PARAM_UNKNOWN)
      ∧ vsh_translate 0 [0, 0, 0, 0] 4 ≠ .error .assert_has_final := by
  have h : vsh_translate 0 [0, 0, 0, 0] 4 = .error (.assert_param PARAM_UNKNOWN) := rfl
  refine ⟨?_, h, ?_⟩
  · intro slot hs f hf
    obtain rfl : slot = 0 := by omega
    cases hf
    rfl
  · rw [h]
    intro e
    cases e

/-- C1 (amended): a token array in which no scanned slot has the final flag set
is not translated to any text: the translation ends in a fault, and when the
scanned slots themselves decode (each lies inside the array and `decode_token`
returns text for it), the fault is the failed `assert(has_final)`.  The empty
program (`tokens_length = 0`) is the case in which no slot is scanned at all. -/
theorem vsh_translate_no_final (version : Nat) (tokens : List Nat) (n : Nat)
    (hnf : ∀ slot, 4 * slot < n →
      ∀ f, vsh_get_field tokens (4 * slot) FLD_FINAL = .ok f → f = 0) :
    (∃ e, vsh_translate version tokens n = .error e ∧ e ≠ .out_of_fuel)
      ∧ (∀ text, vsh_translate version tokens n ≠ .ok text)
      ∧ ((∀ slot, 4 * slot < n →
            4 * slot + 3 < tokens.length ∧ ∃ text, decode_token tokens (4 * slot) = .ok text) →
          vsh_translate version tokens n = .error .assert_has_final) := by
  have hR := vsh_scan_no_final tokens n hnf (n + 1) 0 "\n" rfl
  have hF := vsh_scan_faults (fun e => e ≠ .out_of_fuel) tokens n (fun i => by simp)
    (fun p => by simp) (Or.inr fun i => by simp) (n + 1) 0 "\n" rfl (by omega) (by omega)
  have key : ∃ e, vsh_translate version tokens n = .error e ∧ e ≠ .out_of_fuel := by
    rw [vsh_translate_eq]
    cases hs : vsh_scan tokens n (n + 1) 0 "\n" with
    | error e => exact ⟨e, rfl, hF e hs⟩
    | ok r =>
      have hr : r.2 = false := hR r hs
      exact ⟨.assert_has_final, by simp only [except_bind_ok, hr, if_true], by simp⟩
  refine ⟨key, ?_, ?_⟩
  · obtain ⟨e, he, -⟩ := key
    intro text h
    rw [he] at h
    cases h
  · intro hdec
    obtain ⟨b, hb⟩ := vsh_scan_all_decoded tokens n hnf hdec (n + 1) 0 "\n" rfl (by omega)
      (by omega)
    rw [vsh_translate_eq, hb]
    rfl

theorem vsh_translate_no_final_witness :
    (∀ slot, 4 * slot < 4 →
        ∀ f, vsh_get_field [0, 0x0020001B, 0x0836106C, 0x2F000FF8] (4 * slot) FLD_FINAL = .ok f →
          f = 0)
      ∧ vsh_translate 0 [0, 0x0020001B, 0x0836106C, 0x2F000FF8] 4 = .error .assert_has_final
      ∧ (∃ e, vsh_translate 0 [] 0 = .error e ∧ e ≠ .out_of_fuel) := by
  have h : ∀ slot, 4 * slot < 4 →
      ∀ f, vsh_get_field [0, 0x0020001B, 0x0836106C, 0x2F000FF8] (4 * slot) FLD_FINAL = .ok f →
        f = 0 := by
    intro slot hs f hf
    obtain rfl : slot = 0 := by omega
    cases hf
    rfl
  refine ⟨h, ?_, (vsh_translate_no_final 0 [] 0 (fun slot hs => by omega)).1⟩
  refine (vsh_translate_no_final 0 [0, 0x0020001B, 0x0836106C, 0x2F000FF8] 4 h).2.2 ?_
  intro slot hs
  obtain rfl : slot = 0 := by omega
  exact ⟨by decide, _, rfl⟩

/-! ## Programs with a final slot -/

theorem string_join_cons (a : String) (l : List String) :
    String.join (a :: l) = a ++ String.join l := by
  have h : ∀ (l : List String) (x y : String),
      List.foldl (fun r s => r ++ s) (x ++ y) l = x ++ List.foldl (fun r s => r ++ s) y l := by
    intro l
    induction l with
    | nil => intro x y; rfl
    | cons c l ih =>
      intro x y
      simp only [List.foldl_cons, String.append_assoc, ih]
  simp only [String.join, List.foldl_cons]
  have := h l a ""
  rw [String.append_empty] at this
  rw [String.empty_append]
  exact this

theorem fmt_08X_mod (w : Nat) : fmt_08X (w % 2 ^ 32) = fmt_08X w := by
  simp only [fmt_08X, Nat.mod_mod]

theorem slot_comment_mod (slot w0 w1 w2 w3 : Nat) :
    slot_comment slot (w0 % 2 ^ 32) (w1 % 2 ^ 32) (w2 % 2 ^ 32) (w3 % 2 ^ 32)
      = slot_comment slot w0 w1 w2 w3 := by
  simp only [slot_comment, fmt_08X_mod]

theorem load_token_eq_ok (tokens : List Nat) (cur s w : Nat)
    (h : load_token tokens cur s = .ok w) :
    cur + s < tokens.length ∧ w = tokens.getD (cur + s) 0 % 2 ^ 32 := by
  unfold load_token at h
  cases hw : tokens[cur + s]? with
  | none => rw [hw] at h; cases h
  | some word =>
    rw [hw] at h
    obtain ⟨hlt, hget⟩ := List.getElem?_eq_some.mp hw
    cases h
    exact ⟨hlt, by simp [List.getD, hw]⟩

theorem decoded_text_of_ok (tokens : List Nat) (cur : Nat) (t : String)
    (h : decode_token tokens cur = .ok t) : decoded_text tokens cur = t := by
  simp only [decoded_text, h]

/-- What a scan that ends at a final slot has done: when slot `k` is the first
slot with the final flag, the scan started at slot `j ≤ k` decoded the slots
`j .. k` and appended their texts in order. -/
theorem vsh_scan_final (tokens : List Nat) (n k : Nat)
    (hnf : ∀ i, i < k → vsh_get_field tokens (4 * i) FLD_FINAL = .ok 0)
    (hf : ∃ f, f ≠ 0 ∧ vsh_get_field tokens (4 * k) FLD_FINAL = .ok f) :
    ∀ (fuel j : Nat) (body b : String), j ≤ k →
      vsh_scan tokens n fuel (4 * j) body = .ok (b, true) →
      4 * k < n ∧ (∀ i, j ≤ i → i ≤ k → ∃ t, decode_token tokens (4 * i) = .ok t)
        ∧ b = body ++ String.join ((List.range' j (k + 1 - j)).map (slot_text tokens)) := by
  intro fuel
  induction fuel with
  | zero =>
    intro j body b _ h
    rw [vsh_scan_zero] at h
    cases h
  | succ fuel ih =>
    intro j body b hjk h
    rw [vsh_scan_succ] at h
    by_cases hlt : 4 * j < n
    · simp only [hlt, if_true, except_bind_eq_ok] at h
      obtain ⟨t, ht, w0, hw0, w1, hw1, w2, hw2, w3, hw3, f, hfin, h⟩ := h
      have e0 := (load_token_eq_ok _ _ _ _ hw0).2
      have e1 := (load_token_eq_ok _ _ _ _ hw1).2
      have e2 := (load_token_eq_ok _ _ _ _ hw2).2
      have e3 := (load_token_eq_ok _ _ _ _ hw3).2
      have hdiv : 4 * j / 4 = j := Nat.mul_div_cancel_left j (by decide)
      have hchunk : slot_comment (4 * j / 4) w0 w1 w2 w3 ++ t ++ "\n" = slot_text tokens j := by
        rw [hdiv, e0, e1, e2, e3, slot_comment_mod, slot_text, decoded_text_of_ok _ _ _ ht]
        rfl
      rcases Nat.lt_or_ge j k with hj | hj
      · have hz := hnf j hj
        rw [hz] at hfin
        cases hfin
        simp only [ne_eq, not_true_eq_false, if_false] at h
        obtain ⟨h1, h2, h3⟩ := ih (j + 1) _ b hj h
        refine ⟨h1, ?_, ?_⟩
        · intro i hji hik
          rcases Nat.eq_or_lt_of_le hji with rfl | hlt'
          · exact ⟨t, ht⟩
          · exact h2 i hlt' hik
        · have hlen : k + 1 - j = (k + 1 - (j + 1)) + 1 := by omega
          rw [h3, hlen, List.range'_succ, List.map_cons, string_join_cons, ← hchunk]
          simp only [String.append_assoc]
      · obtain rfl : j = k := by omega
        obtain ⟨f', hne, hf'⟩ := hf
        rw [hf'] at hfin
        cases hfin
        simp only [ne_eq, hne, not_false_eq_true, if_true, Except.ok.injEq, Prod.mk.injEq,
          and_true] at h
        refine ⟨hlt, ?_, ?_⟩
        · intro i hji hik
          obtain rfl : i = j := by omega
          exact ⟨t, ht⟩
        · have hlen : j + 1 - j = 1 := by omega
          rw [← h, hlen]
          simp only [List.range', List.map_cons, List.map_nil, string_join_cons,
            String.append_assoc, ← hchunk]
          rfl
    · simp only [hlt, if_false] at h
      cases h

/-- C3: a program that translates successfully with its first final flag at
slot `k` yields the header, the opening of `main`, a newline, then for each of
the slots `0 .. k` in order its comment (slot number and the four words as
eight upper-case hexadecimal digits each), the text that `decode_token` returns
for it and a newline, then the epilogue and the closing brace.  Header and
epilogue are constants. -/
theorem vsh_translate_text (version : Nat) (tokens : List Nat) (n k : Nat) (text : String)
    (hok : vsh_translate version tokens n = .ok text)
    (hnf : ∀ i, i < k → vsh_get_field tokens (4 * i) FLD_FINAL = .ok 0)
    (hf : ∃ f, f ≠ 0 ∧ vsh_get_field tokens (4 * k) FLD_FINAL = .ok f) :
    (∀ i, i ≤ k → decode_token tokens (4 * i) = .ok (decoded_text tokens (4 * i)))
      ∧ text = vsh_header ++ "\nvoid main(void)\n\x7b\n" ++ "\n"
          ++ String.join ((List.range (k + 1)).map fun i =>
              slot_comment i (tokens.getD (4 * i) 0) (tokens.getD (4 * i + 1) 0)
                (tokens.getD (4 * i + 2) 0) (tokens.getD (4 * i + 3) 0)
              ++ decoded_text tokens (4 * i) ++ "\n")
          ++ vsh_epilogue ++ "\x7d\n" := by
  rw [vsh_translate_eq, except_bind_eq_ok] at hok
  obtain ⟨⟨b, fin⟩, hscan, hres⟩ := hok
  cases fin with
  | false => simp at hres
  | true =>
    simp only [reduceCtorEq, if_false, Except.ok.injEq] at hres
    obtain ⟨-, hdec, hb⟩ := vsh_scan_final tokens n k hnf hf (n + 1) 0 "\n" b (Nat.zero_le k) hscan
    refine ⟨?_, ?_⟩
    · intro i hik
      obtain ⟨t, ht⟩ := hdec i (Nat.zero_le i) hik
      rw [decoded_text_of_ok _ _ _ ht, ht]
    · unfold slot_text at hb
      rw [← hres, hb, Nat.sub_zero, ← List.range_eq_range']
      simp only [String.append_assoc]

/-! ## Decoding inside the token array -/

theorem vsh_get_field_range (tokens : List Nat) (cur f v : Nat) (m : VshFieldMapping)
    (hm : field_mapping[f]? = some m) (h : vsh_get_field tokens cur f = .ok v) :
    v < 2 ^ m.bit_length := by
  cases hw : tokens[cur + m.subtoken]? with
  | none =>
    have : vsh_get_field tokens cur f = .error (.token_out_of_bounds (cur + m.subtoken)) := by
      simp [vsh_get_field, table_get, hm, vsh_get_from_token, load_token, hw]
    rw [this] at h
    cases h
  | some w =>
    rw [vsh_get_field_ok tokens cur f w m hm hw] at h
    cases h
    exact word_bits_lt _ _ _

/-- Inside the token array every field of the table has a value. -/
theorem vsh_get_field_eq_value (tokens : List Nat) (cur : Nat) (hcur : cur + 3 < tokens.length)
    (f : Nat) (hf : f < 35) : vsh_get_field tokens cur f = .ok (field_value tokens cur f) := by
  obtain ⟨m, hm, h⟩ := vsh_get_field_total tokens cur f hcur hf
  rw [h, field_value, hm]

theorem field_value_lt (tokens : List Nat) (cur f : Nat) (m : VshFieldMapping)
    (hm : field_mapping[f]? = some m) : field_value tokens cur f < 2 ^ m.bit_length := by
  rw [field_value, hm]
  exact word_bits_lt _ _ _

theorem field_value_lt_width (tokens : List Nat) (cur f b : Nat)
    (h : (field_mapping[f]?).map (fun m => m.bit_length) = some b) :
    field_value tokens cur f < 2 ^ b := by
  cases hm : field_mapping[f]? with
  | none => rw [hm] at h; cases h
  | some m =>
    rw [hm] at h
    cases h
    exact field_value_lt tokens cur f m hm

theorem decode_swizzle_total (tokens : List Nat) (cur f : Nat) (hcur : cur + 3 < tokens.length)
    (hf : f = FLD_A_SWZ_X ∨ f = FLD_B_SWZ_X ∨ f = FLD_C_SWZ_X) :
    ∃ s, decode_swizzle tokens cur f = .ok s := by
  have hfv := vsh_get_field_eq_value tokens cur hcur
  have hilu : field_value tokens cur 0 < 8 := field_value_lt_width tokens cur 0 3 rfl
  have hsw : ∀ g, g ∈ [5, 6, 7, 8, 12, 13, 14, 15, 19, 20, 21, 22] →
      table_get swizzle_str (field_value tokens cur g)
        = .ok (swizzle_str.getD (field_value tokens cur g) 'x') := by
    intro g hg
    have hlt : field_value tokens cur g < swizzle_str.length := by
      simp only [List.mem_cons, List.mem_singleton, List.not_mem_nil, or_false] at hg
      rcases hg with rfl | rfl | rfl | rfl | rfl | rfl | rfl | rfl | rfl | rfl | rfl | rfl
      all_goals exact field_value_lt_width tokens cur _ 2 rfl
    rw [table_get_of_lt _ _ hlt]
    simp [List.getD, List.getElem?_eq_getElem hlt]
  have hfs : table_get ilu_force_scalar (field_value tokens cur 0)
      = .ok (ilu_force_scalar.getD (field_value tokens cur 0) false) := by
    have hlt' : field_value tokens cur 0 < ilu_force_scalar.length := hilu
    rw [table_get_of_lt _ _ hlt']
    simp [List.getD, List.getElem?_eq_getElem hlt']
  rcases hf with rfl | rfl | rfl <;>
    simp [decode_swizzle, FLD_A_SWZ_X, FLD_B_SWZ_X, FLD_C_SWZ_X, FLD_ILU, hfv, hfs, hsw,
      except_ite_bind] <;>
    split_ifs <;> exact ⟨_, rfl⟩

theorem decode_opcode_input_total (tokens : List Nat) (cur : Nat) (hcur : cur + 3 < tokens.length)
    (param neg_field : Nat) (reg_num : Int)
    (hp : param = PARAM_R ∨ param = PARAM_V ∨ param = PARAM_C)
    (hn : neg_field = FLD_A_NEG ∨ neg_field = FLD_B_NEG ∨ neg_field = FLD_C_NEG) :
    ∃ s, decode_opcode_input tokens cur param neg_field reg_num = .ok s := by
  have hfv := vsh_get_field_eq_value tokens cur hcur
  obtain ⟨sw, hsw⟩ : ∃ s, decode_swizzle tokens cur (neg_field + 1) = .ok s :=
    decode_swizzle_total tokens cur _ hcur (by rcases hn with rfl | rfl | rfl <;> simp
      [FLD_A_NEG, FLD_B_NEG, FLD_C_NEG, FLD_A_SWZ_X, FLD_B_SWZ_X, FLD_C_SWZ_X])
  have hn35 : neg_field < 35 := by rcases hn with rfl | rfl | rfl <;> decide
  rcases hp with rfl | rfl | rfl
  all_goals
    simp only [decode_opcode_input, PARAM_R, PARAM_V, PARAM_C, FLD_V, FLD_CONST, FLD_A0X, hfv,
      hn35, hsw, except_ite_bind, except_bind_ok, except_pure, Nat.reduceLT]
    simp
  all_goals
    first
      | exact ⟨_, rfl⟩
      | (split_ifs <;> exact ⟨_, rfl⟩)

/-! ## The one-instruction program `MOV R0, v0` -/

/-- C4: a program whose first slot has MAC = MOV with output mask XYZW and
destination R0, operand A = `v0` unnegated with identity swizzle, ILU = NOP, no
named output, a valid operand-C class and the final flag decodes to the one
statement `MOV(R0,xyzw, v0);`; the translation succeeds and its body holds slot
0 only, whatever the words after slot 0 are and however long the token array is
said to be (in particular for the one-slot program, `tokens_length = 4`). -/
theorem vsh_translate_mov (version : Nat) (tokens : List Nat) (n c_mux : Nat)
    (hlen : 4 ≤ tokens.length) (hn : 0 < n)
    (hmac : vsh_get_field tokens 0 FLD_MAC = .ok MAC_MOV)
    (hmask : vsh_get_field tokens 0 FLD_OUT_MAC_MASK = .ok 15)
    (hr : vsh_get_field tokens 0 FLD_OUT_R = .ok 0)
    (hamux : vsh_get_field tokens 0 FLD_A_MUX = .ok PARAM_V)
    (hv : vsh_get_field tokens 0 FLD_V = .ok 0)
    (haneg : vsh_get_field tokens 0 FLD_A_NEG = .ok 0)
    (hx : vsh_get_field tokens 0 FLD_A_SWZ_X = .ok SWIZZLE_X)
    (hy : vsh_get_field tokens 0 FLD_A_SWZ_Y = .ok SWIZZLE_Y)
    (hz : vsh_get_field tokens 0 FLD_A_SWZ_Z = .ok SWIZZLE_Z)
    (hw : vsh_get_field tokens 0 FLD_A_SWZ_W = .ok SWIZZLE_W)
    (hilu : vsh_get_field tokens 0 FLD_ILU = .ok ILU_NOP)
    (homask : vsh_get_field tokens 0 FLD_OUT_O_MASK = .ok 0)
    (hcmux : vsh_get_field tokens 0 FLD_C_MUX = .ok c_mux) (hc : c_mux ≠ PARAM_UNKNOWN)
    (hfinal : vsh_get_field tokens 0 FLD_FINAL = .ok 1) :
    decode_token tokens 0 = .ok "  MOV(R0,xyzw, v0);\n"
      ∧ vsh_translate version tokens n
          = .ok (vsh_header ++ "\nvoid main(void)\n\x7b\n" ++ "\n"
              ++ slot_comment 0 (tokens.getD 0 0) (tokens.getD 1 0) (tokens.getD 2 0)
                  (tokens.getD 3 0)
              ++ "  MOV(R0,xyzw, v0);\n" ++ "\n" ++ vsh_epilogue ++ "\x7d\n") := by
  have hcur : 0 + 3 < tokens.length := by omega
  have hfv := vsh_get_field_eq_value tokens 0 hcur
  have hc4 : c_mux < 4 := vsh_get_field_range tokens 0 FLD_C_MUX c_mux ⟨FLD_C_MUX, 3, 28, 2⟩ rfl hcmux
  obtain ⟨sc, hsc⟩ := decode_opcode_input_total tokens 0 hcur c_mux FLD_C_NEG
    (((field_value tokens 0 FLD_C_R_HIGH <<< 2 ||| field_value tokens 0 FLD_C_R_LOW : Nat) : Int))
    (by simp only [PARAM_UNKNOWN, PARAM_R, PARAM_V, PARAM_C] at hc ⊢; omega) (Or.inr (Or.inr rfl))
  have hswz : decode_swizzle tokens 0 (FLD_A_NEG + 1) = .ok "" := by
    simp only [FLD_A_SWZ_X, FLD_A_SWZ_Y, FLD_A_SWZ_Z, FLD_A_SWZ_W] at hx hy hz hw
    simp [decode_swizzle, FLD_A_NEG, FLD_C_SWZ_X, hx, hy, hz, hw]
  have hina : decode_opcode_input tokens 0 PARAM_V FLD_A_NEG
      ((field_value tokens 0 FLD_A_R : Nat) : Int) = .ok "v0" := by
    simp [decode_opcode_input, haneg, hv, hswz, PARAM_V, PARAM_R]
    rfl
  have hop : decode_opcode tokens 0 OMUX_MAC 15 "MOV" ", v0" = .ok "  MOV(R0,xyzw, v0);\n" := by
    simp [decode_opcode, hr, hilu, homask, hfv FLD_OUT_MUX (by decide), OMUX_MAC, OMUX_ILU,
      ILU_NOP, MAC_ARL, table_get, mac_opcode, mask_str]
    rfl
  have hdec : decode_token tokens 0 = .ok "  MOV(R0,xyzw, v0);\n" := by
    simp [decode_token, hcmux, hfv FLD_C_R_HIGH (by decide), hfv FLD_C_R_LOW (by decide), hsc,
      hmac, hamux, hfv FLD_A_R (by decide), hina, hmask, hilu, hop, MAC_MOV, MAC_NOP, ILU_NOP,
      table_get, mac_opcode_params, mac_opcode]
  refine ⟨hdec, ?_⟩
  have hscan : vsh_scan tokens n (n + 1) 0 "\n"
      = .ok ("\n" ++ slot_comment 0 (tokens.getD 0 0) (tokens.getD 1 0) (tokens.getD 2 0)
          (tokens.getD 3 0) ++ "  MOV(R0,xyzw, v0);\n" ++ "\n", true) := by
    rw [vsh_scan_succ]
    simp only [hn, if_true, hdec, except_bind_ok, load_token_total tokens 0 _
      (show 0 + 0 < tokens.length by omega), load_token_total tokens 0 _
      (show 0 + 1 < tokens.length by omega), load_token_total tokens 0 _
      (show 0 + 2 < tokens.length by omega), load_token_total tokens 0 _
      (show 0 + 3 < tokens.length by omega), hfinal, slot_comment_mod, Nat.zero_div, Nat.zero_add,
      ne_eq, one_ne_zero, not_false_eq_true]
  rw [vsh_translate_eq, hscan]
  simp only [except_bind_ok, reduceCtorEq, if_false, String.append_assoc]

theorem vsh_translate_mov_witness :
    vsh_get_field [0, 0x0020001B, 0x0836106C, 0x2F000FF9] 0 FLD_MAC = .ok MAC_MOV
      ∧ vsh_get_field [0, 0x0020001B, 0x0836106C, 0x2F000FF9] 0 FLD_C_MUX = .ok PARAM_V
      ∧ vsh_get_field [0, 0x0020001B, 0x0836106C, 0x2F000FF9] 0 FLD_FINAL = .ok 1
      ∧ decode_token [0, 0x0020001B, 0x0836106C, 0x2F000FF9] 0 = .ok "  MOV(R0,xyzw, v0);\n"
      ∧ vsh_translate 0 [0, 0x0020001B, 0x0836106C, 0x2F000FF9] 4
          = .ok (vsh_header ++ "\nvoid main(void)\n\x7b\n" ++ "\n"
              ++ slot_comment 0 0 0x0020001B 0x0836106C 0x2F000FF9
              ++ "  MOV(R0,xyzw, v0);\n" ++ "\n" ++ vsh_epilogue ++ "\x7d\n") :=
  ⟨rfl, rfl, rfl,
    vsh_translate_mov 0 [0, 0x0020001B, 0x0836106C, 0x2F000FF9] 4 PARAM_V (by decide) (by decide)
      rfl rfl rfl rfl rfl rfl rfl rfl rfl rfl rfl rfl rfl (by decide) rfl⟩

/-! ## The scan depends on the slots up to the final one only -/

theorem load_token_congr (tokens1 tokens2 : List Nat) (cur s : Nat)
    (h : tokens1[cur + s]? = tokens2[cur + s]?) :
    load_token tokens1 cur s = load_token tokens2 cur s := by
  simp only [load_token, h]

theorem vsh_get_field_congr (tokens1 tokens2 : List Nat) (cur : Nat)
    (h : ∀ s, s ≤ 3 → tokens1[cur + s]? = tokens2[cur + s]?) (f : Nat) :
    vsh_get_field tokens1 cur f = vsh_get_field tokens2 cur f := by
  cases hm : field_mapping[f]? with
  | none => simp [vsh_get_field, table_get, hm]
  | some m =>
    have h3 := (field_mapping_entry f m hm).2.2.1
    simp only [vsh_get_field, table_get, hm, except_bind_ok, vsh_get_from_token,
      load_token_congr tokens1 tokens2 cur m.subtoken (h _ h3)]

theorem decode_token_congr (tokens1 tokens2 : List Nat) (cur : Nat)
    (h : ∀ s, s ≤ 3 → tokens1[cur + s]? = tokens2[cur + s]?) :
    decode_token tokens1 cur = decode_token tokens2 cur := by
  have hf := vsh_get_field_congr tokens1 tokens2 cur h
  have hs : ∀ f, decode_swizzle tokens1 cur f = decode_swizzle tokens2 cur f := by
    intro f
    simp only [decode_swizzle, hf]
  have hi : ∀ p f r, decode_opcode_input tokens1 cur p f r = decode_opcode_input tokens2 cur p f r := by
    intro p f r
    simp only [decode_opcode_input, hf, hs]
  have ho : ∀ m k o i, decode_opcode tokens1 cur m k o i = decode_opcode tokens2 cur m k o i := by
    intro m k o i
    simp only [decode_opcode, hf]
  simp only [decode_token, hf, hi, ho]

theorem vsh_scan_congr (tokens1 tokens2 : List Nat) (n1 n2 k : Nat)
    (hk1 : 4 * k < n1) (hk2 : 4 * k < n2)
    (hagree : ∀ i, i < 4 * k + 4 → tokens1[i]? = tokens2[i]?)
    (hnf : ∀ i, i < k → vsh_get_field tokens1 (4 * i) FLD_FINAL = .ok 0)
    (hf : ∃ f, f ≠ 0 ∧ vsh_get_field tokens1 (4 * k) FLD_FINAL = .ok f) :
    ∀ (fuel1 fuel2 j : Nat) (body : String), j ≤ k → k - j < fuel1 → k - j < fuel2 →
      vsh_scan tokens1 n1 fuel1 (4 * j) body = vsh_scan tokens2 n2 fuel2 (4 * j) body := by
  intro fuel1
  induction fuel1 with
  | zero => intro fuel2 j body _ h0; omega
  | succ fuel1 ih =>
    intro fuel2 j body hjk _ h2
    obtain ⟨fuel2, rfl⟩ : ∃ m, fuel2 = m + 1 := ⟨fuel2 - 1, by omega⟩
    have hw : ∀ s, s ≤ 3 → tokens1[4 * j + s]? = tokens2[4 * j + s]? :=
      fun s hs => hagree _ (by omega)
    have hfld := vsh_get_field_congr tokens1 tokens2 (4 * j) hw
    rw [vsh_scan_succ, vsh_scan_succ, if_pos (show 4 * j < n1 by omega),
      if_pos (show 4 * j < n2 by omega), decode_token_congr tokens1 tokens2 (4 * j) hw,
      load_token_congr tokens1 tokens2 (4 * j) 0 (hw 0 (by omega)),
      load_token_congr tokens1 tokens2 (4 * j) 1 (hw 1 (by omega)),
      load_token_congr tokens1 tokens2 (4 * j) 2 (hw 2 (by omega)),
      load_token_congr tokens1 tokens2 (4 * j) 3 (hw 3 (by omega))]
    rcases Nat.lt_or_ge j k with hj | hj
    · have hz := hnf j hj
      have hz2 : vsh_get_field tokens2 (4 * j) FLD_FINAL = .ok 0 := by rw [← hfld]; exact hz
      have hrec : ∀ b, vsh_scan tokens1 n1 fuel1 (4 * j + 4) b
          = vsh_scan tokens2 n2 fuel2 (4 * j + 4) b :=
        fun b => ih fuel2 (j + 1) b hj (by omega) (by omega)
      simp only [hfld, hz2, except_bind_ok, ne_eq, not_true_eq_false, if_false, hrec]
    · obtain rfl : j = k := by omega
      obtain ⟨f, hne, hfk⟩ := hf
      have hfk2 : vsh_get_field tokens2 (4 * j) FLD_FINAL = .ok f := by rw [← hfld]; exact hfk
      simp only [hfld, hfk2, except_bind_ok, ne_eq, hne, not_false_eq_true, if_true]

/-! ## Counting slot comments -/

theorem isPrefixOf_append_sep (c : Char) :
    ∀ (pat s b : List Char), c ∉ pat →
      pat.isPrefixOf (s ++ c :: b) = pat.isPrefixOf (s ++ [c]) := by
  intro pat
  induction pat with
  | nil => intro s b _; simp
  | cons p ps ih =>
    intro s b hc
    have hp : (p == c) = false := by
      simp only [List.mem_cons, not_or] at hc
      simpa using fun h => hc.1 h.symm
    cases s with
    | nil => simp [List.isPrefixOf_cons₂, hp]
    | cons x s =>
      simp only [List.cons_append, List.isPrefixOf_cons₂]
      rw [ih s b (fun h => hc (List.mem_cons_of_mem _ h))]

theorem count_append_sep (pat : List Char) (c : Char) (hc : c ∉ pat) :
    ∀ (a b : List Char),
      count_occurrences pat (a ++ c :: b)
        = count_occurrences pat (a ++ [c]) + count_occurrences pat b := by
  intro a
  induction a with
  | nil =>
    intro b
    have h := isPrefixOf_append_sep c pat [] b hc
    simp only [List.nil_append] at h
    simp only [List.nil_append, count_occurrences, h, Nat.add_zero]
  | cons x a ih =>
    intro b
    have h := isPrefixOf_append_sep c pat (x :: a) b hc
    simp only [List.cons_append] at h
    simp only [List.cons_append, count_occurrences, List.append_eq, h, ih b, Nat.add_assoc]

theorem count_append_of_not_mem (p : Char) (ps : List Char) :
    ∀ (a b : List Char), p ∉ a →
      count_occurrences (p :: ps) (a ++ b) = count_occurrences (p :: ps) b := by
  intro a
  induction a with
  | nil => intro b _; rfl
  | cons x a ih =>
    intro b hp
    simp only [List.mem_cons, not_or] at hp
    have hx : (p == x) = false := by simpa using hp.1
    simp only [List.cons_append, count_occurrences, List.isPrefixOf_cons₂, hx, Bool.false_and,
      Bool.false_eq_true, if_false, Nat.zero_add, List.append_eq]
    exact ih b hp.2

theorem count_slot_comments_append (a b : String) (h : ends_outside a = true) :
    count_slot_comments (a ++ b) = count_slot_comments a + count_slot_comments b := by
  unfold ends_outside at h
  cases hl : a.data.getLast? with
  | none => rw [hl] at h; cases h
  | some c =>
    rw [hl] at h
    have hc : c ∉ slot_pattern := by simpa using h
    obtain ⟨l, hl'⟩ : ∃ l, a.data = l ++ [c] := by
      have := List.getLast?_eq_some_iff.mp hl
      exact this
    simp only [count_slot_comments, String.data_append, hl', List.append_assoc,
      List.singleton_append]
    exact count_append_sep slot_pattern c hc l b.data

theorem ends_outside_append (a b : String) (h : ends_outside b = true) :
    ends_outside (a ++ b) = true := by
  unfold ends_outside at h ⊢
  cases hl : b.data.getLast? with
  | none => rw [hl] at h; cases h
  | some c =>
    rw [hl] at h
    obtain ⟨l, hl'⟩ := List.getLast?_eq_some_iff.mp hl
    have : (a ++ b).data.getLast? = some c := by
      rw [String.data_append, hl', ← List.append_assoc]
      exact List.getLast?_eq_some_iff.mpr ⟨_, rfl⟩
    rw [this]
    exact h

theorem plain_append (a b : String) (ha : plain a) (hb : plain b) : plain (a ++ b) :=
  ⟨by rw [count_slot_comments_append a b ha.2, ha.1, hb.1], ends_outside_append a b hb.2⟩

theorem count_slot_comments_no_slash (a b : String) (h : no_slash a) :
    count_slot_comments (a ++ b) = count_slot_comments b := by
  simp only [count_slot_comments, String.data_append]
  exact count_append_of_not_mem '/' _ a.data b.data h

set_option maxRecDepth 20000 in
theorem plain_vsh_header : plain vsh_header := by
  unfold vsh_header
  repeat (refine plain_append _ _ ?_ (by decide))
  decide

set_option maxRecDepth 20000 in
theorem plain_vsh_epilogue : plain vsh_epilogue := by
  unfold vsh_epilogue
  repeat (refine plain_append _ _ ?_ (by decide))
  decide

theorem no_slash_append (a b : String) : no_slash (a ++ b) ↔ no_slash a ∧ no_slash b := by
  simp only [no_slash, String.data_append, List.mem_append, not_or]

theorem digitChar_ne_slash (d : Nat) (h : d < 10) : Nat.digitChar d ≠ '/' := by
  interval_cases d <;> decide

theorem toDigitsCore_no_slash :
    ∀ (fuel n : Nat) (ds : List Char), '/' ∉ ds → '/' ∉ Nat.toDigitsCore 10 fuel n ds := by
  intro fuel
  induction fuel with
  | zero => intro n ds h; simpa [Nat.toDigitsCore] using h
  | succ fuel ih =>
    intro n ds h
    have hd : '/' ∉ Nat.digitChar (n % 10) :: ds := by
      simp only [List.mem_cons, not_or]
      exact ⟨fun e => digitChar_ne_slash (n % 10) (Nat.mod_lt _ (by decide)) e.symm, h⟩
    simp only [Nat.toDigitsCore]
    split
    · exact hd
    · exact ih _ _ hd

theorem no_slash_nat (n : Nat) : no_slash (toString n) := by
  show '/' ∉ (Nat.toDigits 10 n)
  exact toDigitsCore_no_slash _ _ _ (List.not_mem_nil _)

theorem no_slash_int (i : Int) : no_slash (toString i) := by
  cases i with
  | ofNat n => exact no_slash_nat n
  | negSucc n =>
    show no_slash ("-" ++ toString (n + 1))
    exact (no_slash_append _ _).mpr ⟨by decide, no_slash_nat _⟩

theorem hex_digit_ne_slash (d : Nat) : hex_digit d ≠ '/' := by
  unfold hex_digit hex_digits
  by_cases h : d < 16
  · interval_cases d <;> decide
  · rw [List.getD_eq_default _ _ (by simpa using h)]
    decide

theorem no_slash_fmt_08X (w : Nat) : no_slash (fmt_08X w) := by
  simp only [no_slash, fmt_08X, List.mem_cons, List.mem_singleton, List.not_mem_nil, not_or,
    or_false]
  refine ⟨?_, ?_, ?_, ?_, ?_, ?_, ?_, ?_⟩ <;> exact fun e => hex_digit_ne_slash _ e.symm

theorem count_slot_comments_opening (rest : String) :
    count_slot_comments ("  /* Slot " ++ rest) = 1 + count_slot_comments rest := by
  have h : ("  /* Slot " ++ rest).data
      = ' ' :: ' ' :: '/' :: '*' :: ' ' :: 'S' :: 'l' :: 'o' :: 't' :: ' ' :: rest.data := rfl
  have hp : slot_pattern = ['/', '*', ' ', 'S', 'l', 'o', 't', ' '] := rfl
  simp only [count_slot_comments, h, hp, count_occurrences, List.isPrefixOf_cons₂,
    List.isPrefixOf_nil_left]
  simp

theorem slot_comment_count (slot w0 w1 w2 w3 : Nat) :
    count_slot_comments (slot_comment slot w0 w1 w2 w3) = 1
      ∧ ends_outside (slot_comment slot w0 w1 w2 w3) = true := by
  refine ⟨?_, ends_outside_append _ " */\n" (by decide)⟩
  have hx : no_slash (toString slot ++ ": 0x" ++ fmt_08X w0 ++ " 0x" ++ fmt_08X w1 ++ " 0x"
      ++ fmt_08X w2 ++ " 0x" ++ fmt_08X w3) := by
    simp only [no_slash_append, no_slash_nat, no_slash_fmt_08X, true_and, and_true]
    decide
  have hs : slot_comment slot w0 w1 w2 w3 = "  /* Slot " ++ ((toString slot ++ ": 0x"
      ++ fmt_08X w0 ++ " 0x" ++ fmt_08X w1 ++ " 0x" ++ fmt_08X w2 ++ " 0x" ++ fmt_08X w3)
      ++ " */\n") := by
    simp only [slot_comment, String.append_assoc]
  rw [hs, count_slot_comments_opening, count_slot_comments_no_slash _ _ hx]
  decide

theorem table_get_mem {α : Type} (table : List α) (i : Nat) (a : α)
    (h : table_get table i = .ok a) : a ∈ table :=
  List.getElem?_mem ((table_get_eq_ok table i a).mp h)

theorem swizzle_char_ne_slash (x : Nat) (c : Char) (h : table_get swizzle_str x = .ok c) :
    c ≠ '/' := by
  have hm := table_get_mem _ _ _ h
  simp only [swizzle_str, List.mem_cons, List.mem_singleton, List.not_mem_nil, or_false] at hm
  rcases hm with rfl | rfl | rfl | rfl <;> decide

theorem table_no_slash (table : List String) (htable : ∀ s ∈ table, no_slash s) (i : Nat)
    (s : String) (h : table_get table i = .ok s) : no_slash s :=
  htable s (table_get_mem _ _ _ h)

theorem mask_str_no_slash : ∀ s ∈ mask_str, no_slash s := by decide

theorem mac_opcode_no_slash : ∀ s ∈ mac_opcode, no_slash s := by decide

theorem ilu_opcode_no_slash : ∀ s ∈ ilu_opcode, no_slash s := by decide

theorem out_reg_name_no_slash : ∀ s ∈ out_reg_name, no_slash s := by decide

theorem decode_swizzle_no_slash (tokens : List Nat) (cur f : Nat) :
    results_in no_slash (decode_swizzle tokens cur f) := by
  simp only [decode_swizzle, results_in_bind, results_in_ite, results_in_ok, except_pure]
  intro force _ a _
  have hc := swizzle_char_ne_slash
  refine ⟨fun _ => by decide, fun _ => ⟨fun _ c h => ?_, fun _ c1 h1 c2 h2 c3 h3 c4 h4 => ?_⟩⟩
  · have := hc _ _ h
    simp only [no_slash, List.mem_cons, List.mem_singleton, List.not_mem_nil, or_false, not_or]
    exact ⟨by decide, fun e => this e.symm⟩
  · have e1 := hc _ _ h1
    have e2 := hc _ _ h2
    have e3 := hc _ _ h3
    have e4 := hc _ _ h4
    simp only [no_slash, List.mem_cons, List.mem_singleton, List.not_mem_nil, or_false, not_or]
    exact ⟨by decide, fun e => e1 e.symm, fun e => e2 e.symm, fun e => e3 e.symm,
      fun e => e4 e.symm⟩

theorem decode_opcode_input_no_slash (tokens : List Nat) (cur p f : Nat) (r : Int) :
    results_in no_slash (decode_opcode_input tokens cur p f r) := by
  have hs := decode_swizzle_no_slash tokens cur (f + 1)
  simp only [decode_opcode_input, results_in_bind, results_in_ite, results_in_ok, except_pure,
    results_in_error, except_throw]
  intro neg _ tmp htmp sw hsw
  have hsw' : no_slash sw := hs sw hsw
  have htmp' : no_slash tmp := by
    revert htmp
    split_ifs
    · intro h; cases h
      exact (no_slash_append _ _).mpr ⟨by decide, no_slash_int _⟩
    · intro h
      rw [except_bind_eq_ok] at h
      obtain ⟨v, -, h⟩ := h
      cases h
      exact (no_slash_append _ _).mpr ⟨by decide, no_slash_nat _⟩
    · intro h
      rw [except_bind_eq_ok] at h
      obtain ⟨c, -, h⟩ := h
      rw [except_bind_eq_ok] at h
      obtain ⟨a0x, -, h⟩ := h
      revert h
      split_ifs <;> intro h <;> cases h <;>
        simp only [no_slash_append, no_slash_int, and_true, true_and] <;> decide
    · intro h; cases h
  have hneg : no_slash (if neg > 0 then "-" else "") := by split_ifs <;> decide
  exact (no_slash_append _ _).mpr ⟨(no_slash_append _ _).mpr ⟨hneg, htmp'⟩, hsw'⟩

theorem decode_opcode_no_slash (tokens : List Nat) (cur out_mux mask : Nat)
    (opcode inputs : String) (ho : no_slash opcode) (hi : no_slash inputs) :
    results_in no_slash (decode_opcode tokens cur out_mux mask opcode inputs) := by
  simp only [decode_opcode, results_in_bind, results_in_ite, results_in_ok, except_pure]
  intro reg_num _ mac_paired _ ilu_paired _ ret hret o_mux _ muxed _
  have hret' : no_slash ret := by
    generalize (if mac_paired = true then 0 else mask) = m at hret
    generalize (if ilu_paired = true then 1 else reg_num) = r at hret
    revert hret
    split_ifs
    · intro h
      rw [except_bind_eq_ok] at h
      obtain ⟨arl, -, h⟩ := h
      revert h
      split_ifs
      · intro h; cases h
        simp only [no_slash_append, hi, and_true, true_and]
        decide
      · intro h
        rw [except_bind_eq_ok] at h
        obtain ⟨lanes, hl, h⟩ := h
        cases h
        have := table_no_slash _ mask_str_no_slash _ _ hl
        simp only [no_slash_append, hi, ho, this, no_slash_int, no_slash_nat, and_true, true_and]
        decide
    · intro h; cases h; decide
  refine ⟨fun _ orb _ ret2 hret2 o_mask _ lanes hl => ?_, fun _ => hret'⟩
  have hl' := table_no_slash _ mask_str_no_slash _ _ hl
  have hret2' : no_slash ret2 := by
    revert hret2
    split_ifs
    · intro h
      rw [except_bind_eq_ok] at h
      obtain ⟨address, -, h⟩ := h
      cases h
      simp only [no_slash_append, hret', ho, no_slash_int, and_true, true_and]
      decide
    · intro h
      rw [except_bind_eq_ok] at h
      obtain ⟨address, -, h⟩ := h
      rw [except_bind_eq_ok] at h
      obtain ⟨name, hn, h⟩ := h
      cases h
      have := table_no_slash _ out_reg_name_no_slash _ _ hn
      simp only [no_slash_append, hret', ho, this, and_true, true_and]
      decide
  simp only [no_slash_append, hret2', hl', hi, and_true, true_and]
  decide

theorem decode_token_no_slash (tokens : List Nat) (cur : Nat) :
    results_in no_slash (decode_token tokens cur) := by
  simp only [decode_token, results_in_bind, results_in_ite, results_in_ok, except_pure]
  intro c_mux _ c_r_high _ c_r_low _ input_c hc mac _ ret hret ilu _
  have hc' : no_slash input_c := decode_opcode_input_no_slash _ _ _ _ _ _ hc
  have hret' : no_slash ret := by
    revert hret
    split_ifs
    · intro h
      simp only [except_bind_eq_ok] at h
      obtain ⟨pa, -, ia, hia, pb, -, ib, hib, pc, -, mm, -, op, hop, h⟩ := h
      have hia' : no_slash ia := by
        revert hia
        split_ifs
        · intro h
          simp only [except_bind_eq_ok] at h
          obtain ⟨_, -, _, -, s, hs, h⟩ := h
          cases h
          have := decode_opcode_input_no_slash _ _ _ _ _ _ hs
          simp only [no_slash_append, this, and_true]
          decide
        · intro h; cases h; decide
      have hib' : no_slash ib := by
        revert hib
        split_ifs
        · intro h
          simp only [except_bind_eq_ok] at h
          obtain ⟨_, -, _, -, s, hs, h⟩ := h
          cases h
          have := decode_opcode_input_no_slash _ _ _ _ _ _ hs
          simp only [no_slash_append, this, hia', and_true, true_and]
          decide
        · intro h; cases h; exact hia'
      have hic : no_slash (if pc.C = true then ib ++ ", " ++ input_c else ib) := by
        split_ifs
        · simp only [no_slash_append, hib', hc', and_true, true_and]
          decide
        · exact hib'
      exact decode_opcode_no_slash _ _ _ _ _ _ (table_no_slash _ mac_opcode_no_slash _ _ hop) hic
        _ h
    · intro h; cases h; decide
  refine ⟨fun _ ilu_mask _ op hop ilu_op hilu => ?_, fun _ => hret'⟩
  have hin : no_slash (", " ++ input_c) := (no_slash_append _ _).mpr ⟨by decide, hc'⟩
  have := decode_opcode_no_slash _ _ _ _ _ _ (table_no_slash _ ilu_opcode_no_slash _ _ hop) hin
    _ hilu
  exact (no_slash_append _ _).mpr ⟨hret', this⟩

theorem no_slash_decoded_text (tokens : List Nat) (cur : Nat) :
    no_slash (decoded_text tokens cur) := by
  unfold decoded_text
  cases h : decode_token tokens cur with
  | error e => exact (by decide : no_slash "")
  | ok s => exact decode_token_no_slash tokens cur s h

theorem slot_text_count (tokens : List Nat) (slot : Nat) :
    count_slot_comments (slot_text tokens slot) = 1 ∧ ends_outside (slot_text tokens slot) = true := by
  refine ⟨?_, ends_outside_append _ "\n" (by decide)⟩
  unfold slot_text
  rw [String.append_assoc, count_slot_comments_append _ _ (slot_comment_count _ _ _ _ _).2,
    (slot_comment_count _ _ _ _ _).1, count_slot_comments_no_slash _ _ (no_slash_decoded_text _ _)]
  decide

theorem count_slot_comments_join (tokens : List Nat) (tail : String) :
    ∀ l : List Nat,
      count_slot_comments (String.join (l.map (slot_text tokens)) ++ tail)
        = l.length + count_slot_comments tail := by
  intro l
  induction l with
  | nil =>
    show count_slot_comments ("" ++ tail) = 0 + count_slot_comments tail
    rw [String.empty_append, Nat.zero_add]
  | cons i l ih =>
    rw [List.map_cons, string_join_cons, String.append_assoc,
      count_slot_comments_append _ _ (slot_text_count tokens i).2, (slot_text_count tokens i).1, ih,
      List.length_cons]
    omega

theorem vsh_translate_text_witness :
    vsh_translate 0 [0, 0x0020001B, 0x0836106C, 0x2F000FF8, 0, 0x0020001B, 0x0836106C, 0x2F000FF9] 8
        = .ok (vsh_header ++ "\nvoid main(void)\n\x7b\n"
            ++ ("\n" ++ "  /* Slot 0: 0x00000000 0x0020001B 0x0836106C 0x2F000FF8 */\n"
              ++ "  MOV(R0,xyzw, v0);\n" ++ "\n"
              ++ "  /* Slot 1: 0x00000000 0x0020001B 0x0836106C 0x2F000FF9 */\n"
              ++ "  MOV(R0,xyzw, v0);\n" ++ "\n")
            ++ vsh_epilogue ++ "\x7d\n")
      ∧ ∀ i, i ≤ 1 →
          decode_token [0, 0x0020001B, 0x0836106C, 0x2F000FF8, 0, 0x0020001B, 0x0836106C,
              0x2F000FF9] (4 * i)
            = .ok (decoded_text [0, 0x0020001B, 0x0836106C, 0x2F000FF8, 0, 0x0020001B,
                0x0836106C, 0x2F000FF9] (4 * i)) := by
  have hscan : vsh_scan [0, 0x0020001B, 0x0836106C, 0x2F000FF8, 0, 0x0020001B, 0x0836106C,
      0x2F000FF9] 8 (8 + 1) 0 "\n"
      = .ok ("\n" ++ "  /* Slot 0: 0x00000000 0x0020001B 0x0836106C 0x2F000FF8 */\n"
          ++ "  MOV(R0,xyzw, v0);\n" ++ "\n"
          ++ "  /* Slot 1: 0x00000000 0x0020001B 0x0836106C 0x2F000FF9 */\n"
          ++ "  MOV(R0,xyzw, v0);\n" ++ "\n", true) := rfl
  have hok : vsh_translate 0 [0, 0x0020001B, 0x0836106C, 0x2F000FF8, 0, 0x0020001B, 0x0836106C,
      0x2F000FF9] 8
      = .ok (vsh_header ++ "\nvoid main(void)\n\x7b\n"
          ++ ("\n" ++ "  /* Slot 0: 0x00000000 0x0020001B 0x0836106C 0x2F000FF8 */\n"
            ++ "  MOV(R0,xyzw, v0);\n" ++ "\n"
            ++ "  /* Slot 1: 0x00000000 0x0020001B 0x0836106C 0x2F000FF9 */\n"
            ++ "  MOV(R0,xyzw, v0);\n" ++ "\n")
          ++ vsh_epilogue ++ "\x7d\n") := by
    rw [vsh_translate_eq, hscan]
    simp only [except_bind_ok, reduceCtorEq, if_false]
  exact ⟨hok, (vsh_translate_text 0 _ 8 1 _ hok
    (fun i hi => by
      obtain rfl : i = 0 := by omega
      rfl)
    ⟨1, by decide, rfl⟩).1⟩

/-! ## The constant-register remap -/

set_option maxRecDepth 100000 in
theorem convert_c_register_of_code : ∀ raw : Fin 256, convert_c_register (raw.val : Int) = raw.val := by
  decide

theorem convert_c_register_of_lt (n : Nat) (h : n < 256) : convert_c_register (n : Int) = n :=
  convert_c_register_of_code ⟨n, h⟩

theorem convert_c_register_of_mem (x : Int) (h0 : 0 ≤ x) (h1 : x ≤ 255) :
    convert_c_register x = x := by
  obtain ⟨n, rfl⟩ := Int.eq_ofNat_of_zero_le h0
  exact convert_c_register_of_lt n (by omega)

/-- C11 (as stated, refuted): the raw code 255 is mapped to 255, outside
`[0,191]`, so the remap does not send the 256 raw codes into that range, let
alone one-to-one onto it. -/
theorem convert_c_register_not_onto_192 :
    convert_c_register 255 = 255
      ∧ ¬ Set.BijOn convert_c_register {x : Int | 0 ≤ x ∧ x ≤ 255} {y : Int | 0 ≤ y ∧ y ≤ 191} := by
  refine ⟨by decide, fun h => ?_⟩
  have hm := h.mapsTo (show (255 : Int) ∈ {x : Int | 0 ≤ x ∧ x ≤ 255} from ⟨by decide, by decide⟩)
  have h255 : convert_c_register 255 = 255 := by decide
  rw [h255] at hm
  exact absurd hm.2 (by decide)

theorem convert_c_register_bijOn (k : Int) (hk : k ≤ 255) :
    Set.BijOn convert_c_register {x : Int | 0 ≤ x ∧ x ≤ k} {y : Int | 0 ≤ y ∧ y ≤ k} := by
  have hid : ∀ x : Int, 0 ≤ x ∧ x ≤ k → convert_c_register x = x :=
    fun x hx => convert_c_register_of_mem x hx.1 (by omega)
  refine ⟨?_, ?_, ?_⟩
  · intro x hx
    show 0 ≤ convert_c_register x ∧ convert_c_register x ≤ k
    rw [hid x hx]
    exact hx
  · intro a ha b hb hab
    rw [hid a ha, hid b hb] at hab
    exact hab
  · intro y hy
    exact ⟨y, hy, hid y hy⟩

/-- C11 (amended): restricted to the 256 raw codes 0..255 the remap is a
bijection onto the integer range `[0,255]`, and restricted to the 192 raw codes
0..191 it is a bijection onto `[0,191]`. -/
theorem convert_c_register_bijOn_192 :
    Set.BijOn convert_c_register {x : Int | 0 ≤ x ∧ x ≤ 255} {y : Int | 0 ≤ y ∧ y ≤ 255}
      ∧ Set.BijOn convert_c_register {x : Int | 0 ≤ x ∧ x ≤ 191} {y : Int | 0 ≤ y ∧ y ≤ 191} :=
  ⟨convert_c_register_bijOn 255 (by decide), convert_c_register_bijOn 191 (by decide)⟩

/-- C12 (the code at a failing input): the final slot `MOV` with operand A =
constant code 255 and a constant-bank output at address 255 decodes, and the
indices printed, `c[255]` and `c255`, are above 191. -/
theorem decode_token_const_255 :
    vsh_get_field [0, 0x003FE01B, 0x0C00006C, 0x2F00F7F9] 0 FLD_CONST = .ok 255
      ∧ vsh_get_field [0, 0x003FE01B, 0x0C00006C, 0x2F00F7F9] 0 FLD_OUT_ADDRESS = .ok 255
      ∧ convert_c_register 255 = 255
      ∧ ¬ ((255 : Int) ≤ 191)
      ∧ decode_token [0, 0x003FE01B, 0x0C00006C, 0x2F00F7F9] 0
          = .ok "  MOV(R0,xyzw, c[255]);\n  MOV(c255,xyzw, c[255]);\n"
      ∧ ∃ text, vsh_translate 0 [0, 0x003FE01B, 0x0C00006C, 0x2F00F7F9] 4 = .ok text := by
  refine ⟨rfl, rfl, by decide, by decide, rfl, ?_⟩
  have hscan : vsh_scan [0, 0x003FE01B, 0x0C00006C, 0x2F00F7F9] 4 (4 + 1) 0 "\n"
      = .ok ("\n" ++ "  /* Slot 0: 0x00000000 0x003FE01B 0x0C00006C 0x2F00F7F9 */\n"
          ++ "  MOV(R0,xyzw, c[255]);\n  MOV(c255,xyzw, c[255]);\n" ++ "\n", true) := rfl
  rw [vsh_translate_eq, hscan]
  simp only [except_bind_ok, reduceCtorEq, if_false]
  exact ⟨_, rfl⟩

/-! ## Swizzle suffixes -/

theorem table_get_swizzle_str (x : Nat) (h : x < 4) :
    table_get swizzle_str x = .ok (lane_letter x) := by
  interval_cases x <;> rfl

theorem swizzle_text_diag (x : Nat) (h : x < 4) :
    swizzle_text x x x x = String.mk ['.', lane_letter x] := by
  interval_cases x <;> rfl

/-- Without scalar forcing `decode_swizzle` reads the four lane fields and
prints their selection. -/
theorem decode_swizzle_of_reads (tokens : List Nat) (cur f x y z w : Nat)
    (hx : vsh_get_field tokens cur f = .ok x) (hy : vsh_get_field tokens cur (f + 1) = .ok y)
    (hz : vsh_get_field tokens cur (f + 2) = .ok z) (hw : vsh_get_field tokens cur (f + 3) = .ok w)
    (hx4 : x < 4) (hy4 : y < 4) (hz4 : z < 4) (hw4 : w < 4)
    (hnf : f = FLD_C_SWZ_X → ∃ ilu, vsh_get_field tokens cur FLD_ILU = .ok ilu
      ∧ table_get ilu_force_scalar ilu = .ok false) :
    decode_swizzle tokens cur f = .ok (swizzle_text x y z w) := by
  have hforce : (if f = FLD_C_SWZ_X then
        vsh_get_field tokens cur FLD_ILU >>= fun ilu => table_get ilu_force_scalar ilu
      else Except.ok false) = (.ok false : Except VshFault Bool) := by
    by_cases hf : f = FLD_C_SWZ_X
    · obtain ⟨ilu, h1, h2⟩ := hnf hf
      simp only [hf, if_true, h1, except_bind_ok, h2]
    · simp only [hf, if_false]
  unfold decode_swizzle
  simp only [except_pure, hforce, except_bind_ok, Bool.false_eq_true, if_false, hx, hy, hz, hw,
    table_get_swizzle_str x hx4, table_get_swizzle_str y hy4, table_get_swizzle_str z hz4,
    table_get_swizzle_str w hw4, SWIZZLE_X, SWIZZLE_Y, SWIZZLE_Z, SWIZZLE_W, swizzle_text]
  split_ifs <;> rfl

/-- Under scalar forcing `decode_swizzle` reads the first lane field only. -/
theorem decode_swizzle_forced (tokens : List Nat) (cur ilu x : Nat)
    (hilu : vsh_get_field tokens cur FLD_ILU = .ok ilu)
    (hforce : table_get ilu_force_scalar ilu = .ok true)
    (hx : vsh_get_field tokens cur FLD_C_SWZ_X = .ok x) (hx4 : x < 4) :
    decode_swizzle tokens cur FLD_C_SWZ_X = .ok (String.mk ['.', lane_letter x]) := by
  unfold decode_swizzle
  simp only [if_true, hilu, except_bind_ok, hforce, hx, except_pure,
    table_get_swizzle_str x hx4, SWIZZLE_X, SWIZZLE_Y, SWIZZLE_Z, SWIZZLE_W]
  interval_cases x <;> rfl

/-! ## The opcode emitter inside the token array -/

theorem table_get_getD (table : List String) (i : Nat) (h : i < table.length) :
    table_get table i = .ok (table.getD i "") := by
  rw [table_get_of_lt table i h]
  simp [List.getD, List.getElem?_eq_getElem h]

theorem decode_opcode_eq (tokens : List Nat) (cur : Nat) (hcur : cur + 3 < tokens.length)
    (out_mux mask : Nat) (opcode inputs : String)
    (hmask : effective_mask tokens cur out_mux mask < 16) :
    decode_opcode tokens cur out_mux mask opcode inputs
      = .ok (reg_statement tokens cur out_mux mask opcode inputs
          ++ output_statement tokens cur out_mux opcode inputs) := by
  have hfv := vsh_get_field_eq_value tokens cur hcur
  have harl : table_get mac_opcode MAC_ARL = .ok "ARL A0.x" := rfl
  have hom : table_get mask_str (field_value tokens cur FLD_OUT_O_MASK)
      = .ok (mask_str.getD (field_value tokens cur FLD_OUT_O_MASK) "") :=
    table_get_getD _ _ (field_value_lt_width tokens cur FLD_OUT_O_MASK 4 rfl)
  have hname : table_get out_reg_name (field_value tokens cur FLD_OUT_ADDRESS &&& 0xF)
      = .ok (out_reg_name.getD (field_value tokens cur FLD_OUT_ADDRESS &&& 0xF) "") :=
    table_get_getD _ _ (Nat.lt_succ_of_le Nat.and_le_right)
  have hm : table_get mask_str (effective_mask tokens cur out_mux mask)
      = .ok (mask_str.getD (effective_mask tokens cur out_mux mask) "") :=
    table_get_getD _ _ hmask
  unfold decode_opcode
  simp only [hfv FLD_OUT_R (by decide), hfv FLD_ILU (by decide), hfv FLD_MAC (by decide),
    hfv FLD_OUT_MUX (by decide), hfv FLD_OUT_O_MASK (by decide), hfv FLD_OUT_ORB (by decide),
    hfv FLD_OUT_ADDRESS (by decide), except_bind_ok, except_pure, harl, hom, hname]
  have h1 : (if out_mux = OMUX_MAC then
        (Except.ok (decide (field_value tokens cur FLD_ILU ≠ ILU_NOP
          ∧ field_value tokens cur FLD_OUT_R = 1)) : Except VshFault Bool)
      else Except.ok false)
      = .ok (decide (out_mux = OMUX_MAC ∧ field_value tokens cur FLD_ILU ≠ ILU_NOP
          ∧ field_value tokens cur FLD_OUT_R = 1)) := by
    split <;> simp [*]
  have h2 : (if decide (out_mux = OMUX_MAC ∧ field_value tokens cur FLD_ILU ≠ ILU_NOP
          ∧ field_value tokens cur FLD_OUT_R = 1) = true then
        (Except.ok false : Except VshFault Bool)
      else if out_mux = OMUX_ILU then Except.ok (decide (field_value tokens cur FLD_MAC ≠ MAC_NOP))
      else Except.ok false)
      = .ok (decide (out_mux = OMUX_ILU ∧ field_value tokens cur FLD_MAC ≠ MAC_NOP)) := by
    split_ifs with ha hb
    · have : out_mux ≠ OMUX_ILU := by
        have h0 : out_mux = OMUX_MAC := (of_decide_eq_true ha).1
        rw [h0]
        decide
      simp [this]
    · simp [hb]
    · simp [hb]
  have h4 : (if field_value tokens cur FLD_OUT_MUX = out_mux then
        (Except.ok (decide (field_value tokens cur FLD_OUT_O_MASK ≠ 0)) : Except VshFault Bool)
      else Except.ok false)
      = .ok (decide (field_value tokens cur FLD_OUT_MUX = out_mux
          ∧ field_value tokens cur FLD_OUT_O_MASK ≠ 0)) := by
    split <;> simp [*]
  have hem : (if decide (out_mux = OMUX_MAC ∧ field_value tokens cur FLD_ILU ≠ ILU_NOP
          ∧ field_value tokens cur FLD_OUT_R = 1) = true then 0 else mask)
      = effective_mask tokens cur out_mux mask := by
    simp only [effective_mask, decide_eq_true_eq]
  have her : (if decide (out_mux = OMUX_ILU ∧ field_value tokens cur FLD_MAC ≠ MAC_NOP) = true
        then 1 else field_value tokens cur FLD_OUT_R)
      = effective_reg tokens cur out_mux := by
    simp only [effective_reg, decide_eq_true_eq]
  have h3 : (if effective_mask tokens cur out_mux mask > 0 then
        if opcode = "ARL A0.x" then
          (Except.ok ("  ARL(a0" ++ inputs ++ ";\n") : Except VshFault String)
        else
          table_get mask_str (effective_mask tokens cur out_mux mask) >>= fun lanes =>
            Except.ok ("  " ++ opcode ++ "(" ++ "R" ++ toString (effective_reg tokens cur out_mux)
              ++ lanes ++ inputs ++ ");\n")
      else Except.ok "")
      = .ok (reg_statement tokens cur out_mux mask opcode inputs) := by
    unfold reg_statement
    split_ifs <;> simp only [hm, except_bind_ok]
  simp only [h1, except_bind_ok, h2, hem, her, h3, h4]
  unfold output_statement output_dest
  simp only [decide_eq_true_eq]
  split_ifs <;> simp only [except_bind_ok, String.append_assoc, String.append_empty]

theorem mask_str_eq_mask_lanes (m : Nat) (h0 : m ≠ 0) (h : m < 16) :
    mask_str.getD m "" = mask_lanes m := by
  interval_cases m <;> first | rfl | exact absurd rfl h0

theorem paren_reg (s : String) : "(" ++ ("R" ++ s) = "(R" ++ s := by
  rw [← String.append_assoc]
  rfl

theorem output_dest_head (tokens : List Nat) (cur : Nat) :
    (output_dest tokens cur).data.head? ≠ some 'R' := by
  unfold output_dest
  split_ifs
  · simp only [String.data_append]
    intro h
    cases h
  · have hlt : field_value tokens cur FLD_OUT_ADDRESS &&& 0xF < 16 :=
      Nat.lt_succ_of_le Nat.and_le_right
    generalize field_value tokens cur FLD_OUT_ADDRESS &&& 0xF = a at hlt
    interval_cases a <;> decide

theorem ilu_opcode_not_arl (ilu : Nat) (opcode : String)
    (h : table_get ilu_opcode ilu = .ok opcode) : opcode ≠ "ARL A0.x" := by
  have hm := table_get_mem _ _ _ h
  simp only [ilu_opcode, List.mem_cons, List.mem_singleton, List.not_mem_nil, or_false] at hm
  rcases hm with rfl | rfl | rfl | rfl | rfl | rfl | rfl | rfl <;> decide

/-- C15: in a slot with a non-NOP ILU opcode and `FLD_OUT_R = 1` (the MAC
opcode being non-NOP, so that the MAC unit is decoded at all) the MAC unit
writes no R-register: for every mask, opcode text and operand list its text is
the named-output statement alone, which is empty or one statement whose
destination is not an R-register. -/
theorem decode_opcode_mac_suppressed (tokens : List Nat) (cur : Nat)
    (hcur : cur + 3 < tokens.length) (mask : Nat) (opcode inputs : String) (mac ilu : Nat)
    (hmac : vsh_get_field tokens cur FLD_MAC = .ok mac) (hmacne : mac ≠ MAC_NOP)
    (hilu : vsh_get_field tokens cur FLD_ILU = .ok ilu) (hilune : ilu ≠ ILU_NOP)
    (hr : vsh_get_field tokens cur FLD_OUT_R = .ok 1) :
    decode_opcode tokens cur OMUX_MAC mask opcode inputs
        = .ok (output_statement tokens cur OMUX_MAC opcode inputs)
      ∧ (output_statement tokens cur OMUX_MAC opcode inputs = ""
        ∨ output_statement tokens cur OMUX_MAC opcode inputs
            = "  " ++ opcode ++ "(" ++ output_dest tokens cur
              ++ mask_str.getD (field_value tokens cur FLD_OUT_O_MASK) "" ++ inputs ++ ");\n")
      ∧ (output_dest tokens cur).data.head? ≠ some 'R' := by
  have _ := hmac
  have _ := hmacne
  have hfv := vsh_get_field_eq_value tokens cur hcur
  rw [hfv FLD_ILU (by decide)] at hilu
  rw [hfv FLD_OUT_R (by decide)] at hr
  have hilu' : field_value tokens cur FLD_ILU = ilu := Except.ok.inj hilu
  have hr' : field_value tokens cur FLD_OUT_R = 1 := Except.ok.inj hr
  have hem : effective_mask tokens cur OMUX_MAC mask = 0 := by
    unfold effective_mask
    rw [if_pos ⟨rfl, by rw [hilu']; exact hilune, hr'⟩]
  refine ⟨?_, ?_, output_dest_head tokens cur⟩
  · rw [decode_opcode_eq tokens cur hcur OMUX_MAC mask opcode inputs (by rw [hem]; decide)]
    unfold reg_statement
    rw [hem]
    simp only [gt_iff_lt, Nat.lt_irrefl, if_false, String.empty_append]
  · unfold output_statement
    split_ifs
    · exact Or.inr rfl
    · exact Or.inl rfl

theorem decode_opcode_mac_suppressed_witness :
    decode_opcode [0, 0x0420001B, 0x0836106C, 0x2F1F0001] 0 OMUX_MAC 15 "MOV" ", v0"
        = .ok (output_statement [0, 0x0420001B, 0x0836106C, 0x2F1F0001] 0 OMUX_MAC "MOV" ", v0")
      ∧ (output_statement [0, 0x0420001B, 0x0836106C, 0x2F1F0001] 0 OMUX_MAC "MOV" ", v0" = ""
        ∨ output_statement [0, 0x0420001B, 0x0836106C, 0x2F1F0001] 0 OMUX_MAC "MOV" ", v0"
            = "  " ++ "MOV" ++ "(" ++ output_dest [0, 0x0420001B, 0x0836106C, 0x2F1F0001] 0
              ++ mask_str.getD (field_value [0, 0x0420001B, 0x0836106C, 0x2F1F0001] 0
                  FLD_OUT_O_MASK) "" ++ ", v0" ++ ");\n")
      ∧ (output_dest [0, 0x0420001B, 0x0836106C, 0x2F1F0001] 0).data.head? ≠ some 'R' :=
  decode_opcode_mac_suppressed [0, 0x0420001B, 0x0836106C, 0x2F1F0001] 0 (by decide) 15
    "MOV" ", v0" MAC_MOV ILU_RCP rfl (by decide) rfl (by decide) rfl

theorem field_value_of_read (tokens : List Nat) (cur f v : Nat) (hcur : cur + 3 < tokens.length)
    (hf : f < 35) (h : vsh_get_field tokens cur f = .ok v) : field_value tokens cur f = v := by
  rw [vsh_get_field_eq_value tokens cur hcur f hf] at h
  exact Except.ok.inj h

/-- C16: in a slot with a non-NOP ILU opcode and a non-zero `FLD_OUT_ILU_MASK`
the ILU unit emits its R-register statement first, and the register written is
R1 when the MAC opcode is not NOP, whatever `FLD_OUT_R` holds, and
R`FLD_OUT_R` when the MAC opcode is NOP. -/
theorem decode_opcode_ilu_destination (tokens : List Nat) (cur : Nat)
    (hcur : cur + 3 < tokens.length) (ilu mask mac r : Nat) (inputs : String)
    (hilu : vsh_get_field tokens cur FLD_ILU = .ok ilu) (hilune : ilu ≠ ILU_NOP)
    (hmask : vsh_get_field tokens cur FLD_OUT_ILU_MASK = .ok mask) (hmne : mask ≠ 0)
    (hmac : vsh_get_field tokens cur FLD_MAC = .ok mac)
    (hr : vsh_get_field tokens cur FLD_OUT_R = .ok r) :
    ∃ opcode, table_get ilu_opcode ilu = .ok opcode
      ∧ (mac ≠ MAC_NOP →
          decode_opcode tokens cur OMUX_ILU mask opcode inputs
            = .ok ("  " ++ opcode ++ "(R1" ++ mask_lanes mask ++ inputs ++ ");\n"
                ++ output_statement tokens cur OMUX_ILU opcode inputs))
      ∧ (mac = MAC_NOP →
          decode_opcode tokens cur OMUX_ILU mask opcode inputs
            = .ok ("  " ++ opcode ++ "(R" ++ toString r ++ mask_lanes mask ++ inputs ++ ");\n"
                ++ output_statement tokens cur OMUX_ILU opcode inputs)) := by
  have _ := hilune
  have hilu8 : ilu < 8 := vsh_get_field_range tokens cur FLD_ILU ilu ⟨FLD_ILU, 1, 25, 3⟩ rfl hilu
  have hm16 : mask < 16 :=
    vsh_get_field_range tokens cur FLD_OUT_ILU_MASK mask ⟨FLD_OUT_ILU_MASK, 3, 16, 4⟩ rfl hmask
  have hmacv := field_value_of_read tokens cur FLD_MAC mac hcur (by decide) hmac
  have hrv := field_value_of_read tokens cur FLD_OUT_R r hcur (by decide) hr
  have hlt : ilu < ilu_opcode.length := hilu8
  refine ⟨ilu_opcode[ilu], table_get_of_lt _ _ hlt, ?_, ?_⟩
  all_goals
    intro hcase
    have hop := ilu_opcode_not_arl ilu _ (table_get_of_lt _ _ hlt)
    have hem : effective_mask tokens cur OMUX_ILU mask = mask := by
      unfold effective_mask
      rw [if_neg (fun h => absurd h.1 (by decide))]
    rw [decode_opcode_eq tokens cur hcur OMUX_ILU mask _ inputs (by rw [hem]; exact hm16)]
    unfold reg_statement
    rw [hem, if_pos (Nat.pos_of_ne_zero hmne), if_neg hop, mask_str_eq_mask_lanes mask hmne hm16]
    unfold effective_reg
    rw [hmacv, hrv]
  · rw [if_pos ⟨rfl, hcase⟩]
    simp only [String.append_assoc, paren_reg]
    rfl
  · rw [if_neg (fun h => h.2 hcase)]
    simp only [String.append_assoc, paren_reg]

theorem decode_opcode_ilu_destination_witness :
    ∃ opcode, table_get ilu_opcode ILU_RCP = .ok opcode
      ∧ (MAC_MOV ≠ MAC_NOP →
          decode_opcode [0, 0x0420001B, 0x0836106C, 0x2F5F0001] 0 OMUX_ILU 15 opcode ", v0"
            = .ok ("  " ++ opcode ++ "(R1" ++ mask_lanes 15 ++ ", v0" ++ ");\n"
                ++ output_statement [0, 0x0420001B, 0x0836106C, 0x2F5F0001] 0 OMUX_ILU opcode
                    ", v0"))
      ∧ (MAC_MOV = MAC_NOP →
          decode_opcode [0, 0x0420001B, 0x0836106C, 0x2F5F0001] 0 OMUX_ILU 15 opcode ", v0"
            = .ok ("  " ++ opcode ++ "(R" ++ toString 5 ++ mask_lanes 15 ++ ", v0" ++ ");\n"
                ++ output_statement [0, 0x0420001B, 0x0836106C, 0x2F5F0001] 0 OMUX_ILU opcode
                    ", v0")) :=
  decode_opcode_ilu_destination [0, 0x0420001B, 0x0836106C, 0x2F5F0001] 0 (by decide)
    ILU_RCP 15 MAC_MOV 5 ", v0" rfl (by decide) rfl (by decide) rfl rfl

/-- C20: for either unit and every opcode text other than the ARL one, let `m`
be the mask after the co-issue rule and `n` the destination index after it.
If `m = 0` the unit emits no R-register statement (only the named-output
statement, if any); if `m ≠ 0` it emits exactly
`"  " ++ opcode ++ "(R" ++ n ++ mask_str[m] ++ operands ++ ");\n"` in front of
the named-output statement, and `mask_str[m]` is "," followed by the letters of
the enabled lanes in the order x, y, z, w (bits 3, 2, 1, 0 of the mask). -/
theorem decode_opcode_reg_statement (tokens : List Nat) (cur : Nat)
    (hcur : cur + 3 < tokens.length) (out_mux : VshOutputMux) (mask : Nat)
    (opcode inputs : String) (ilu mac r m n : Nat)
    (hop : opcode ≠ "ARL A0.x") (hmask : mask < 16)
    (hilu : vsh_get_field tokens cur FLD_ILU = .ok ilu)
    (hmac : vsh_get_field tokens cur FLD_MAC = .ok mac)
    (hr : vsh_get_field tokens cur FLD_OUT_R = .ok r)
    (hm : m = if out_mux = OMUX_MAC ∧ ilu ≠ ILU_NOP ∧ r = 1 then 0 else mask)
    (hn : n = if out_mux = OMUX_ILU ∧ mac ≠ MAC_NOP then 1 else r) :
    (m = 0 → decode_opcode tokens cur out_mux mask opcode inputs
        = .ok (output_statement tokens cur out_mux opcode inputs))
      ∧ (m ≠ 0 →
          table_get mask_str m = .ok (mask_lanes m)
          ∧ decode_opcode tokens cur out_mux mask opcode inputs
            = .ok ("  " ++ opcode ++ "(R" ++ toString n ++ mask_lanes m ++ inputs ++ ");\n"
                ++ output_statement tokens cur out_mux opcode inputs)) := by
  have hiluv := field_value_of_read tokens cur FLD_ILU ilu hcur (by decide) hilu
  have hmacv := field_value_of_read tokens cur FLD_MAC mac hcur (by decide) hmac
  have hrv := field_value_of_read tokens cur FLD_OUT_R r hcur (by decide) hr
  have hem : effective_mask tokens cur out_mux mask = m := by
    unfold effective_mask
    rw [hiluv, hrv, hm]
  have her : effective_reg tokens cur out_mux = n := by
    unfold effective_reg
    rw [hmacv, hrv, hn]
  have hm16 : m < 16 := by
    rw [hm]
    split_ifs
    · decide
    · exact hmask
  have hdec := decode_opcode_eq tokens cur hcur out_mux mask opcode inputs (by rw [hem]; exact hm16)
  unfold reg_statement at hdec
  rw [hem, her] at hdec
  refine ⟨fun h0 => ?_, fun hne => ⟨?_, ?_⟩⟩
  · rw [hdec, h0]
    simp only [gt_iff_lt, Nat.lt_irrefl, if_false, String.empty_append]
  · have hlt : m < mask_str.length := hm16
    rw [table_get_getD mask_str m hlt, mask_str_eq_mask_lanes m hne hm16]
  · rw [hdec, if_pos (Nat.pos_of_ne_zero hne), if_neg hop, mask_str_eq_mask_lanes m hne hm16]
    simp only [String.append_assoc, paren_reg]

theorem decode_opcode_reg_statement_witness :
    (10 = 0 → decode_opcode [0, 0x0420001B, 0x0836106C, 0x2F5F0001] 0 OMUX_MAC 10 "MUL"
          ", v0, v1"
        = .ok (output_statement [0, 0x0420001B, 0x0836106C, 0x2F5F0001] 0 OMUX_MAC "MUL"
              ", v0, v1"))
      ∧ (10 ≠ 0 →
          table_get mask_str 10 = .ok (mask_lanes 10)
          ∧ decode_opcode [0, 0x0420001B, 0x0836106C, 0x2F5F0001] 0 OMUX_MAC 10 "MUL"
              ", v0, v1"
            = .ok ("  " ++ "MUL" ++ "(R" ++ toString 5 ++ mask_lanes 10 ++ ", v0, v1" ++ ");\n"
                ++ output_statement [0, 0x0420001B, 0x0836106C, 0x2F5F0001] 0 OMUX_MAC "MUL"
                    ", v0, v1")) :=
  decode_opcode_reg_statement [0, 0x0420001B, 0x0836106C, 0x2F5F0001] 0 (by decide) OMUX_MAC 10
    "MUL" ", v0, v1" ILU_RCP MAC_MOV 5 10 5 (by decide) (by decide) rfl rfl rfl (by decide)
    (by decide)

/-- C13: when the four lane selectors `x, y, z, w` (each in 0..3) are read
without scalar forcing, `decode_swizzle` returns the empty string for the
selection (X, Y, Z, W), "." and the letter of lane `x` when the four selectors
are equal, and otherwise "." and the four letters `"xyzw"[x]`, `"xyzw"[y]`,
`"xyzw"[z]`, `"xyzw"[w]` in that order. -/
theorem decode_swizzle_text (tokens : List Nat) (cur f x y z w : Nat)
    (hx : vsh_get_field tokens cur f = .ok x) (hy : vsh_get_field tokens cur (f + 1) = .ok y)
    (hz : vsh_get_field tokens cur (f + 2) = .ok z) (hw : vsh_get_field tokens cur (f + 3) = .ok w)
    (hx4 : x < 4) (hy4 : y < 4) (hz4 : z < 4) (hw4 : w < 4)
    (hnf : f = FLD_C_SWZ_X → ∃ ilu, vsh_get_field tokens cur FLD_ILU = .ok ilu
      ∧ table_get ilu_force_scalar ilu = .ok false) :
    (table_get swizzle_str x = .ok (lane_letter x) ∧ table_get swizzle_str y = .ok (lane_letter y)
        ∧ table_get swizzle_str z = .ok (lane_letter z)
        ∧ table_get swizzle_str w = .ok (lane_letter w))
      ∧ (x = SWIZZLE_X ∧ y = SWIZZLE_Y ∧ z = SWIZZLE_Z ∧ w = SWIZZLE_W →
          decode_swizzle tokens cur f = .ok "")
      ∧ (x = y ∧ y = z ∧ z = w →
          decode_swizzle tokens cur f = .ok (String.mk ['.', lane_letter x]))
      ∧ (¬ (x = SWIZZLE_X ∧ y = SWIZZLE_Y ∧ z = SWIZZLE_Z ∧ w = SWIZZLE_W) →
          ¬ (x = y ∧ y = z ∧ z = w) →
          decode_swizzle tokens cur f
            = .ok (String.mk ['.', lane_letter x, lane_letter y, lane_letter z, lane_letter w])) := by
  have h := decode_swizzle_of_reads tokens cur f x y z w hx hy hz hw hx4 hy4 hz4 hw4 hnf
  refine ⟨⟨table_get_swizzle_str x hx4, table_get_swizzle_str y hy4,
    table_get_swizzle_str z hz4, table_get_swizzle_str w hw4⟩, ?_, ?_, ?_⟩
  · rintro ⟨rfl, rfl, rfl, rfl⟩
    rw [h]
    rfl
  · rintro ⟨rfl, rfl, rfl⟩
    rw [h, swizzle_text_diag x hx4]
  · intro hid heq
    rw [h]
    unfold swizzle_text
    have hid' : ¬ (x = 0 ∧ y = 1 ∧ z = 2 ∧ w = 3) := hid
    rw [if_neg hid', if_neg heq]

theorem decode_swizzle_text_witness :
    (table_get swizzle_str 1 = .ok (lane_letter 1) ∧ table_get swizzle_str 0 = .ok (lane_letter 0)
        ∧ table_get swizzle_str 3 = .ok (lane_letter 3)
        ∧ table_get swizzle_str 2 = .ok (lane_letter 2))
      ∧ (1 = SWIZZLE_X ∧ 0 = SWIZZLE_Y ∧ 3 = SWIZZLE_Z ∧ 2 = SWIZZLE_W →
          decode_swizzle [0, 0x0020004E, 0, 1] 0 FLD_A_SWZ_X = .ok "")
      ∧ (1 = 0 ∧ 0 = 3 ∧ 3 = 2 →
          decode_swizzle [0, 0x0020004E, 0, 1] 0 FLD_A_SWZ_X = .ok (String.mk ['.', lane_letter 1]))
      ∧ (¬ (1 = SWIZZLE_X ∧ 0 = SWIZZLE_Y ∧ 3 = SWIZZLE_Z ∧ 2 = SWIZZLE_W) →
          ¬ (1 = 0 ∧ 0 = 3 ∧ 3 = 2) →
          decode_swizzle [0, 0x0020004E, 0, 1] 0 FLD_A_SWZ_X
            = .ok (String.mk ['.', lane_letter 1, lane_letter 0, lane_letter 3, lane_letter 2])) :=
  decode_swizzle_text [0, 0x0020004E, 0, 1] 0 FLD_A_SWZ_X 1 0 3 2 rfl rfl rfl rfl
    (by decide) (by decide) (by decide) (by decide) (fun h => absurd h (by decide))

/-! ## Which fields a slot's text depends on -/

theorem decode_opcode_input_frame (tokens tokens' : List Nat) (cur : Nat)
    (param : VshParameterType) (neg_field : VshFieldName) (reg_num : Int)
    (hneg : vsh_get_field tokens cur neg_field = vsh_get_field tokens' cur neg_field)
    (hv : vsh_get_field tokens cur FLD_V = vsh_get_field tokens' cur FLD_V)
    (hc : vsh_get_field tokens cur FLD_CONST = vsh_get_field tokens' cur FLD_CONST)
    (ha : vsh_get_field tokens cur FLD_A0X = vsh_get_field tokens' cur FLD_A0X)
    (hsw : decode_swizzle tokens cur (neg_field + 1) = decode_swizzle tokens' cur (neg_field + 1)) :
    decode_opcode_input tokens cur param neg_field reg_num
      = decode_opcode_input tokens' cur param neg_field reg_num := by
  unfold decode_opcode_input
  rw [hneg, hv, hc, ha, hsw]

theorem decode_opcode_frame (tokens tokens' : List Nat) (cur : Nat) (out_mux : VshOutputMux)
    (mask : Nat) (opcode inputs : String)
    (h : ∀ f ∈ [FLD_OUT_R, FLD_ILU, FLD_MAC, FLD_OUT_MUX, FLD_OUT_O_MASK, FLD_OUT_ORB,
      FLD_OUT_ADDRESS], vsh_get_field tokens cur f = vsh_get_field tokens' cur f) :
    decode_opcode tokens cur out_mux mask opcode inputs
      = decode_opcode tokens' cur out_mux mask opcode inputs := by
  unfold decode_opcode
  rw [h FLD_OUT_R (by decide), h FLD_ILU (by decide), h FLD_MAC (by decide),
    h FLD_OUT_MUX (by decide), h FLD_OUT_O_MASK (by decide), h FLD_OUT_ORB (by decide),
    h FLD_OUT_ADDRESS (by decide)]

theorem decode_swizzle_frame (tokens tokens' : List Nat) (cur : Nat) (f : VshFieldName)
    (hilu : vsh_get_field tokens cur FLD_ILU = vsh_get_field tokens' cur FLD_ILU)
    (h0 : vsh_get_field tokens cur f = vsh_get_field tokens' cur f)
    (h1 : vsh_get_field tokens cur (f + 1) = vsh_get_field tokens' cur (f + 1))
    (h2 : vsh_get_field tokens cur (f + 2) = vsh_get_field tokens' cur (f + 2))
    (h3 : vsh_get_field tokens cur (f + 3) = vsh_get_field tokens' cur (f + 3)) :
    decode_swizzle tokens cur f = decode_swizzle tokens' cur f := by
  unfold decode_swizzle
  rw [hilu, h0, h1, h2, h3]

/-- The text of a slot depends on the token array only through the fields of
the slot; of operand C's swizzle it needs only what `decode_swizzle` makes of
it. -/
theorem decode_token_frame (tokens tokens' : List Nat) (cur : Nat)
    (h : ∀ f, f < 35 → f ≠ FLD_C_SWZ_Y → f ≠ FLD_C_SWZ_Z → f ≠ FLD_C_SWZ_W →
      vsh_get_field tokens cur f = vsh_get_field tokens' cur f)
    (hsw : decode_swizzle tokens cur FLD_C_SWZ_X = decode_swizzle tokens' cur FLD_C_SWZ_X) :
    decode_token tokens cur = decode_token tokens' cur := by
  have hf : ∀ f, f < 35 ∧ f ≠ FLD_C_SWZ_Y ∧ f ≠ FLD_C_SWZ_Z ∧ f ≠ FLD_C_SWZ_W →
      vsh_get_field tokens cur f = vsh_get_field tokens' cur f :=
    fun f hf => h f hf.1 hf.2.1 hf.2.2.1 hf.2.2.2
  have hin : ∀ param neg_field reg_num,
      neg_field = FLD_A_NEG ∨ neg_field = FLD_B_NEG ∨ neg_field = FLD_C_NEG →
      decode_opcode_input tokens cur param neg_field reg_num
        = decode_opcode_input tokens' cur param neg_field reg_num := by
    intro param neg_field reg_num hn
    rcases hn with rfl | rfl | rfl
    · exact decode_opcode_input_frame tokens tokens' cur param _ reg_num (hf _ (by decide))
        (hf _ (by decide)) (hf _ (by decide)) (hf _ (by decide))
        (decode_swizzle_frame tokens tokens' cur _ (hf _ (by decide)) (hf _ (by decide))
          (hf _ (by decide)) (hf _ (by decide)) (hf _ (by decide)))
    · exact decode_opcode_input_frame tokens tokens' cur param _ reg_num (hf _ (by decide))
        (hf _ (by decide)) (hf _ (by decide)) (hf _ (by decide))
        (decode_swizzle_frame tokens tokens' cur _ (hf _ (by decide)) (hf _ (by decide))
          (hf _ (by decide)) (hf _ (by decide)) (hf _ (by decide)))
    · exact decode_opcode_input_frame tokens tokens' cur param _ reg_num (hf _ (by decide))
        (hf _ (by decide)) (hf _ (by decide)) (hf _ (by decide)) hsw
  have hop : ∀ out_mux mask opcode inputs,
      decode_opcode tokens cur out_mux mask opcode inputs
        = decode_opcode tokens' cur out_mux mask opcode inputs := by
    intro out_mux mask opcode inputs
    refine decode_opcode_frame tokens tokens' cur out_mux mask opcode inputs ?_
    intro f hmem
    simp only [List.mem_cons, List.mem_singleton, List.not_mem_nil, or_false] at hmem
    rcases hmem with rfl | rfl | rfl | rfl | rfl | rfl | rfl <;> exact hf _ (by decide)
  unfold decode_token
  simp only [hf FLD_C_MUX (by decide), hf FLD_C_R_HIGH (by decide), hf FLD_C_R_LOW (by decide),
    hf FLD_MAC (by decide), hf FLD_A_MUX (by decide), hf FLD_A_R (by decide),
    hf FLD_B_MUX (by decide), hf FLD_B_R (by decide), hf FLD_OUT_MAC_MASK (by decide),
    hf FLD_ILU (by decide), hf FLD_OUT_ILU_MASK (by decide),
    hin _ FLD_A_NEG _ (Or.inl rfl), hin _ FLD_B_NEG _ (Or.inr (Or.inl rfl)),
    hin _ FLD_C_NEG _ (Or.inr (Or.inr rfl)), hop]

theorem lane_letter_injective (a b : Nat) (ha : a < 4) (hb : b < 4)
    (h : lane_letter a = lane_letter b) : a = b := by
  interval_cases a <;> interval_cases b <;> first | rfl | exact absurd h (by decide)

theorem swizzle_text_injective (x y z w x' y' z' w' : Nat) (hx : x < 4) (hy : y < 4)
    (hz : z < 4) (hw : w < 4) (hx' : x' < 4) (hy' : y' < 4) (hz' : z' < 4) (hw' : w' < 4)
    (h : swizzle_text x y z w = swizzle_text x' y' z' w') :
    x = x' ∧ y = y' ∧ z = z' ∧ w = w' := by
  unfold swizzle_text at h
  have hd := congrArg String.data h
  clear h
  by_cases h1 : x = 0 ∧ y = 1 ∧ z = 2 ∧ w = 3
  · by_cases h2 : x' = 0 ∧ y' = 1 ∧ z' = 2 ∧ w' = 3
    · omega
    · rw [if_pos h1, if_neg h2] at hd
      by_cases h3 : x' = y' ∧ y' = z' ∧ z' = w'
      · rw [if_pos h3] at hd
        exact absurd hd (by simp)
      · rw [if_neg h3] at hd
        exact absurd hd (by simp)
  · rw [if_neg h1] at hd
    by_cases h2 : x' = 0 ∧ y' = 1 ∧ z' = 2 ∧ w' = 3
    · rw [if_pos h2] at hd
      by_cases h3 : x = y ∧ y = z ∧ z = w
      · rw [if_pos h3] at hd
        exact absurd hd (by simp)
      · rw [if_neg h3] at hd
        exact absurd hd (by simp)
    · rw [if_neg h2] at hd
      by_cases h3 : x = y ∧ y = z ∧ z = w
      · rw [if_pos h3] at hd
        by_cases h4 : x' = y' ∧ y' = z' ∧ z' = w'
        · rw [if_pos h4] at hd
          simp only [List.cons.injEq, true_and, and_true] at hd
          have := lane_letter_injective x x' hx hx' hd
          omega
        · rw [if_neg h4] at hd
          exact absurd hd (by simp)
      · rw [if_neg h3] at hd
        by_cases h4 : x' = y' ∧ y' = z' ∧ z' = w'
        · rw [if_pos h4] at hd
          exact absurd hd (by simp)
        · rw [if_neg h4] at hd
          simp only [List.cons.injEq, true_and, and_true] at hd
          exact ⟨lane_letter_injective x x' hx hx' hd.1, lane_letter_injective y y' hy hy' hd.2.1,
            lane_letter_injective z z' hz hz' hd.2.2.1, lane_letter_injective w w' hw hw' hd.2.2.2⟩

/-- C18: scalar forcing applies to operand C under a scalar ILU opcode and
nowhere else.  When the ILU opcode of a slot is RCP, RCC, RSQ, EXP or LOG, the
swizzle suffix of operand C is "." and the one letter of `FLD_C_SWZ_X`, and the
whole text of the slot (operand C being decoded once for both units) is the
same for every token array that agrees on all fields but `FLD_C_SWZ_Y`,
`FLD_C_SWZ_Z` and `FLD_C_SWZ_W`.  When the ILU opcode is NOP, MOV or LIT, and
always for operands A and B, the suffix is the text of the four lane fields,
and that text determines the four selectors. -/
theorem decode_swizzle_scalar_forcing (tokens : List Nat) (cur ilu : Nat)
    (hcur : cur + 3 < tokens.length) (hilu : vsh_get_field tokens cur FLD_ILU = .ok ilu) :
    (ilu ∈ [ILU_RCP, ILU_RCC, ILU_RSQ, ILU_EXP, ILU_LOG] →
        decode_swizzle tokens cur FLD_C_SWZ_X
            = .ok (String.mk ['.', lane_letter (field_value tokens cur FLD_C_SWZ_X)])
          ∧ ∀ tokens' : List Nat,
              (∀ f, f < 35 → f ≠ FLD_C_SWZ_Y → f ≠ FLD_C_SWZ_Z → f ≠ FLD_C_SWZ_W →
                vsh_get_field tokens cur f = vsh_get_field tokens' cur f) →
              decode_swizzle tokens cur FLD_C_SWZ_X = decode_swizzle tokens' cur FLD_C_SWZ_X
                ∧ decode_opcode_input tokens cur (field_value tokens cur FLD_C_MUX) FLD_C_NEG
                    (((field_value tokens cur FLD_C_R_HIGH <<< 2)
                      ||| field_value tokens cur FLD_C_R_LOW : Nat) : Int)
                  = decode_opcode_input tokens' cur (field_value tokens cur FLD_C_MUX) FLD_C_NEG
                    (((field_value tokens cur FLD_C_R_HIGH <<< 2)
                      ||| field_value tokens cur FLD_C_R_LOW : Nat) : Int)
                ∧ decode_token tokens cur = decode_token tokens' cur)
      ∧ (ilu ∈ [ILU_NOP, ILU_MOV, ILU_LIT] →
          decode_swizzle tokens cur FLD_C_SWZ_X
            = .ok (swizzle_text (field_value tokens cur FLD_C_SWZ_X)
                (field_value tokens cur FLD_C_SWZ_Y) (field_value tokens cur FLD_C_SWZ_Z)
                (field_value tokens cur FLD_C_SWZ_W)))
      ∧ decode_swizzle tokens cur FLD_A_SWZ_X
          = .ok (swizzle_text (field_value tokens cur FLD_A_SWZ_X)
              (field_value tokens cur FLD_A_SWZ_Y) (field_value tokens cur FLD_A_SWZ_Z)
              (field_value tokens cur FLD_A_SWZ_W))
      ∧ decode_swizzle tokens cur FLD_B_SWZ_X
          = .ok (swizzle_text (field_value tokens cur FLD_B_SWZ_X)
              (field_value tokens cur FLD_B_SWZ_Y) (field_value tokens cur FLD_B_SWZ_Z)
              (field_value tokens cur FLD_B_SWZ_W))
      ∧ (∀ x y z w x' y' z' w' : Nat, x < 4 → y < 4 → z < 4 → w < 4 →
          x' < 4 → y' < 4 → z' < 4 → w' < 4 →
          swizzle_text x y z w = swizzle_text x' y' z' w' →
          x = x' ∧ y = y' ∧ z = z' ∧ w = w') := by
  have hfv := vsh_get_field_eq_value tokens cur hcur
  have hlt : ∀ f, (field_mapping[f]?).map (fun m => m.bit_length) = some 2 →
      field_value tokens cur f < 4 := fun f h => field_value_lt_width tokens cur f 2 h
  refine ⟨fun hmem => ?_, fun hmem => ?_, ?_, ?_, ?_⟩
  · have hforce : table_get ilu_force_scalar ilu = .ok true := by
      simp only [List.mem_cons, List.mem_singleton, List.not_mem_nil, or_false] at hmem
      rcases hmem with rfl | rfl | rfl | rfl | rfl <;> rfl
    have hsw := decode_swizzle_forced tokens cur ilu _ hilu hforce (hfv FLD_C_SWZ_X (by decide))
      (hlt FLD_C_SWZ_X rfl)
    refine ⟨hsw, fun tokens' hframe => ?_⟩
    have hilu' : vsh_get_field tokens' cur FLD_ILU = .ok ilu := by
      rw [← hframe FLD_ILU (by decide) (by decide) (by decide) (by decide)]
      exact hilu
    have hx' : vsh_get_field tokens' cur FLD_C_SWZ_X
        = .ok (field_value tokens cur FLD_C_SWZ_X) := by
      rw [← hframe FLD_C_SWZ_X (by decide) (by decide) (by decide) (by decide)]
      exact hfv FLD_C_SWZ_X (by decide)
    have heq : decode_swizzle tokens cur FLD_C_SWZ_X = decode_swizzle tokens' cur FLD_C_SWZ_X := by
      rw [hsw, decode_swizzle_forced tokens' cur ilu _ hilu' hforce hx' (hlt FLD_C_SWZ_X rfl)]
    exact ⟨heq,
      decode_opcode_input_frame tokens tokens' cur _ FLD_C_NEG _
        (hframe _ (by decide) (by decide) (by decide) (by decide))
        (hframe _ (by decide) (by decide) (by decide) (by decide))
        (hframe _ (by decide) (by decide) (by decide) (by decide))
        (hframe _ (by decide) (by decide) (by decide) (by decide)) heq,
      decode_token_frame tokens tokens' cur hframe heq⟩
  · have hforce : table_get ilu_force_scalar ilu = .ok false := by
      simp only [List.mem_cons, List.mem_singleton, List.not_mem_nil, or_false] at hmem
      rcases hmem with rfl | rfl | rfl <;> rfl
    exact decode_swizzle_of_reads tokens cur FLD_C_SWZ_X _ _ _ _ (hfv _ (by decide))
      (hfv _ (by decide)) (hfv _ (by decide)) (hfv _ (by decide)) (hlt FLD_C_SWZ_X rfl)
      (hlt FLD_C_SWZ_Y rfl) (hlt FLD_C_SWZ_Z rfl) (hlt FLD_C_SWZ_W rfl)
      (fun _ => ⟨ilu, hilu, hforce⟩)
  · exact decode_swizzle_of_reads tokens cur FLD_A_SWZ_X _ _ _ _ (hfv _ (by decide))
      (hfv _ (by decide)) (hfv _ (by decide)) (hfv _ (by decide)) (hlt FLD_A_SWZ_X rfl)
      (hlt FLD_A_SWZ_Y rfl) (hlt FLD_A_SWZ_Z rfl) (hlt FLD_A_SWZ_W rfl)
      (fun h => absurd h (by decide))
  · exact decode_swizzle_of_reads tokens cur FLD_B_SWZ_X _ _ _ _ (hfv _ (by decide))
      (hfv _ (by decide)) (hfv _ (by decide)) (hfv _ (by decide)) (hlt FLD_B_SWZ_X rfl)
      (hlt FLD_B_SWZ_Y rfl) (hlt FLD_B_SWZ_Z rfl) (hlt FLD_B_SWZ_W rfl)
      (fun h => absurd h (by decide))
  · exact swizzle_text_injective

theorem decode_swizzle_scalar_forcing_witness :
    vsh_get_field [0, 0x0420001B, 0x0836106C, 0x2F5F0001] 0 FLD_ILU = .ok ILU_RCP
      ∧ decode_swizzle [0, 0x0420001B, 0x0836106C, 0x2F5F0001] 0 FLD_C_SWZ_X = .ok ".x"
      ∧ decode_swizzle [0, 0x0420001B, 0x08361000, 0x2F5F0001] 0 FLD_C_SWZ_X = .ok ".x"
      ∧ decode_token [0, 0x0420001B, 0x0836106C, 0x2F5F0001] 0
          = decode_token [0, 0x0420001B, 0x08361000, 0x2F5F0001] 0
      ∧ decode_swizzle [0, 0x0420001B, 0x0836106C, 0x2F5F0001] 0 FLD_A_SWZ_X = .ok "" := by
  have hframe : ∀ f, f < 35 → f ≠ FLD_C_SWZ_Y → f ≠ FLD_C_SWZ_Z → f ≠ FLD_C_SWZ_W →
      vsh_get_field [0, 0x0420001B, 0x0836106C, 0x2F5F0001] 0 f
        = vsh_get_field [0, 0x0420001B, 0x08361000, 0x2F5F0001] 0 f := by
    intro f hf hy hz hw
    interval_cases f
    all_goals first
      | rfl
      | exact absurd rfl hy
      | exact absurd rfl hz
      | exact absurd rfl hw
  have h := decode_swizzle_scalar_forcing [0, 0x0420001B, 0x0836106C, 0x2F5F0001] 0 ILU_RCP
    (by decide) rfl
  have hforced := h.1 (by decide)
  have hother := hforced.2 [0, 0x0420001B, 0x08361000, 0x2F5F0001] hframe
  exact ⟨rfl, hforced.1, hother.1 ▸ hforced.1, hother.2.2, h.2.2.1⟩

/-! ## Operands -/

/-- C19: for operand A, B or C of an in-bounds slot and each class R, V, C,
`decode_opcode_input` returns sign ++ register ++ swizzle: the sign is "-"
when the operand's NEG bit is set and empty otherwise; the register is "R" and
the decimal `reg_num` for class R, "v" and the decimal `FLD_V` for class V, and
for class C "c[A0+n]" when `FLD_A0X` is set and "c[n]" otherwise, with
`n = convert_c_register FLD_CONST`; the swizzle is what `decode_swizzle` returns
for the four fields that follow the NEG field. -/
theorem decode_opcode_input_text (tokens : List Nat) (cur : Nat) (hcur : cur + 3 < tokens.length)
    (neg_field : VshFieldName) (reg_num : Int)
    (hn : neg_field = FLD_A_NEG ∨ neg_field = FLD_B_NEG ∨ neg_field = FLD_C_NEG) :
    (FLD_A_NEG + 1 = FLD_A_SWZ_X ∧ FLD_B_NEG + 1 = FLD_B_SWZ_X ∧ FLD_C_NEG + 1 = FLD_C_SWZ_X)
      ∧ ∃ swizzle, decode_swizzle tokens cur (neg_field + 1) = .ok swizzle
        ∧ decode_opcode_input tokens cur PARAM_R neg_field reg_num
            = .ok ((if field_value tokens cur neg_field > 0 then "-" else "")
                ++ ("R" ++ toString reg_num) ++ swizzle)
        ∧ decode_opcode_input tokens cur PARAM_V neg_field reg_num
            = .ok ((if field_value tokens cur neg_field > 0 then "-" else "")
                ++ ("v" ++ toString (field_value tokens cur FLD_V)) ++ swizzle)
        ∧ decode_opcode_input tokens cur PARAM_C neg_field reg_num
            = .ok ((if field_value tokens cur neg_field > 0 then "-" else "")
                ++ (if field_value tokens cur FLD_A0X > 0 then
                      "c[A0+" ++ toString (convert_c_register (field_value tokens cur FLD_CONST))
                        ++ "]"
                    else
                      "c[" ++ toString (convert_c_register (field_value tokens cur FLD_CONST))
                        ++ "]")
                ++ swizzle) := by
  have hfv := vsh_get_field_eq_value tokens cur hcur
  have hn35 : neg_field < 35 := by rcases hn with rfl | rfl | rfl <;> decide
  obtain ⟨sw, hsw⟩ : ∃ s, decode_swizzle tokens cur (neg_field + 1) = .ok s :=
    decode_swizzle_total tokens cur _ hcur (by rcases hn with rfl | rfl | rfl <;> simp
      [FLD_A_NEG, FLD_B_NEG, FLD_C_NEG, FLD_A_SWZ_X, FLD_B_SWZ_X, FLD_C_SWZ_X])
  refine ⟨⟨rfl, rfl, rfl⟩, sw, hsw, ?_, ?_, ?_⟩
  · unfold decode_opcode_input
    simp only [hfv neg_field hn35, except_bind_ok, if_true, except_pure, hsw]
  · unfold decode_opcode_input
    rw [if_neg (by decide : ¬ PARAM_V = PARAM_R), if_pos rfl]
    simp only [hfv neg_field hn35, hfv FLD_V (by decide), except_bind_ok, except_pure, hsw]
  · unfold decode_opcode_input
    rw [if_neg (by decide : ¬ PARAM_C = PARAM_R), if_neg (by decide : ¬ PARAM_C = PARAM_V),
      if_pos rfl]
    simp only [hfv neg_field hn35, hfv FLD_CONST (by decide), hfv FLD_A0X (by decide),
      except_bind_ok, except_pure, hsw]
    split_ifs <;> rfl

theorem decode_opcode_input_text_witness :
    (FLD_A_NEG + 1 = FLD_A_SWZ_X ∧ FLD_B_NEG + 1 = FLD_B_SWZ_X ∧ FLD_C_NEG + 1 = FLD_C_SWZ_X)
      ∧ ∃ swizzle, decode_swizzle [0, 0x0020011B, 0x0836106C, 0x2F000FF9] 0 (FLD_A_NEG + 1)
          = .ok swizzle
        ∧ decode_opcode_input [0, 0x0020011B, 0x0836106C, 0x2F000FF9] 0 PARAM_R FLD_A_NEG 7
            = .ok ((if field_value [0, 0x0020011B, 0x0836106C, 0x2F000FF9] 0 FLD_A_NEG > 0 then
                    "-" else "")
                ++ ("R" ++ toString (7 : Int)) ++ swizzle)
        ∧ decode_opcode_input [0, 0x0020011B, 0x0836106C, 0x2F000FF9] 0 PARAM_V FLD_A_NEG 7
            = .ok ((if field_value [0, 0x0020011B, 0x0836106C, 0x2F000FF9] 0 FLD_A_NEG > 0 then
                    "-" else "")
                ++ ("v" ++ toString (field_value [0, 0x0020011B, 0x0836106C, 0x2F000FF9] 0 FLD_V))
                ++ swizzle)
        ∧ decode_opcode_input [0, 0x0020011B, 0x0836106C, 0x2F000FF9] 0 PARAM_C FLD_A_NEG 7
            = .ok ((if field_value [0, 0x0020011B, 0x0836106C, 0x2F000FF9] 0 FLD_A_NEG > 0 then
                    "-" else "")
                ++ (if field_value [0, 0x0020011B, 0x0836106C, 0x2F000FF9] 0 FLD_A0X > 0 then
                      "c[A0+" ++ toString (convert_c_register
                        (field_value [0, 0x0020011B, 0x0836106C, 0x2F000FF9] 0 FLD_CONST)) ++ "]"
                    else
                      "c[" ++ toString (convert_c_register
                        (field_value [0, 0x0020011B, 0x0836106C, 0x2F000FF9] 0 FLD_CONST)) ++ "]")
                ++ swizzle) :=
  decode_opcode_input_text [0, 0x0020011B, 0x0836106C, 0x2F000FF9] 0 (by decide) FLD_A_NEG 7
    (Or.inl rfl)

/-- C14: on an in-bounds slot and for operand A, B or C, `decode_opcode_input`
faults if and only if the operand class it is given is outside {R, V, C}; the
fault is the failed assertion on the class; for a class below 4 (a 2-bit mux
field) being outside {R, V, C} means being 0, `PARAM_UNKNOWN`; and for the
classes 1, 2 and 3 it returns text. -/
theorem decode_opcode_input_fault_iff (tokens : List Nat) (cur : Nat)
    (hcur : cur + 3 < tokens.length) (param : VshParameterType) (neg_field : VshFieldName)
    (reg_num : Int)
    (hn : neg_field = FLD_A_NEG ∨ neg_field = FLD_B_NEG ∨ neg_field = FLD_C_NEG) :
    ((∃ e, decode_opcode_input tokens cur param neg_field reg_num = .error e)
        ↔ ¬ (param = PARAM_R ∨ param = PARAM_V ∨ param = PARAM_C))
      ∧ (¬ (param = PARAM_R ∨ param = PARAM_V ∨ param = PARAM_C) →
          decode_opcode_input tokens cur param neg_field reg_num = .error (.assert_param param))
      ∧ (param < 4 →
          (¬ (param = PARAM_R ∨ param = PARAM_V ∨ param = PARAM_C) ↔ param = PARAM_UNKNOWN))
      ∧ (param = 1 ∨ param = 2 ∨ param = 3 →
          ∃ text, decode_opcode_input tokens cur param neg_field reg_num = .ok text) := by
  have hfv := vsh_get_field_eq_value tokens cur hcur
  have hn35 : neg_field < 35 := by rcases hn with rfl | rfl | rfl <;> decide
  have hout : ¬ (param = PARAM_R ∨ param = PARAM_V ∨ param = PARAM_C) →
      decode_opcode_input tokens cur param neg_field reg_num = .error (.assert_param param) := by
    intro h
    unfold decode_opcode_input
    rw [if_neg (fun hp => h (Or.inl hp)), if_neg (fun hp => h (Or.inr (Or.inl hp))),
      if_neg (fun hp => h (Or.inr (Or.inr hp)))]
    simp only [hfv neg_field hn35, except_bind_ok, except_throw, except_bind_error]
  refine ⟨⟨?_, fun h => ⟨_, hout h⟩⟩, hout, ?_, ?_⟩
  · rintro ⟨e, he⟩ hp
    obtain ⟨s, hs⟩ := decode_opcode_input_total tokens cur hcur param neg_field reg_num hp hn
    rw [hs] at he
    cases he
  · intro h4
    have h : ∀ p : Nat, p < 4 → (¬ (p = 1 ∨ p = 2 ∨ p = 3) ↔ p = 0) := by
      intro p hp
      omega
    exact h param h4
  · intro hp
    exact decode_opcode_input_total tokens cur hcur param neg_field reg_num hp hn

theorem decode_opcode_input_fault_iff_witness :
    ((∃ e, decode_opcode_input [0, 0x0020001B, 0x0836106C, 0x2F000FF9] 0 PARAM_UNKNOWN FLD_C_NEG 0
          = .error e)
        ↔ ¬ (PARAM_UNKNOWN = PARAM_R ∨ PARAM_UNKNOWN = PARAM_V ∨ PARAM_UNKNOWN = PARAM_C))
      ∧ decode_opcode_input [0, 0x0020001B, 0x0836106C, 0x2F000FF9] 0 PARAM_UNKNOWN FLD_C_NEG 0
          = .error (.assert_param PARAM_UNKNOWN) :=
  ⟨(decode_opcode_input_fault_iff [0, 0x0020001B, 0x0836106C, 0x2F000FF9] 0 (by decide)
      PARAM_UNKNOWN FLD_C_NEG 0 (Or.inr (Or.inr rfl))).1,
    (decode_opcode_input_fault_iff [0, 0x0020001B, 0x0836106C, 0x2F000FF9] 0 (by decide)
      PARAM_UNKNOWN FLD_C_NEG 0 (Or.inr (Or.inr rfl))).2.1 (by decide)⟩

/-! ## Slots without an opcode -/

/-- C17: an in-bounds slot whose MAC opcode and ILU opcode are both NOP and
whose operand-C class is valid (`FLD_C_MUX ≠ 0`) decodes to the empty text,
whatever its other fields hold. -/
theorem decode_token_nop (tokens : List Nat) (cur : Nat) (hcur : cur + 3 < tokens.length)
    (c_mux : Nat) (hmac : vsh_get_field tokens cur FLD_MAC = .ok MAC_NOP)
    (hilu : vsh_get_field tokens cur FLD_ILU = .ok ILU_NOP)
    (hc : vsh_get_field tokens cur FLD_C_MUX = .ok c_mux) (hne : c_mux ≠ 0) :
    decode_token tokens cur = .ok "" := by
  have hfv := vsh_get_field_eq_value tokens cur hcur
  have hc4 : c_mux < 4 := vsh_get_field_range tokens cur FLD_C_MUX c_mux ⟨FLD_C_MUX, 3, 28, 2⟩ rfl hc
  have hp : c_mux = PARAM_R ∨ c_mux = PARAM_V ∨ c_mux = PARAM_C := by
    simp only [PARAM_R, PARAM_V, PARAM_C]
    omega
  obtain ⟨s, hs⟩ := decode_opcode_input_total tokens cur hcur c_mux FLD_C_NEG
    (((field_value tokens cur FLD_C_R_HIGH <<< 2) ||| field_value tokens cur FLD_C_R_LOW : Nat) : Int)
    hp (Or.inr (Or.inr rfl))
  unfold decode_token
  simp only [hc, hfv FLD_C_R_HIGH (by decide), hfv FLD_C_R_LOW (by decide), except_bind_ok, hs,
    hmac, hilu, ne_eq, not_true_eq_false, if_false, except_pure]

theorem decode_token_nop_witness :
    decode_token [0xFFFFFFFF, 0x001FFFFF, 0xFFFFFFFF, 0x3FFFFFFF] 0 = .ok "" :=
  decode_token_nop [0xFFFFFFFF, 0x001FFFFF, 0xFFFFFFFF, 0x3FFFFFFF] 0 (by decide) 3 rfl rfl rfl
    (by decide)

/-! ## The text of a whole slot -/

theorem table_get_getD_of_lt {α : Type} (table : List α) (i : Nat) (d : α)
    (h : i < table.length) : table_get table i = .ok (table.getD i d) := by
  rw [table_get_of_lt table i h]
  simp [List.getD, List.getElem?_eq_getElem h]

theorem effective_mask_le (tokens : List Nat) (cur : Nat) (out_mux : VshOutputMux) (mask : Nat) :
    effective_mask tokens cur out_mux mask ≤ mask := by
  unfold effective_mask
  split_ifs
  · exact Nat.zero_le _
  · exact Nat.le_refl _

/-- Inside the token array and for a 4-bit mask the opcode emitter returns its
two statements. -/
theorem decode_opcode_ok (tokens : List Nat) (cur : Nat) (hcur : cur + 3 < tokens.length)
    (out_mux mask : Nat) (opcode inputs : String) (hmask : mask < 16) :
    decode_opcode tokens cur out_mux mask opcode inputs
      = .ok (reg_statement tokens cur out_mux mask opcode inputs
          ++ output_statement tokens cur out_mux opcode inputs) :=
  decode_opcode_eq tokens cur hcur out_mux mask opcode inputs
    (Nat.lt_of_le_of_lt (effective_mask_le tokens cur out_mux mask) hmask)

theorem decode_opcode_input_assert (tokens : List Nat) (cur : Nat)
    (hcur : cur + 3 < tokens.length) (param : VshParameterType) (neg_field : VshFieldName)
    (reg_num : Int) (hn : neg_field < 35)
    (h : ¬ (param = PARAM_R ∨ param = PARAM_V ∨ param = PARAM_C)) :
    decode_opcode_input tokens cur param neg_field reg_num = .error (.assert_param param) := by
  unfold decode_opcode_input
  rw [if_neg (fun hp => h (Or.inl hp)), if_neg (fun hp => h (Or.inr (Or.inl hp))),
    if_neg (fun hp => h (Or.inr (Or.inr hp)))]
  simp only [vsh_get_field_eq_value tokens cur hcur neg_field hn, except_bind_ok, except_throw,
    except_bind_error]

/-- The shape of `decode_token` inside the token array, with every field read
replaced by its value. -/
theorem decode_token_unfold (tokens : List Nat) (cur : Nat) (hcur : cur + 3 < tokens.length) :
    decode_token tokens cur
      = (decode_opcode_input tokens cur (field_value tokens cur FLD_C_MUX) FLD_C_NEG
            (c_reg_index tokens cur : Nat) >>= fun input_c =>
          (if field_value tokens cur FLD_MAC ≠ MAC_NOP then
              table_get mac_opcode_params (field_value tokens cur FLD_MAC) >>= fun params_a =>
              (if params_a.A = true then
                  decode_opcode_input tokens cur (field_value tokens cur FLD_A_MUX) FLD_A_NEG
                      (field_value tokens cur FLD_A_R : Nat) >>= fun input_a =>
                    Except.ok ("" ++ ", " ++ input_a)
                else Except.ok "") >>= fun inputs_a =>
              table_get mac_opcode_params (field_value tokens cur FLD_MAC) >>= fun params_b =>
              (if params_b.B = true then
                  decode_opcode_input tokens cur (field_value tokens cur FLD_B_MUX) FLD_B_NEG
                      (field_value tokens cur FLD_B_R : Nat) >>= fun input_b =>
                    Except.ok (inputs_a ++ ", " ++ input_b)
                else Except.ok inputs_a) >>= fun inputs_b =>
              table_get mac_opcode_params (field_value tokens cur FLD_MAC) >>= fun params_c =>
              table_get mac_opcode (field_value tokens cur FLD_MAC) >>= fun opcode =>
              decode_opcode tokens cur OMUX_MAC (field_value tokens cur FLD_OUT_MAC_MASK) opcode
                (if params_c.C = true then inputs_b ++ ", " ++ input_c else inputs_b)
            else Except.ok "") >>= fun ret =>
          if field_value tokens cur FLD_ILU ≠ ILU_NOP then
            table_get ilu_opcode (field_value tokens cur FLD_ILU) >>= fun opcode =>
            decode_opcode tokens cur OMUX_ILU (field_value tokens cur FLD_OUT_ILU_MASK) opcode
              (", " ++ input_c) >>= fun ilu_op =>
            Except.ok (ret ++ ilu_op)
          else Except.ok ret) := by
  have hfv := vsh_get_field_eq_value tokens cur hcur
  unfold decode_token c_reg_index
  simp only [hfv FLD_C_MUX (by decide), hfv FLD_C_R_HIGH (by decide), hfv FLD_C_R_LOW (by decide),
    hfv FLD_MAC (by decide), hfv FLD_A_MUX (by decide), hfv FLD_A_R (by decide),
    hfv FLD_B_MUX (by decide), hfv FLD_B_R (by decide), hfv FLD_OUT_MAC_MASK (by decide),
    hfv FLD_ILU (by decide), hfv FLD_OUT_ILU_MASK (by decide), except_bind_ok, except_pure]

theorem decode_token_c_fault (tokens : List Nat) (cur : Nat) (hcur : cur + 3 < tokens.length)
    (e : VshFault)
    (hc : decode_opcode_input tokens cur (field_value tokens cur FLD_C_MUX) FLD_C_NEG
      (c_reg_index tokens cur : Nat) = .error e) :
    decode_token tokens cur = .error e := by
  rw [decode_token_unfold tokens cur hcur, hc]
  rfl

theorem mac_params_lookup (mac : Nat) (h : mac ≤ 13) :
    table_get mac_opcode_params mac = .ok (mac_params mac) :=
  table_get_getD_of_lt mac_opcode_params mac _ (Nat.lt_succ_of_le h)

theorem decode_token_mac_table (tokens : List Nat) (cur : Nat) (hcur : cur + 3 < tokens.length)
    (c : String)
    (hc : decode_opcode_input tokens cur (field_value tokens cur FLD_C_MUX) FLD_C_NEG
      (c_reg_index tokens cur : Nat) = .ok c)
    (hmac : 13 < field_value tokens cur FLD_MAC) :
    decode_token tokens cur = .error (.table_out_of_bounds (field_value tokens cur FLD_MAC)) := by
  have hne : field_value tokens cur FLD_MAC ≠ MAC_NOP := by
    intro h
    rw [h] at hmac
    exact absurd hmac (by decide)
  have hlen : mac_opcode_params.length ≤ field_value tokens cur FLD_MAC := hmac
  rw [decode_token_unfold tokens cur hcur, hc]
  simp only [except_bind_ok, if_pos hne, table_get_of_ge _ _ hlen, except_bind_error]

/-- The ILU half of `decode_token` inside the token array. -/
theorem decode_token_ilu_part (tokens : List Nat) (cur : Nat) (hcur : cur + 3 < tokens.length)
    (ret c : String) :
    (if field_value tokens cur FLD_ILU ≠ ILU_NOP then
        table_get ilu_opcode (field_value tokens cur FLD_ILU) >>= fun opcode =>
        decode_opcode tokens cur OMUX_ILU (field_value tokens cur FLD_OUT_ILU_MASK) opcode
          (", " ++ c) >>= fun ilu_op =>
        Except.ok (ret ++ ilu_op)
      else (Except.ok ret : Except VshFault String))
      = .ok (ret ++ ilu_text tokens cur c) := by
  have hilu : field_value tokens cur FLD_ILU < ilu_opcode.length :=
    field_value_lt_width tokens cur FLD_ILU 3 rfl
  have hm : field_value tokens cur FLD_OUT_ILU_MASK < 16 :=
    field_value_lt_width tokens cur FLD_OUT_ILU_MASK 4 rfl
  unfold ilu_text
  by_cases h : field_value tokens cur FLD_ILU = ILU_NOP
  · rw [if_neg (not_not.mpr h), if_pos h, String.append_empty]
  · rw [if_pos h, if_neg h, table_get_getD_of_lt ilu_opcode _ "" hilu]
    simp only [except_bind_ok, decode_opcode_ok tokens cur hcur OMUX_ILU _ _ _ hm]

theorem decode_token_text (tokens : List Nat) (cur : Nat) (hcur : cur + 3 < tokens.length)
    (a b c : String)
    (hc : decode_opcode_input tokens cur (field_value tokens cur FLD_C_MUX) FLD_C_NEG
      (c_reg_index tokens cur : Nat) = .ok c)
    (hmac : field_value tokens cur FLD_MAC ≤ 13)
    (ha : (mac_params (field_value tokens cur FLD_MAC)).A = true →
      decode_opcode_input tokens cur (field_value tokens cur FLD_A_MUX) FLD_A_NEG
        (field_value tokens cur FLD_A_R : Nat) = .ok a)
    (hb : (mac_params (field_value tokens cur FLD_MAC)).B = true →
      decode_opcode_input tokens cur (field_value tokens cur FLD_B_MUX) FLD_B_NEG
        (field_value tokens cur FLD_B_R : Nat) = .ok b) :
    decode_token tokens cur = .ok (mac_text tokens cur a b c ++ ilu_text tokens cur c) := by
  have hm : field_value tokens cur FLD_OUT_MAC_MASK < 16 :=
    field_value_lt_width tokens cur FLD_OUT_MAC_MASK 4 rfl
  have hop : field_value tokens cur FLD_MAC < mac_opcode.length := Nat.lt_succ_of_le hmac
  rw [decode_token_unfold tokens cur hcur, hc]
  simp only [except_bind_ok, decode_token_ilu_part tokens cur hcur]
  unfold mac_text
  by_cases h : field_value tokens cur FLD_MAC = MAC_NOP
  · rw [if_neg (not_not.mpr h), if_pos h]
    rfl
  · rw [if_pos h, if_neg h, mac_params_lookup _ hmac, table_get_getD_of_lt mac_opcode _ "" hop]
    simp only [except_bind_ok]
    have hin : ((if (mac_params (field_value tokens cur FLD_MAC)).A = true then
            decode_opcode_input tokens cur (field_value tokens cur FLD_A_MUX) FLD_A_NEG
                (field_value tokens cur FLD_A_R : Nat) >>= fun input_a =>
              Except.ok ("" ++ ", " ++ input_a)
          else (Except.ok "" : Except VshFault String)) >>= fun inputs_a =>
        (if (mac_params (field_value tokens cur FLD_MAC)).B = true then
            decode_opcode_input tokens cur (field_value tokens cur FLD_B_MUX) FLD_B_NEG
                (field_value tokens cur FLD_B_R : Nat) >>= fun input_b =>
              Except.ok (inputs_a ++ ", " ++ input_b)
          else Except.ok inputs_a) >>= fun inputs_b =>
        decode_opcode tokens cur OMUX_MAC (field_value tokens cur FLD_OUT_MAC_MASK)
          (mac_opcode.getD (field_value tokens cur FLD_MAC) "")
          (if (mac_params (field_value tokens cur FLD_MAC)).C = true then inputs_b ++ ", " ++ c
            else inputs_b))
        = decode_opcode tokens cur OMUX_MAC (field_value tokens cur FLD_OUT_MAC_MASK)
          (mac_opcode.getD (field_value tokens cur FLD_MAC) "")
          (mac_inputs (mac_params (field_value tokens cur FLD_MAC)) a b c) := by
      unfold mac_inputs
      cases hA : (mac_params (field_value tokens cur FLD_MAC)).A <;>
        cases hB : (mac_params (field_value tokens cur FLD_MAC)).B <;>
        cases hC : (mac_params (field_value tokens cur FLD_MAC)).C <;>
        simp only [hA, hB, ha, hb, Bool.false_eq_true, if_false, if_true, except_bind_ok,
          forall_true_left, String.append_assoc, String.empty_append, String.append_empty]
    rw [hin, decode_opcode_ok tokens cur hcur OMUX_MAC _ _ _ hm]
    rfl

theorem decode_token_a_fault (tokens : List Nat) (cur : Nat) (hcur : cur + 3 < tokens.length)
    (c : String) (e : VshFault)
    (hc : decode_opcode_input tokens cur (field_value tokens cur FLD_C_MUX) FLD_C_NEG
      (c_reg_index tokens cur : Nat) = .ok c)
    (hmac : field_value tokens cur FLD_MAC ≤ 13)
    (hA : (mac_params (field_value tokens cur FLD_MAC)).A = true)
    (ha : decode_opcode_input tokens cur (field_value tokens cur FLD_A_MUX) FLD_A_NEG
      (field_value tokens cur FLD_A_R : Nat) = .error e) :
    decode_token tokens cur = .error e := by
  have hne : field_value tokens cur FLD_MAC ≠ MAC_NOP := by
    intro h
    rw [h] at hA
    exact absurd hA (by decide)
  rw [decode_token_unfold tokens cur hcur, hc]
  simp only [except_bind_ok, if_pos hne, mac_params_lookup _ hmac, hA, if_true, ha,
    except_bind_error]

theorem decode_token_b_fault (tokens : List Nat) (cur : Nat) (hcur : cur + 3 < tokens.length)
    (a c : String) (e : VshFault)
    (hc : decode_opcode_input tokens cur (field_value tokens cur FLD_C_MUX) FLD_C_NEG
      (c_reg_index tokens cur : Nat) = .ok c)
    (hmac : field_value tokens cur FLD_MAC ≤ 13)
    (ha : (mac_params (field_value tokens cur FLD_MAC)).A = true →
      decode_opcode_input tokens cur (field_value tokens cur FLD_A_MUX) FLD_A_NEG
        (field_value tokens cur FLD_A_R : Nat) = .ok a)
    (hB : (mac_params (field_value tokens cur FLD_MAC)).B = true)
    (hb : decode_opcode_input tokens cur (field_value tokens cur FLD_B_MUX) FLD_B_NEG
      (field_value tokens cur FLD_B_R : Nat) = .error e) :
    decode_token tokens cur = .error e := by
  have hne : field_value tokens cur FLD_MAC ≠ MAC_NOP := by
    intro h
    rw [h] at hB
    exact absurd hB (by decide)
  rw [decode_token_unfold tokens cur hcur, hc]
  cases hA : (mac_params (field_value tokens cur FLD_MAC)).A <;>
    simp only [except_bind_ok, if_pos hne, mac_params_lookup _ hmac, hA, hB, ha, if_true,
      Bool.false_eq_true, if_false, hb, except_bind_error]

/-- The two outcomes of decoding an operand of a slot inside the token array:
the class 0 fails the assertion, the classes 1, 2 and 3 give a text. -/
theorem decode_opcode_input_outcome (tokens : List Nat) (cur : Nat)
    (hcur : cur + 3 < tokens.length) (param : Nat) (neg_field : VshFieldName) (reg_num : Int)
    (hp : param < 4)
    (hn : neg_field = FLD_A_NEG ∨ neg_field = FLD_B_NEG ∨ neg_field = FLD_C_NEG) :
    (param = 0 →
        decode_opcode_input tokens cur param neg_field reg_num = .error (.assert_param 0))
      ∧ (param ≠ 0 → ∃ s, decode_opcode_input tokens cur param neg_field reg_num = .ok s) := by
  have hn35 : neg_field < 35 := by rcases hn with rfl | rfl | rfl <;> decide
  constructor
  · rintro rfl
    exact decode_opcode_input_assert tokens cur hcur 0 neg_field reg_num hn35 (by decide)
  · intro hne
    refine decode_opcode_input_total tokens cur hcur param neg_field reg_num ?_ hn
    simp only [PARAM_R, PARAM_V, PARAM_C]
    omega

/-- The outcome of decoding a slot inside the token array whose MAC opcode is at
most 13: the operand-class assertion fails when operand C, or a consumed operand
A or B, has class 0; otherwise the text is that of the two units. -/
theorem decode_token_outcome (tokens : List Nat) (cur : Nat) (hcur : cur + 3 < tokens.length)
    (hmac : field_value tokens cur FLD_MAC ≤ 13) :
    (field_value tokens cur FLD_C_MUX = 0
        ∨ ((mac_params (field_value tokens cur FLD_MAC)).A = true
            ∧ field_value tokens cur FLD_A_MUX = 0)
        ∨ ((mac_params (field_value tokens cur FLD_MAC)).B = true
            ∧ field_value tokens cur FLD_B_MUX = 0) →
        decode_token tokens cur = .error (.assert_param 0))
      ∧ (¬ (field_value tokens cur FLD_C_MUX = 0
          ∨ ((mac_params (field_value tokens cur FLD_MAC)).A = true
              ∧ field_value tokens cur FLD_A_MUX = 0)
          ∨ ((mac_params (field_value tokens cur FLD_MAC)).B = true
              ∧ field_value tokens cur FLD_B_MUX = 0)) →
        ∃ a b c,
          decode_opcode_input tokens cur (field_value tokens cur FLD_C_MUX) FLD_C_NEG
              (c_reg_index tokens cur : Nat) = .ok c
            ∧ ((mac_params (field_value tokens cur FLD_MAC)).A = true →
                decode_opcode_input tokens cur (field_value tokens cur FLD_A_MUX) FLD_A_NEG
                  (field_value tokens cur FLD_A_R : Nat) = .ok a)
            ∧ ((mac_params (field_value tokens cur FLD_MAC)).B = true →
                decode_opcode_input tokens cur (field_value tokens cur FLD_B_MUX) FLD_B_NEG
                  (field_value tokens cur FLD_B_R : Nat) = .ok b)
            ∧ decode_token tokens cur
                = .ok (mac_text tokens cur a b c ++ ilu_text tokens cur c)) := by
  have hC := decode_opcode_input_outcome tokens cur hcur (field_value tokens cur FLD_C_MUX)
    FLD_C_NEG (c_reg_index tokens cur : Nat) (field_value_lt_width tokens cur FLD_C_MUX 2 rfl)
    (Or.inr (Or.inr rfl))
  have hA := decode_opcode_input_outcome tokens cur hcur (field_value tokens cur FLD_A_MUX)
    FLD_A_NEG (field_value tokens cur FLD_A_R : Nat)
    (field_value_lt_width tokens cur FLD_A_MUX 2 rfl) (Or.inl rfl)
  have hB := decode_opcode_input_outcome tokens cur hcur (field_value tokens cur FLD_B_MUX)
    FLD_B_NEG (field_value tokens cur FLD_B_R : Nat)
    (field_value_lt_width tokens cur FLD_B_MUX 2 rfl) (Or.inr (Or.inl rfl))
  by_cases hc0 : field_value tokens cur FLD_C_MUX = 0
  · refine ⟨fun _ => decode_token_c_fault tokens cur hcur _ ?_, fun h => absurd (Or.inl hc0) h⟩
    have := hC.1 hc0
    rw [hc0] at this ⊢
    exact this
  · obtain ⟨c, hc⟩ := hC.2 hc0
    by_cases ha0 : (mac_params (field_value tokens cur FLD_MAC)).A = true
        ∧ field_value tokens cur FLD_A_MUX = 0
    · refine ⟨fun _ => decode_token_a_fault tokens cur hcur c _ hc hmac ha0.1 ?_,
        fun h => absurd (Or.inr (Or.inl ha0)) h⟩
      have := hA.1 ha0.2
      rw [ha0.2] at this ⊢
      exact this
    · have ha : ∃ a, (mac_params (field_value tokens cur FLD_MAC)).A = true →
          decode_opcode_input tokens cur (field_value tokens cur FLD_A_MUX) FLD_A_NEG
            (field_value tokens cur FLD_A_R : Nat) = .ok a := by
        by_cases hAc : (mac_params (field_value tokens cur FLD_MAC)).A = true
        · obtain ⟨a, h⟩ := hA.2 (fun h0 => ha0 ⟨hAc, h0⟩)
          exact ⟨a, fun _ => h⟩
        · exact ⟨"", fun h => absurd h hAc⟩
      obtain ⟨a, ha⟩ := ha
      by_cases hb0 : (mac_params (field_value tokens cur FLD_MAC)).B = true
          ∧ field_value tokens cur FLD_B_MUX = 0
      · refine ⟨fun _ => decode_token_b_fault tokens cur hcur a c _ hc hmac ha hb0.1 ?_,
          fun h => absurd (Or.inr (Or.inr hb0)) h⟩
        have := hB.1 hb0.2
        rw [hb0.2] at this ⊢
        exact this
      · have hb : ∃ b, (mac_params (field_value tokens cur FLD_MAC)).B = true →
            decode_opcode_input tokens cur (field_value tokens cur FLD_B_MUX) FLD_B_NEG
              (field_value tokens cur FLD_B_R : Nat) = .ok b := by
          by_cases hBc : (mac_params (field_value tokens cur FLD_MAC)).B = true
          · obtain ⟨b, h⟩ := hB.2 (fun h0 => hb0 ⟨hBc, h0⟩)
            exact ⟨b, fun _ => h⟩
          · exact ⟨"", fun h => absurd h hBc⟩
        obtain ⟨b, hb⟩ := hb
        refine ⟨fun h => ?_, fun _ => ⟨a, b, c, hc, ha, hb,
          decode_token_text tokens cur hcur a b c hc hmac ha hb⟩⟩
        rcases h with h | h | h
        · exact absurd h hc0
        · exact absurd h ha0
        · exact absurd h hb0

/-! ## The address-register load -/

/-- The MAC emitter for the opcode text of `MAC_ARL`, any mask that is not
zero, and no co-issue suppression. -/
theorem decode_opcode_arl_eq (tokens : List Nat) (cur : Nat) (hcur : cur + 3 < tokens.length)
    (mask : Nat) (inputs : String) (hmask : mask ≠ 0)
    (hns : ¬ (field_value tokens cur FLD_ILU ≠ ILU_NOP ∧ field_value tokens cur FLD_OUT_R = 1)) :
    decode_opcode tokens cur OMUX_MAC mask "ARL A0.x" inputs
      = .ok ("  ARL(a0" ++ inputs ++ ";\n"
          ++ output_statement tokens cur OMUX_MAC "ARL A0.x" inputs) := by
  have hfv := vsh_get_field_eq_value tokens cur hcur
  have harl : table_get mac_opcode MAC_ARL = .ok "ARL A0.x" := rfl
  have hom : table_get mask_str (field_value tokens cur FLD_OUT_O_MASK)
      = .ok (mask_str.getD (field_value tokens cur FLD_OUT_O_MASK) "") :=
    table_get_getD _ _ (field_value_lt_width tokens cur FLD_OUT_O_MASK 4 rfl)
  have hname : table_get out_reg_name (field_value tokens cur FLD_OUT_ADDRESS &&& 0xF)
      = .ok (out_reg_name.getD (field_value tokens cur FLD_OUT_ADDRESS &&& 0xF) "") :=
    table_get_getD _ _ (Nat.lt_succ_of_le Nat.and_le_right)
  have hpair : decide (field_value tokens cur FLD_ILU ≠ ILU_NOP
      ∧ field_value tokens cur FLD_OUT_R = 1) = false := decide_eq_false hns
  have hpos : mask > 0 := Nat.pos_of_ne_zero hmask
  have hmux : ¬ (OMUX_MAC = OMUX_ILU) := by decide
  unfold decode_opcode
  simp only [hfv FLD_OUT_R (by decide), hfv FLD_ILU (by decide), hfv FLD_MAC (by decide),
    hfv FLD_OUT_MUX (by decide), hfv FLD_OUT_O_MASK (by decide), hfv FLD_OUT_ORB (by decide),
    hfv FLD_OUT_ADDRESS (by decide), except_bind_ok, except_pure, harl, hom, hname, if_true,
    hpair, Bool.false_eq_true, if_false, hmux, hpos]
  unfold output_statement output_dest
  by_cases h1 : field_value tokens cur FLD_OUT_MUX = OMUX_MAC
  · by_cases h2 : field_value tokens cur FLD_OUT_O_MASK = 0
    · simp only [h1, h2, if_true, except_bind_ok, ne_eq, not_true_eq_false, decide_False,
        Bool.false_eq_true, if_false, and_false, String.append_empty]
    · by_cases h3 : field_value tokens cur FLD_OUT_ORB = OUTPUT_C
      · simp only [h1, h2, h3, if_true, except_bind_ok, ne_eq, not_false_eq_true, decide_True,
          and_self, String.append_assoc]
      · simp only [h1, h2, h3, if_true, if_false, except_bind_ok, ne_eq, not_false_eq_true,
          decide_True, and_self, String.append_assoc]
  · simp only [h1, if_false, except_bind_ok, Bool.false_eq_true, false_and, String.append_empty]

theorem output_statement_congr (tokens tokens' : List Nat) (cur : Nat) (out_mux : VshOutputMux)
    (opcode inputs : String)
    (h : ∀ f ∈ [FLD_OUT_MUX, FLD_OUT_O_MASK, FLD_OUT_ORB, FLD_OUT_ADDRESS],
      field_value tokens' cur f = field_value tokens cur f) :
    output_statement tokens' cur out_mux opcode inputs
      = output_statement tokens cur out_mux opcode inputs := by
  unfold output_statement output_dest
  rw [h FLD_OUT_MUX (by decide), h FLD_OUT_O_MASK (by decide), h FLD_OUT_ORB (by decide),
    h FLD_OUT_ADDRESS (by decide)]

theorem output_statement_end (tokens : List Nat) (cur : Nat) (out_mux : VshOutputMux)
    (opcode inputs : String) :
    output_statement tokens cur out_mux opcode inputs = ""
      ∨ ∃ body, output_statement tokens cur out_mux opcode inputs = body ++ ");\n" := by
  unfold output_statement
  split_ifs
  · exact Or.inr ⟨_, rfl⟩
  · exact Or.inl rfl

theorem reg_statement_end (tokens : List Nat) (cur : Nat) (out_mux : VshOutputMux) (mask : Nat)
    (opcode inputs : String) (hop : opcode ≠ "ARL A0.x") :
    reg_statement tokens cur out_mux mask opcode inputs = ""
      ∨ ∃ body, reg_statement tokens cur out_mux mask opcode inputs = body ++ ");\n" := by
  unfold reg_statement
  rw [if_neg hop]
  split_ifs
  · exact Or.inr ⟨_, rfl⟩
  · exact Or.inl rfl

/-- C21: in a slot with no co-issue suppression of the MAC unit (not both
ILU ≠ NOP and `FLD_OUT_R = 1`), the MAC emitter called with the text of
`mac_opcode[MAC_ARL]` and a mask that is not zero emits first exactly
`"  ARL(a0" ++ operands ++ ";\n"`: the address register and no mask suffix, the
same text for every such mask and for every `FLD_OUT_R` that leaves the unit
unsuppressed, with one more "(" than the operands hold and no ")" of its own;
the statements of every other opcode, and every named-output statement, end in
`");\n"`. -/
theorem decode_opcode_arl (tokens : List Nat) (cur : Nat) (hcur : cur + 3 < tokens.length)
    (inputs : String)
    (hns : ¬ (field_value tokens cur FLD_ILU ≠ ILU_NOP ∧ field_value tokens cur FLD_OUT_R = 1)) :
    table_get mac_opcode MAC_ARL = .ok "ARL A0.x"
      ∧ (∀ mask, mask ≠ 0 →
          decode_opcode tokens cur OMUX_MAC mask "ARL A0.x" inputs
            = .ok ("  ARL(a0" ++ inputs ++ ";\n"
                ++ output_statement tokens cur OMUX_MAC "ARL A0.x" inputs))
      ∧ (∀ tokens' : List Nat, cur + 3 < tokens'.length →
          (∀ f, f < 35 → f ≠ FLD_OUT_R → field_value tokens' cur f = field_value tokens cur f) →
          ¬ (field_value tokens' cur FLD_ILU ≠ ILU_NOP ∧ field_value tokens' cur FLD_OUT_R = 1) →
          ∀ mask mask', mask ≠ 0 → mask' ≠ 0 →
            decode_opcode tokens' cur OMUX_MAC mask' "ARL A0.x" inputs
              = decode_opcode tokens cur OMUX_MAC mask "ARL A0.x" inputs)
      ∧ (("  ARL(a0" ++ inputs ++ ";\n").data.count '(' = inputs.data.count '(' + 1
          ∧ ("  ARL(a0" ++ inputs ++ ";\n").data.count ')' = inputs.data.count ')')
      ∧ (∀ (out_mux : VshOutputMux) (mask : Nat) (opcode : String), mask < 16 →
          opcode ≠ "ARL A0.x" →
          ∃ first second, decode_opcode tokens cur out_mux mask opcode inputs
              = .ok (first ++ second)
            ∧ (first = "" ∨ ∃ body, first = body ++ ");\n")
            ∧ (second = "" ∨ ∃ body, second = body ++ ");\n"))
      ∧ (output_statement tokens cur OMUX_MAC "ARL A0.x" inputs = ""
          ∨ ∃ body, output_statement tokens cur OMUX_MAC "ARL A0.x" inputs = body ++ ");\n") := by
  refine ⟨rfl, fun mask hm => decode_opcode_arl_eq tokens cur hcur mask inputs hm hns, ?_, ?_, ?_,
    output_statement_end tokens cur OMUX_MAC _ inputs⟩
  · intro tokens' hcur' hsame hns' mask mask' hm hm'
    rw [decode_opcode_arl_eq tokens cur hcur mask inputs hm hns,
      decode_opcode_arl_eq tokens' cur hcur' mask' inputs hm' hns',
      output_statement_congr tokens tokens' cur OMUX_MAC _ inputs]
    intro f hf
    simp only [List.mem_cons, List.mem_singleton, List.not_mem_nil, or_false] at hf
    rcases hf with rfl | rfl | rfl | rfl <;> exact hsame _ (by decide) (by decide)
  · constructor
    · simp only [String.data_append, List.count_append]
      have h1 : ("  ARL(a0").data.count '(' = 1 := by decide
      have h2 : (";\n").data.count '(' = 0 := by decide
      rw [h1, h2]
      omega
    · simp only [String.data_append, List.count_append]
      have h1 : ("  ARL(a0").data.count ')' = 0 := by decide
      have h2 : (";\n").data.count ')' = 0 := by decide
      rw [h1, h2]
      omega
  · intro out_mux mask opcode hm hop
    exact ⟨_, _, decode_opcode_ok tokens cur hcur out_mux mask opcode inputs hm,
      reg_statement_end tokens cur out_mux mask opcode inputs hop,
      output_statement_end tokens cur out_mux opcode inputs⟩

theorem decode_opcode_arl_witness :
    decode_opcode [0, 0x01A0001B, 0x0836106C, 0x2F500FF9] 0 OMUX_MAC 8 "ARL A0.x" ", v0"
        = .ok ("  ARL(a0" ++ ", v0" ++ ";\n"
            ++ output_statement [0, 0x01A0001B, 0x0836106C, 0x2F500FF9] 0 OMUX_MAC "ARL A0.x"
                ", v0")
      ∧ decode_token [0, 0x01A0001B, 0x0836106C, 0x28500001] 0 = .ok "  ARL(a0, v0;\n" :=
  ⟨(decode_opcode_arl [0, 0x01A0001B, 0x0836106C, 0x2F500FF9] 0 (by decide) ", v0"
      (by decide)).2.1 8 (by decide), rfl⟩

/-! ## The named-output statement -/

theorem output_statement_ne_empty (tokens : List Nat) (cur : Nat) (out_mux : VshOutputMux)
    (opcode inputs : String) :
    output_statement tokens cur out_mux opcode inputs ≠ ""
      ↔ field_value tokens cur FLD_OUT_MUX = out_mux
        ∧ field_value tokens cur FLD_OUT_O_MASK ≠ 0 := by
  unfold output_statement
  split_ifs with h
  · refine ⟨fun _ => h, fun _ he => ?_⟩
    have hd := congrArg String.data he
    simp only [String.data_append] at hd
    exact absurd hd (by simp)
  · exact ⟨fun he => absurd rfl he, fun hc => absurd hc h⟩

/-- C22: for either unit `u` and inside the token array, `decode_opcode` returns
the unit's first statement followed by the named-output statement, and the
latter is present if and only if `FLD_OUT_MUX = u` (0 = MAC, 1 = ILU) and
`FLD_OUT_O_MASK ≠ 0`; it is the same for every R-write mask, and for every slot
that agrees on the four output fields, whatever the opcode fields and
`FLD_OUT_R` of the co-issue rule hold.  The four combinations occur: the four
slots shown decode to both statements, to the R-register one alone, to the
named-output one alone, and to nothing. -/
theorem decode_opcode_named_output (tokens : List Nat) (cur : Nat)
    (hcur : cur + 3 < tokens.length) (u : VshOutputMux) (mask : Nat) (opcode inputs : String)
    (hmask : mask < 16) :
    (OMUX_MAC = 0 ∧ OMUX_ILU = 1)
      ∧ decode_opcode tokens cur u mask opcode inputs
          = .ok (reg_statement tokens cur u mask opcode inputs
              ++ output_statement tokens cur u opcode inputs)
      ∧ (output_statement tokens cur u opcode inputs ≠ ""
          ↔ field_value tokens cur FLD_OUT_MUX = u ∧ field_value tokens cur FLD_OUT_O_MASK ≠ 0)
      ∧ (∀ mask', mask' < 16 →
          ∃ first, decode_opcode tokens cur u mask' opcode inputs
            = .ok (first ++ output_statement tokens cur u opcode inputs))
      ∧ (∀ tokens' : List Nat,
          (∀ f ∈ [FLD_OUT_MUX, FLD_OUT_O_MASK, FLD_OUT_ORB, FLD_OUT_ADDRESS],
            field_value tokens' cur f = field_value tokens cur f) →
          output_statement tokens' cur u opcode inputs
            = output_statement tokens cur u opcode inputs)
      ∧ (reg_statement [0, 0x0020001B, 0x0836106C, 0x2F00F801] 0 OMUX_MAC 15 "MOV" ", v0"
            = "  MOV(R0,xyzw, v0);\n"
          ∧ output_statement [0, 0x0020001B, 0x0836106C, 0x2F00F801] 0 OMUX_MAC "MOV" ", v0"
            = "  MOV(oPos,xyzw, v0);\n"
          ∧ decode_token [0, 0x0020001B, 0x0836106C, 0x2F00F801] 0
            = .ok "  MOV(R0,xyzw, v0);\n  MOV(oPos,xyzw, v0);\n")
      ∧ (reg_statement [0, 0x0020001B, 0x0836106C, 0x2F000801] 0 OMUX_MAC 15 "MOV" ", v0"
            = "  MOV(R0,xyzw, v0);\n"
          ∧ output_statement [0, 0x0020001B, 0x0836106C, 0x2F000801] 0 OMUX_MAC "MOV" ", v0" = ""
          ∧ decode_token [0, 0x0020001B, 0x0836106C, 0x2F000801] 0
            = .ok "  MOV(R0,xyzw, v0);\n")
      ∧ (reg_statement [0, 0x0020001B, 0x0836106C, 0x2000F801] 0 OMUX_MAC 0 "MOV" ", v0" = ""
          ∧ output_statement [0, 0x0020001B, 0x0836106C, 0x2000F801] 0 OMUX_MAC "MOV" ", v0"
            = "  MOV(oPos,xyzw, v0);\n"
          ∧ decode_token [0, 0x0020001B, 0x0836106C, 0x2000F801] 0
            = .ok "  MOV(oPos,xyzw, v0);\n")
      ∧ (reg_statement [0, 0x0020001B, 0x0836106C, 0x20000801] 0 OMUX_MAC 0 "MOV" ", v0" = ""
          ∧ output_statement [0, 0x0020001B, 0x0836106C, 0x20000801] 0 OMUX_MAC "MOV" ", v0" = ""
          ∧ decode_token [0, 0x0020001B, 0x0836106C, 0x20000801] 0 = .ok "") := by
  refine ⟨⟨rfl, rfl⟩, decode_opcode_ok tokens cur hcur u mask opcode inputs hmask,
    output_statement_ne_empty tokens cur u opcode inputs,
    fun mask' hm' => ⟨_, decode_opcode_ok tokens cur hcur u mask' opcode inputs hm'⟩,
    fun tokens' h => output_statement_congr tokens tokens' cur u opcode inputs h,
    ⟨rfl, rfl, rfl⟩, ⟨rfl, rfl, rfl⟩, ⟨rfl, rfl, rfl⟩, ⟨rfl, rfl, rfl⟩⟩

theorem decode_opcode_named_output_witness :
    decode_opcode [0, 0x0420001B, 0x0836106C, 0x2F5FF805] 0 OMUX_ILU 15 "RCP" ", v0"
        = .ok (reg_statement [0, 0x0420001B, 0x0836106C, 0x2F5FF805] 0 OMUX_ILU 15 "RCP" ", v0"
            ++ output_statement [0, 0x0420001B, 0x0836106C, 0x2F5FF805] 0 OMUX_ILU "RCP" ", v0")
      ∧ output_statement [0, 0x0420001B, 0x0836106C, 0x2F5FF805] 0 OMUX_ILU "RCP" ", v0"
        = "  RCP(oPos,xyzw, v0);\n" :=
  ⟨(decode_opcode_named_output [0, 0x0420001B, 0x0836106C, 0x2F5FF805] 0 (by decide) OMUX_ILU 15
      "RCP" ", v0" (by decide)).2.1, rfl⟩

/-- C23: whenever the named-output statement of a unit is emitted
(`FLD_OUT_MUX` names the unit and `FLD_OUT_O_MASK ≠ 0`) it is exactly
`"  " ++ opcode ++ "(" ++ dest ++ mask_str[FLD_OUT_O_MASK] ++ operands ++ ");\n"`,
after the unit's first statement, where `dest` is "c" and the decimal
`convert_c_register FLD_OUT_ADDRESS` when `FLD_OUT_ORB` is 0 (the constant bank)
and `out_reg_name[FLD_OUT_ADDRESS & 0xF]` otherwise; the index is the address
modulo 16 and the names are as listed. -/
theorem decode_opcode_output_statement (tokens : List Nat) (cur : Nat)
    (hcur : cur + 3 < tokens.length) (u : VshOutputMux) (mask : Nat) (opcode inputs : String)
    (hmask : mask < 16) (hmux : field_value tokens cur FLD_OUT_MUX = u)
    (hom : field_value tokens cur FLD_OUT_O_MASK ≠ 0) :
    (∃ dest lanes,
        table_get mask_str (field_value tokens cur FLD_OUT_O_MASK) = .ok lanes
          ∧ (field_value tokens cur FLD_OUT_ORB = 0 →
              dest = "c" ++ toString (convert_c_register (field_value tokens cur FLD_OUT_ADDRESS)))
          ∧ (field_value tokens cur FLD_OUT_ORB ≠ 0 →
              table_get out_reg_name (field_value tokens cur FLD_OUT_ADDRESS &&& 0xF) = .ok dest)
          ∧ decode_opcode tokens cur u mask opcode inputs
              = .ok (reg_statement tokens cur u mask opcode inputs
                  ++ ("  " ++ opcode ++ "(" ++ dest ++ lanes ++ inputs ++ ");\n")))
      ∧ OUTPUT_C = 0
      ∧ field_value tokens cur FLD_OUT_ADDRESS &&& 0xF
          = field_value tokens cur FLD_OUT_ADDRESS % 16
      ∧ out_reg_name = ["oPos", "???", "???", "oD0", "oD1", "oFog", "oPts", "oB0", "oB1",
          "oT0", "oT1", "oT2", "oT3", "???", "???", "A0.x"] := by
  have hlanes : table_get mask_str (field_value tokens cur FLD_OUT_O_MASK)
      = .ok (mask_str.getD (field_value tokens cur FLD_OUT_O_MASK) "") :=
    table_get_getD _ _ (field_value_lt_width tokens cur FLD_OUT_O_MASK 4 rfl)
  have hname : table_get out_reg_name (field_value tokens cur FLD_OUT_ADDRESS &&& 0xF)
      = .ok (out_reg_name.getD (field_value tokens cur FLD_OUT_ADDRESS &&& 0xF) "") :=
    table_get_getD _ _ (Nat.lt_succ_of_le Nat.and_le_right)
  have hdec := decode_opcode_ok tokens cur hcur u mask opcode inputs hmask
  have hout : output_statement tokens cur u opcode inputs
      = "  " ++ opcode ++ "(" ++ output_dest tokens cur
        ++ mask_str.getD (field_value tokens cur FLD_OUT_O_MASK) "" ++ inputs ++ ");\n" := by
    unfold output_statement
    rw [if_pos ⟨hmux, hom⟩]
  refine ⟨⟨output_dest tokens cur, _, hlanes, ?_, ?_, ?_⟩, rfl,
    Nat.and_pow_two_sub_one_eq_mod _ 4, rfl⟩
  · intro h0
    have h0' : field_value tokens cur FLD_OUT_ORB = OUTPUT_C := h0
    unfold output_dest
    rw [if_pos h0']
  · intro h0
    have h0' : ¬ field_value tokens cur FLD_OUT_ORB = OUTPUT_C := h0
    unfold output_dest
    rw [if_neg h0']
    exact hname
  · rw [hdec, hout]

theorem decode_opcode_output_statement_witness :
    ∃ dest lanes,
        table_get mask_str (field_value [0, 0x0020001B, 0x0836106C, 0x2F00F819] 0 FLD_OUT_O_MASK)
            = .ok lanes
          ∧ (field_value [0, 0x0020001B, 0x0836106C, 0x2F00F819] 0 FLD_OUT_ORB = 0 →
              dest = "c" ++ toString (convert_c_register
                (field_value [0, 0x0020001B, 0x0836106C, 0x2F00F819] 0 FLD_OUT_ADDRESS)))
          ∧ (field_value [0, 0x0020001B, 0x0836106C, 0x2F00F819] 0 FLD_OUT_ORB ≠ 0 →
              table_get out_reg_name
                (field_value [0, 0x0020001B, 0x0836106C, 0x2F00F819] 0 FLD_OUT_ADDRESS &&& 0xF)
                = .ok dest)
          ∧ decode_opcode [0, 0x0020001B, 0x0836106C, 0x2F00F819] 0 OMUX_MAC 15 "MOV" ", v0"
              = .ok (reg_statement [0, 0x0020001B, 0x0836106C, 0x2F00F819] 0 OMUX_MAC 15 "MOV"
                    ", v0"
                  ++ ("  " ++ "MOV" ++ "(" ++ dest ++ lanes ++ ", v0" ++ ");\n")) :=
  (decode_opcode_output_statement [0, 0x0020001B, 0x0836106C, 0x2F00F819] 0 (by decide) OMUX_MAC
    15 "MOV" ", v0" (by decide) rfl (by decide)).1

/-! ## The two units of a slot -/

theorem vsh_get_field_in_bounds (tokens : List Nat) (cur f v : Nat) (m : VshFieldMapping)
    (hm : field_mapping[f]? = some m) (h : vsh_get_field tokens cur f = .ok v) :
    cur + m.subtoken < tokens.length := by
  by_contra hlt
  have hw : tokens[cur + m.subtoken]? = none := List.getElem?_eq_none (Nat.le_of_not_lt hlt)
  have : vsh_get_field tokens cur f = .error (.token_out_of_bounds (cur + m.subtoken)) := by
    simp [vsh_get_field, table_get, hm, vsh_get_from_token, load_token, hw]
  rw [this] at h
  cases h

theorem decode_token_ok_in_bounds (tokens : List Nat) (cur : Nat) (text : String)
    (h : decode_token tokens cur = .ok text) : cur + 3 < tokens.length := by
  unfold decode_token at h
  rw [except_bind_eq_ok] at h
  obtain ⟨v, hv, -⟩ := h
  exact vsh_get_field_in_bounds tokens cur FLD_C_MUX v ⟨FLD_C_MUX, 3, 28, 2⟩ rfl hv

theorem mac_text_nop (tokens : List Nat) (cur : Nat) (a b c : String)
    (h : field_value tokens cur FLD_MAC = MAC_NOP) : mac_text tokens cur a b c = "" := by
  unfold mac_text
  rw [if_pos h]

theorem ilu_text_nop (tokens : List Nat) (cur : Nat) (c : String)
    (h : field_value tokens cur FLD_ILU = ILU_NOP) : ilu_text tokens cur c = "" := by
  unfold ilu_text
  rw [if_pos h]

theorem mac_text_eq_decode (tokens : List Nat) (cur : Nat) (hcur : cur + 3 < tokens.length)
    (a b c : String) (h : field_value tokens cur FLD_MAC ≠ MAC_NOP) :
    decode_opcode tokens cur OMUX_MAC (field_value tokens cur FLD_OUT_MAC_MASK)
        (mac_opcode.getD (field_value tokens cur FLD_MAC) "")
        (mac_inputs (mac_params (field_value tokens cur FLD_MAC)) a b c)
      = .ok (mac_text tokens cur a b c) := by
  rw [decode_opcode_ok tokens cur hcur OMUX_MAC _ _ _
    (field_value_lt_width tokens cur FLD_OUT_MAC_MASK 4 rfl)]
  unfold mac_text
  rw [if_neg h]

theorem ilu_text_eq_decode (tokens : List Nat) (cur : Nat) (hcur : cur + 3 < tokens.length)
    (c : String) (h : field_value tokens cur FLD_ILU ≠ ILU_NOP) :
    decode_opcode tokens cur OMUX_ILU (field_value tokens cur FLD_OUT_ILU_MASK)
        (ilu_opcode.getD (field_value tokens cur FLD_ILU) "") (", " ++ c)
      = .ok (ilu_text tokens cur c) := by
  rw [decode_opcode_ok tokens cur hcur OMUX_ILU _ _ _
    (field_value_lt_width tokens cur FLD_OUT_ILU_MASK 4 rfl)]
  unfold ilu_text
  rw [if_neg h]

theorem mac_params_entries (m : Nat) (h1 : 1 ≤ m) (h13 : m ≤ 13) :
    (mac_params m).A = true
      ∧ (m = MAC_MOV ∨ m = MAC_ARL → mac_params m = ⟨true, false, false⟩)
      ∧ (m = MAC_ADD → mac_params m = ⟨true, false, true⟩)
      ∧ (m = MAC_MAD → mac_params m = ⟨true, true, true⟩)
      ∧ (m ≠ MAC_MOV → m ≠ MAC_ARL → m ≠ MAC_ADD → m ≠ MAC_MAD →
          mac_params m = ⟨true, true, false⟩) := by
  interval_cases m <;> decide

/-- A slot that decodes without fault lies inside the token array, has a MAC
opcode of at most 13, and its text is that of the two units for the operand
texts that were decoded. -/
theorem decode_token_ok_text (tokens : List Nat) (cur : Nat) (text : String)
    (h : decode_token tokens cur = .ok text) :
    cur + 3 < tokens.length ∧ field_value tokens cur FLD_MAC ≤ 13
      ∧ ∃ a b c,
          decode_opcode_input tokens cur (field_value tokens cur FLD_C_MUX) FLD_C_NEG
              (c_reg_index tokens cur : Nat) = .ok c
            ∧ ((mac_params (field_value tokens cur FLD_MAC)).A = true →
                decode_opcode_input tokens cur (field_value tokens cur FLD_A_MUX) FLD_A_NEG
                  (field_value tokens cur FLD_A_R : Nat) = .ok a)
            ∧ ((mac_params (field_value tokens cur FLD_MAC)).B = true →
                decode_opcode_input tokens cur (field_value tokens cur FLD_B_MUX) FLD_B_NEG
                  (field_value tokens cur FLD_B_R : Nat) = .ok b)
            ∧ text = mac_text tokens cur a b c ++ ilu_text tokens cur c := by
  have hcur := decode_token_ok_in_bounds tokens cur text h
  have hmac : field_value tokens cur FLD_MAC ≤ 13 := by
    by_contra hgt
    cases hC : decode_opcode_input tokens cur (field_value tokens cur FLD_C_MUX) FLD_C_NEG
        (c_reg_index tokens cur : Nat) with
    | error e =>
      rw [decode_token_c_fault tokens cur hcur e hC] at h
      cases h
    | ok c =>
      rw [decode_token_mac_table tokens cur hcur c hC (Nat.lt_of_not_le hgt)] at h
      cases h
  refine ⟨hcur, hmac, ?_⟩
  have hout := decode_token_outcome tokens cur hcur hmac
  by_cases hbad : field_value tokens cur FLD_C_MUX = 0
      ∨ ((mac_params (field_value tokens cur FLD_MAC)).A = true
          ∧ field_value tokens cur FLD_A_MUX = 0)
      ∨ ((mac_params (field_value tokens cur FLD_MAC)).B = true
          ∧ field_value tokens cur FLD_B_MUX = 0)
  · rw [hout.1 hbad] at h
    cases h
  · obtain ⟨a, b, c, hc, ha, hb, ht⟩ := hout.2 hbad
    rw [ht] at h
    exact ⟨a, b, c, hc, ha, hb, (Except.ok.inj h).symm⟩

/-- C24: for a slot inside the token array whose MAC opcode `m` is in 1..13 and
whose operand C and consumed operands A and B decode to the texts `c`, `a`,
`b`, `decode_token` calls the MAC emitter with the mask `FLD_OUT_MAC_MASK`, the
name `mac_opcode[m]` and the operand list that holds ", " and the operand text
for exactly the operands that `mac_opcode_params[m]` marks, in the order A, B,
C; its text is what that call returns, followed by the text of the ILU unit.
MOV and ARL consume A; ADD consumes A and C; MAD consumes A, B and C; every
other opcode consumes A and B. -/
theorem decode_token_mac_inputs (tokens : List Nat) (cur : Nat) (hcur : cur + 3 < tokens.length)
    (a b c : String)
    (h1 : 1 ≤ field_value tokens cur FLD_MAC) (h13 : field_value tokens cur FLD_MAC ≤ 13)
    (hc : decode_opcode_input tokens cur (field_value tokens cur FLD_C_MUX) FLD_C_NEG
      (c_reg_index tokens cur : Nat) = .ok c)
    (ha : decode_opcode_input tokens cur (field_value tokens cur FLD_A_MUX) FLD_A_NEG
      (field_value tokens cur FLD_A_R : Nat) = .ok a)
    (hb : (mac_params (field_value tokens cur FLD_MAC)).B = true →
      decode_opcode_input tokens cur (field_value tokens cur FLD_B_MUX) FLD_B_NEG
        (field_value tokens cur FLD_B_R : Nat) = .ok b) :
    ∃ params opcode mac_out,
      table_get mac_opcode_params (field_value tokens cur FLD_MAC) = .ok params
        ∧ table_get mac_opcode (field_value tokens cur FLD_MAC) = .ok opcode
        ∧ decode_opcode tokens cur OMUX_MAC (field_value tokens cur FLD_OUT_MAC_MASK) opcode
            ((if params.A then ", " ++ a else "") ++ (if params.B then ", " ++ b else "")
              ++ (if params.C then ", " ++ c else "")) = .ok mac_out
        ∧ decode_token tokens cur = .ok (mac_out ++ ilu_text tokens cur c)
        ∧ (field_value tokens cur FLD_MAC = MAC_MOV ∨ field_value tokens cur FLD_MAC = MAC_ARL →
            params = ⟨true, false, false⟩)
        ∧ (field_value tokens cur FLD_MAC = MAC_ADD → params = ⟨true, false, true⟩)
        ∧ (field_value tokens cur FLD_MAC = MAC_MAD → params = ⟨true, true, true⟩)
        ∧ (field_value tokens cur FLD_MAC ≠ MAC_MOV → field_value tokens cur FLD_MAC ≠ MAC_ARL →
            field_value tokens cur FLD_MAC ≠ MAC_ADD → field_value tokens cur FLD_MAC ≠ MAC_MAD →
            params = ⟨true, true, false⟩) := by
  have hne : field_value tokens cur FLD_MAC ≠ MAC_NOP := by
    intro h
    rw [h] at h1
    exact absurd h1 (by decide)
  have hent := mac_params_entries (field_value tokens cur FLD_MAC) h1 h13
  exact ⟨mac_params (field_value tokens cur FLD_MAC),
    mac_opcode.getD (field_value tokens cur FLD_MAC) "", mac_text tokens cur a b c,
    mac_params_lookup _ h13, table_get_getD_of_lt mac_opcode _ "" (Nat.lt_succ_of_le h13),
    mac_text_eq_decode tokens cur hcur a b c hne,
    decode_token_text tokens cur hcur a b c hc h13 (fun _ => ha) hb,
    hent.2.1, hent.2.2.1, hent.2.2.2.1, hent.2.2.2.2⟩

theorem decode_token_mac_inputs_witness :
    ∃ params opcode mac_out,
      table_get mac_opcode_params (field_value [0, 0x0060001B, 0x0836106C, 0x2F000FF9] 0 FLD_MAC)
          = .ok params
        ∧ table_get mac_opcode (field_value [0, 0x0060001B, 0x0836106C, 0x2F000FF9] 0 FLD_MAC)
          = .ok opcode
        ∧ decode_opcode [0, 0x0060001B, 0x0836106C, 0x2F000FF9] 0 OMUX_MAC
            (field_value [0, 0x0060001B, 0x0836106C, 0x2F000FF9] 0 FLD_OUT_MAC_MASK) opcode
            ((if params.A then ", " ++ "v0" else "") ++ (if params.B then ", " ++ "R1" else "")
              ++ (if params.C then ", " ++ "v0" else "")) = .ok mac_out
        ∧ decode_token [0, 0x0060001B, 0x0836106C, 0x2F000FF9] 0
          = .ok (mac_out ++ ilu_text [0, 0x0060001B, 0x0836106C, 0x2F000FF9] 0 "v0")
        ∧ params = ⟨true, false, true⟩
        ∧ decode_token [0, 0x0060001B, 0x0836106C, 0x2F000FF9] 0
          = .ok "  ADD(R0,xyzw, v0, v0);\n" := by
  obtain ⟨params, opcode, mac_out, h1, h2, h3, h4, -, h5, -⟩ :=
    decode_token_mac_inputs [0, 0x0060001B, 0x0836106C, 0x2F000FF9] 0 (by decide) "v0" "R1" "v0"
      (by decide) (by decide) rfl rfl (fun h => absurd h (by decide))
  exact ⟨params, opcode, mac_out, h1, h2, h3, h4, h5 rfl, rfl⟩

/-- C25: a slot that decodes without fault lies inside the token array, and its
text is the MAC text followed by the ILU text.  The MAC text is empty for the
MAC opcode NOP and otherwise what the MAC emitter returns; the ILU text is empty
for the ILU opcode NOP and otherwise
`decode_opcode(slot, ILU, FLD_OUT_ILU_MASK, ilu_opcode[ILU], ", " ++ operand C)`,
so the ILU operand list holds operand C only. -/
theorem decode_token_mac_then_ilu (tokens : List Nat) (cur : Nat) (text : String)
    (h : decode_token tokens cur = .ok text) :
    cur + 3 < tokens.length
      ∧ ∃ c mac_out ilu_out,
          decode_opcode_input tokens cur (field_value tokens cur FLD_C_MUX) FLD_C_NEG
              (((field_value tokens cur FLD_C_R_HIGH <<< 2)
                ||| field_value tokens cur FLD_C_R_LOW : Nat) : Int) = .ok c
            ∧ text = mac_out ++ ilu_out
            ∧ (field_value tokens cur FLD_MAC = MAC_NOP → mac_out = "")
            ∧ (field_value tokens cur FLD_MAC ≠ MAC_NOP →
                ∃ opcode inputs,
                  table_get mac_opcode (field_value tokens cur FLD_MAC) = .ok opcode
                    ∧ decode_opcode tokens cur OMUX_MAC
                        (field_value tokens cur FLD_OUT_MAC_MASK) opcode inputs = .ok mac_out)
            ∧ (field_value tokens cur FLD_ILU = ILU_NOP → ilu_out = "")
            ∧ (field_value tokens cur FLD_ILU ≠ ILU_NOP →
                ∃ opcode,
                  table_get ilu_opcode (field_value tokens cur FLD_ILU) = .ok opcode
                    ∧ decode_opcode tokens cur OMUX_ILU
                        (field_value tokens cur FLD_OUT_ILU_MASK) opcode (", " ++ c)
                      = .ok ilu_out) := by
  obtain ⟨hcur, hmac, a, b, c, hc, -, -, ht⟩ := decode_token_ok_text tokens cur text h
  refine ⟨hcur, c, mac_text tokens cur a b c, ilu_text tokens cur c, hc, ht,
    mac_text_nop tokens cur a b c, fun hne => ?_, ilu_text_nop tokens cur c, fun hne => ?_⟩
  · exact ⟨_, _, table_get_getD_of_lt mac_opcode _ "" (Nat.lt_succ_of_le hmac),
      mac_text_eq_decode tokens cur hcur a b c hne⟩
  · exact ⟨_, table_get_getD_of_lt ilu_opcode _ ""
        (field_value_lt_width tokens cur FLD_ILU 3 rfl),
      ilu_text_eq_decode tokens cur hcur c hne⟩

theorem decode_token_mac_then_ilu_witness :
    decode_token [0, 0x0420001B, 0x0836106C, 0x2F5F0001] 0
        = .ok "  MOV(R5,xyzw, v0);\n  RCP(R1,xyzw, v0.x);\n"
      ∧ ∃ c mac_out ilu_out,
          decode_opcode_input [0, 0x0420001B, 0x0836106C, 0x2F5F0001] 0
              (field_value [0, 0x0420001B, 0x0836106C, 0x2F5F0001] 0 FLD_C_MUX) FLD_C_NEG
              (((field_value [0, 0x0420001B, 0x0836106C, 0x2F5F0001] 0 FLD_C_R_HIGH <<< 2)
                ||| field_value [0, 0x0420001B, 0x0836106C, 0x2F5F0001] 0 FLD_C_R_LOW : Nat)
                  : Int) = .ok c
            ∧ "  MOV(R5,xyzw, v0);\n  RCP(R1,xyzw, v0.x);\n" = mac_out ++ ilu_out
            ∧ ∃ opcode,
                table_get ilu_opcode
                    (field_value [0, 0x0420001B, 0x0836106C, 0x2F5F0001] 0 FLD_ILU) = .ok opcode
                  ∧ decode_opcode [0, 0x0420001B, 0x0836106C, 0x2F5F0001] 0 OMUX_ILU
                      (field_value [0, 0x0420001B, 0x0836106C, 0x2F5F0001] 0 FLD_OUT_ILU_MASK)
                      opcode (", " ++ c) = .ok ilu_out := by
  obtain ⟨-, c, mac_out, ilu_out, hc, ht, -, -, -, hilu⟩ :=
    decode_token_mac_then_ilu [0, 0x0420001B, 0x0836106C, 0x2F5F0001] 0
      "  MOV(R5,xyzw, v0);\n  RCP(R1,xyzw, v0.x);\n" rfl
  exact ⟨rfl, c, mac_out, ilu_out, hc, ht, hilu (by decide)⟩

/-! ## Faults of a slot -/

/-- C26: inside the token array `decode_token` decodes operand C first, with the
register index `(FLD_C_R_HIGH << 2) | FLD_C_R_LOW`: a fault of that decoding is
the fault of the slot whatever the opcodes are; in particular `FLD_C_MUX = 0`
fails the operand-class assertion.  When the MAC opcode is at most 13 the slot
faults if and only if `FLD_C_MUX = 0`, or the MAC opcode consumes A and
`FLD_A_MUX = 0`, or it consumes B and `FLD_B_MUX = 0`. -/
theorem decode_token_fault_iff (tokens : List Nat) (cur : Nat) (hcur : cur + 3 < tokens.length) :
    (∀ e, decode_opcode_input tokens cur (field_value tokens cur FLD_C_MUX) FLD_C_NEG
          (((field_value tokens cur FLD_C_R_HIGH <<< 2)
            ||| field_value tokens cur FLD_C_R_LOW : Nat) : Int) = .error e →
        decode_token tokens cur = .error e)
      ∧ (field_value tokens cur FLD_C_MUX = 0 →
          decode_token tokens cur = .error (.assert_param PARAM_UNKNOWN))
      ∧ (field_value tokens cur FLD_MAC ≤ 13 →
          ∃ params, table_get mac_opcode_params (field_value tokens cur FLD_MAC) = .ok params
            ∧ ((∃ e, decode_token tokens cur = .error e)
                ↔ field_value tokens cur FLD_C_MUX = 0
                  ∨ (params.A = true ∧ field_value tokens cur FLD_A_MUX = 0)
                  ∨ (params.B = true ∧ field_value tokens cur FLD_B_MUX = 0))) := by
  refine ⟨fun e he => decode_token_c_fault tokens cur hcur e he, fun h0 => ?_, fun hmac => ?_⟩
  · refine decode_token_c_fault tokens cur hcur _ ?_
    have := (decode_opcode_input_outcome tokens cur hcur (field_value tokens cur FLD_C_MUX)
      FLD_C_NEG (c_reg_index tokens cur : Nat)
      (field_value_lt_width tokens cur FLD_C_MUX 2 rfl) (Or.inr (Or.inr rfl))).1 h0
    rw [h0] at this ⊢
    exact this
  · have hout := decode_token_outcome tokens cur hcur hmac
    refine ⟨mac_params (field_value tokens cur FLD_MAC), mac_params_lookup _ hmac, ?_, ?_⟩
    · rintro ⟨e, he⟩
      by_contra hbad
      obtain ⟨a, b, c, -, -, -, ht⟩ := hout.2 hbad
      rw [ht] at he
      cases he
    · intro hbad
      exact ⟨_, hout.1 hbad⟩

theorem decode_token_fault_iff_witness :
    decode_token [0, 0, 0, 0] 0 = .error (.assert_param PARAM_UNKNOWN)
      ∧ decode_token [0, 0x0020001B, 0x0836106C, 0x0F000FF9] 0
          = .error (.assert_param PARAM_UNKNOWN)
      ∧ decode_token [0, 0x01E0001B, 0x0836106C, 0x0F000FF9] 0
          = .error (.assert_param PARAM_UNKNOWN) :=
  ⟨(decode_token_fault_iff [0, 0, 0, 0] 0 (by decide)).2.1 rfl,
    (decode_token_fault_iff [0, 0x0020001B, 0x0836106C, 0x0F000FF9] 0 (by decide)).2.1 rfl,
    (decode_token_fault_iff [0, 0x01E0001B, 0x0836106C, 0x0F000FF9] 0 (by decide)).2.1 rfl⟩

/-- C27 (as stated, refuted): the slot with MAC field 14 and `FLD_C_MUX = 0`
stops at the operand-class assertion, before `mac_opcode_params` is indexed: no
table lookup is out of bounds although the MAC field is above 13. -/
theorem decode_token_mac_14_assert :
    field_value [0, 0x01C00000, 0, 0] 0 FLD_MAC = 14
      ∧ field_value [0, 0x01C00000, 0, 0] 0 FLD_C_MUX = 0
      ∧ decode_token [0, 0x01C00000, 0, 0] 0 = .error (.assert_param 0)
      ∧ ¬ ((∀ i, decode_token [0, 0x01C00000, 0, 0] 0 ≠ .error (.table_out_of_bounds i))
          ↔ field_value [0, 0x01C00000, 0, 0] 0 FLD_MAC ≤ 13) := by
  have h : decode_token [0, 0x01C00000, 0, 0] 0 = .error (.assert_param 0) := rfl
  refine ⟨rfl, rfl, h, fun hiff => ?_⟩
  have hle := hiff.mp (fun i hi => by
    rw [h] at hi
    cases hi)
  exact absurd hle (by decide)

/-- C27 (amended): for a slot inside the token array, no table lookup is out of
bounds when the 4-bit MAC field is at most 13; when it is 14 or 15 and operand C
has a valid class, `mac_opcode_params` (14 entries, as `mac_opcode`) is indexed
past its end; when it is 14 or 15 and `FLD_C_MUX = 0` the operand-class
assertion stops the decoding first.  So for `FLD_C_MUX ≠ 0` every lookup is in
bounds if and only if the MAC field is at most 13.  The ILU opcode (3 bits, 8
entries), the masks (4 bits, 16 entries), the output name (address & 0xF, 16
entries) and the swizzle letters (2 bits, 4 letters) are always in range. -/
theorem decode_token_table_lookups (tokens : List Nat) (cur : Nat)
    (hcur : cur + 3 < tokens.length) :
    (field_value tokens cur FLD_MAC ≤ 13 →
        ∀ i, decode_token tokens cur ≠ .error (.table_out_of_bounds i))
      ∧ (13 < field_value tokens cur FLD_MAC → field_value tokens cur FLD_C_MUX ≠ 0 →
          decode_token tokens cur = .error (.table_out_of_bounds (field_value tokens cur FLD_MAC))
            ∧ mac_opcode_params.length ≤ field_value tokens cur FLD_MAC
            ∧ mac_opcode.length ≤ field_value tokens cur FLD_MAC)
      ∧ (13 < field_value tokens cur FLD_MAC → field_value tokens cur FLD_C_MUX = 0 →
          decode_token tokens cur = .error (.assert_param 0))
      ∧ (field_value tokens cur FLD_C_MUX ≠ 0 →
          ((∀ i, decode_token tokens cur ≠ .error (.table_out_of_bounds i))
            ↔ field_value tokens cur FLD_MAC ≤ 13))
      ∧ (field_value tokens cur FLD_MAC < 16
          ∧ mac_opcode_params.length = 14 ∧ mac_opcode.length = 14)
      ∧ (field_value tokens cur FLD_ILU < ilu_opcode.length
          ∧ field_value tokens cur FLD_ILU < ilu_opcode_params.length
          ∧ field_value tokens cur FLD_ILU < ilu_force_scalar.length)
      ∧ (field_value tokens cur FLD_OUT_MAC_MASK < mask_str.length
          ∧ field_value tokens cur FLD_OUT_ILU_MASK < mask_str.length
          ∧ field_value tokens cur FLD_OUT_O_MASK < mask_str.length)
      ∧ field_value tokens cur FLD_OUT_ADDRESS &&& 0xF < out_reg_name.length
      ∧ (∀ f ∈ [FLD_A_SWZ_X, FLD_A_SWZ_Y, FLD_A_SWZ_Z, FLD_A_SWZ_W, FLD_B_SWZ_X, FLD_B_SWZ_Y,
            FLD_B_SWZ_Z, FLD_B_SWZ_W, FLD_C_SWZ_X, FLD_C_SWZ_Y, FLD_C_SWZ_Z, FLD_C_SWZ_W],
          field_value tokens cur f < swizzle_str.length) := by
  have hcout := decode_opcode_input_outcome tokens cur hcur (field_value tokens cur FLD_C_MUX)
    FLD_C_NEG (c_reg_index tokens cur : Nat) (field_value_lt_width tokens cur FLD_C_MUX 2 rfl)
    (Or.inr (Or.inr rfl))
  have hle : field_value tokens cur FLD_MAC ≤ 13 →
      ∀ i, decode_token tokens cur ≠ .error (.table_out_of_bounds i) := by
    intro hmac i hi
    have hout := decode_token_outcome tokens cur hcur hmac
    by_cases hbad : field_value tokens cur FLD_C_MUX = 0
        ∨ ((mac_params (field_value tokens cur FLD_MAC)).A = true
            ∧ field_value tokens cur FLD_A_MUX = 0)
        ∨ ((mac_params (field_value tokens cur FLD_MAC)).B = true
            ∧ field_value tokens cur FLD_B_MUX = 0)
    · rw [hout.1 hbad] at hi
      cases hi
    · obtain ⟨a, b, c, -, -, -, ht⟩ := hout.2 hbad
      rw [ht] at hi
      cases hi
  have hgt : 13 < field_value tokens cur FLD_MAC → field_value tokens cur FLD_C_MUX ≠ 0 →
      decode_token tokens cur
        = .error (.table_out_of_bounds (field_value tokens cur FLD_MAC)) := by
    intro hmac hc0
    obtain ⟨c, hc⟩ := hcout.2 hc0
    exact decode_token_mac_table tokens cur hcur c hc hmac
  refine ⟨hle, fun hmac hc0 => ⟨hgt hmac hc0, hmac, hmac⟩, fun _ hc0 => ?_, fun hc0 => ⟨?_, hle⟩,
    ⟨field_value_lt_width tokens cur FLD_MAC 4 rfl, rfl, rfl⟩,
    ⟨field_value_lt_width tokens cur FLD_ILU 3 rfl, field_value_lt_width tokens cur FLD_ILU 3 rfl,
      field_value_lt_width tokens cur FLD_ILU 3 rfl⟩,
    ⟨field_value_lt_width tokens cur FLD_OUT_MAC_MASK 4 rfl,
      field_value_lt_width tokens cur FLD_OUT_ILU_MASK 4 rfl,
      field_value_lt_width tokens cur FLD_OUT_O_MASK 4 rfl⟩,
    Nat.lt_succ_of_le Nat.and_le_right, ?_⟩
  · refine decode_token_c_fault tokens cur hcur _ ?_
    have := hcout.1 hc0
    rw [hc0] at this ⊢
    exact this
  · intro hall
    by_contra hgt'
    exact hall _ (hgt (Nat.lt_of_not_le hgt') hc0)
  · intro f hf
    simp only [List.mem_cons, List.mem_singleton, List.not_mem_nil, or_false] at hf
    rcases hf with rfl | rfl | rfl | rfl | rfl | rfl | rfl | rfl | rfl | rfl | rfl | rfl
    all_goals exact field_value_lt_width tokens cur _ 2 rfl

theorem decode_token_table_lookups_witness :
    decode_token [0, 0x01C0001B, 0x0836106C, 0x2F000FF9] 0 = .error (.table_out_of_bounds 14)
      ∧ ∀ i, decode_token [0, 0x01A0001B, 0x0836106C, 0x2F000FF9] 0
          ≠ .error (.table_out_of_bounds i) :=
  ⟨((decode_token_table_lookups [0, 0x01C0001B, 0x0836106C, 0x2F000FF9] 0 (by decide)).2.1
      (by decide) (by decide)).1,
    (decode_token_table_lookups [0, 0x01A0001B, 0x0836106C, 0x2F000FF9] 0 (by decide)).1
      (by decide)⟩

/-! ## The characters of operand texts and the lines of a slot -/

theorem written_in_append (alphabet : List Char) (a b : String) :
    written_in alphabet (a ++ b) ↔ written_in alphabet a ∧ written_in alphabet b := by
  simp only [written_in, String.data_append, List.mem_append]
  exact ⟨fun h => ⟨fun ch hc => h ch (Or.inl hc), fun ch hc => h ch (Or.inr hc)⟩,
    fun h ch hc => hc.elim (h.1 ch) (h.2 ch)⟩

theorem digitChar_operand_chars (d : Nat) (h : d < 10) : Nat.digitChar d ∈ operand_chars := by
  interval_cases d <;> decide

theorem toDigitsCore_operand_chars :
    ∀ (fuel n : Nat) (ds : List Char), (∀ ch ∈ ds, ch ∈ operand_chars) →
      ∀ ch ∈ Nat.toDigitsCore 10 fuel n ds, ch ∈ operand_chars := by
  intro fuel
  induction fuel with
  | zero => intro n ds h; simpa [Nat.toDigitsCore] using h
  | succ fuel ih =>
    intro n ds h
    have hd : ∀ ch ∈ Nat.digitChar (n % 10) :: ds, ch ∈ operand_chars := by
      intro ch hch
      rcases List.mem_cons.mp hch with rfl | hch
      · exact digitChar_operand_chars (n % 10) (Nat.mod_lt _ (by decide))
      · exact h ch hch
    simp only [Nat.toDigitsCore]
    split
    · exact hd
    · exact ih _ _ hd

theorem written_in_nat (n : Nat) : written_in operand_chars (toString n) := by
  show ∀ ch ∈ Nat.toDigits 10 n, ch ∈ operand_chars
  exact toDigitsCore_operand_chars _ _ _ (fun ch hch => absurd hch (List.not_mem_nil _))

theorem written_in_int (i : Int) : written_in operand_chars (toString i) := by
  cases i with
  | ofNat n => exact written_in_nat n
  | negSucc n =>
    show written_in operand_chars ("-" ++ toString (n + 1))
    exact (written_in_append _ _ _).mpr ⟨by decide, written_in_nat _⟩

theorem swizzle_char_operand_chars (x : Nat) (c : Char) (h : table_get swizzle_str x = .ok c) :
    c ∈ operand_chars := by
  have hm := table_get_mem _ _ _ h
  simp only [swizzle_str, List.mem_cons, List.mem_singleton, List.not_mem_nil, or_false] at hm
  rcases hm with rfl | rfl | rfl | rfl <;> decide

theorem decode_swizzle_written_in (tokens : List Nat) (cur f : Nat) :
    results_in (written_in operand_chars) (decode_swizzle tokens cur f) := by
  simp only [decode_swizzle, results_in_bind, results_in_ite, results_in_ok, except_pure]
  intro force _ a _
  have hc := swizzle_char_operand_chars
  have hdot : '.' ∈ operand_chars := by decide
  refine ⟨fun _ => by decide, fun _ => ⟨fun _ c h => ?_, fun _ c1 h1 c2 h2 c3 h3 c4 h4 => ?_⟩⟩
  · intro ch hch
    simp only [List.mem_cons, List.mem_singleton, List.not_mem_nil, or_false] at hch
    rcases hch with rfl | rfl
    · exact hdot
    · exact hc _ _ h
  · intro ch hch
    simp only [List.mem_cons, List.mem_singleton, List.not_mem_nil, or_false] at hch
    rcases hch with rfl | rfl | rfl | rfl | rfl
    · exact hdot
    · exact hc _ _ h1
    · exact hc _ _ h2
    · exact hc _ _ h3
    · exact hc _ _ h4

theorem decode_opcode_input_written_in (tokens : List Nat) (cur p f : Nat) (r : Int) :
    results_in (written_in operand_chars) (decode_opcode_input tokens cur p f r) := by
  have hs := decode_swizzle_written_in tokens cur (f + 1)
  simp only [decode_opcode_input, results_in_bind, results_in_ite, results_in_ok, except_pure,
    results_in_error, except_throw]
  intro neg _ tmp htmp sw hsw
  have hsw' : written_in operand_chars sw := hs sw hsw
  have htmp' : written_in operand_chars tmp := by
    revert htmp
    split_ifs
    · intro h; cases h
      exact (written_in_append _ _ _).mpr ⟨by decide, written_in_int _⟩
    · intro h
      rw [except_bind_eq_ok] at h
      obtain ⟨v, -, h⟩ := h
      cases h
      exact (written_in_append _ _ _).mpr ⟨by decide, written_in_nat _⟩
    · intro h
      rw [except_bind_eq_ok] at h
      obtain ⟨c, -, h⟩ := h
      rw [except_bind_eq_ok] at h
      obtain ⟨a0x, -, h⟩ := h
      revert h
      split_ifs <;> intro h <;> cases h <;>
        simp only [written_in_append, written_in_int, and_true, true_and] <;> decide
    · intro h; cases h
  have hneg : written_in operand_chars (if neg > 0 then "-" else "") := by split_ifs <;> decide
  exact (written_in_append _ _ _).mpr ⟨(written_in_append _ _ _).mpr ⟨hneg, htmp'⟩, hsw'⟩

theorem newlines_append (a b : String) : newlines (a ++ b) = newlines a + newlines b := by
  simp only [newlines, String.data_append, List.count_append]

theorem newlines_of_written_in (s : String) (h : written_in operand_chars s) :
    newlines s = 0 := by
  unfold newlines
  rw [List.count_eq_zero]
  intro hmem
  exact absurd (h _ hmem) (by decide)

theorem newlines_table (table : List String) (htable : ∀ s ∈ table, newlines s = 0) (i : Nat) :
    newlines (table.getD i "") = 0 := by
  by_cases h : i < table.length
  · have : table.getD i "" = table[i] := by simp [List.getD, List.getElem?_eq_getElem h]
    rw [this]
    exact htable _ (List.getElem_mem _)
  · rw [List.getD_eq_default _ _ (by simpa using h)]
    rfl

theorem newlines_mac_inputs (params : VshOpcodeParams) (a b c : String)
    (ha : params.A = true → newlines a = 0) (hb : params.B = true → newlines b = 0)
    (hc : newlines c = 0) : newlines (mac_inputs params a b c) = 0 := by
  have hsep : newlines ", " = 0 := by decide
  have hemp : newlines "" = 0 := by decide
  unfold mac_inputs
  cases hA : params.A <;> cases hB : params.B <;> cases hC : params.C <;>
    simp only [Bool.false_eq_true, if_false, if_true, newlines_append, hsep, hemp, hc, hA, hB,
      ha, hb]

theorem mask_str_newlines : ∀ s ∈ mask_str, newlines s = 0 := by decide

theorem mac_opcode_newlines : ∀ s ∈ mac_opcode, newlines s = 0 := by decide

theorem ilu_opcode_newlines : ∀ s ∈ ilu_opcode, newlines s = 0 := by decide

theorem out_reg_name_newlines : ∀ s ∈ out_reg_name, newlines s = 0 := by decide

theorem close_statement (body : String) : body ++ ");\n" = (body ++ ")") ++ ";\n" := by
  rw [String.append_assoc]
  rfl

theorem newlines_output_dest (tokens : List Nat) (cur : Nat) :
    newlines (output_dest tokens cur) = 0 := by
  unfold output_dest
  split_ifs
  · rw [newlines_append, newlines_of_written_in _ (written_in_int _)]
    rfl
  · exact newlines_table out_reg_name out_reg_name_newlines _

/-- A first statement is empty or one line that ends in `";\n"`. -/
theorem reg_statement_line (tokens : List Nat) (cur : Nat) (out_mux : VshOutputMux) (mask : Nat)
    (opcode inputs : String) (hop : newlines opcode = 0) (hin : newlines inputs = 0) :
    reg_statement tokens cur out_mux mask opcode inputs = ""
      ∨ (newlines (reg_statement tokens cur out_mux mask opcode inputs) = 1
        ∧ ∃ body, reg_statement tokens cur out_mux mask opcode inputs = body ++ ";\n") := by
  have h1 : newlines "  ARL(a0" = 0 := by decide
  have h2 : newlines ";\n" = 1 := by decide
  have h3 : newlines "  " = 0 := by decide
  have h4 : newlines "(" = 0 := by decide
  have h5 : newlines "R" = 0 := by decide
  have h6 : newlines ");\n" = 1 := by decide
  unfold reg_statement
  split_ifs
  · exact Or.inr ⟨by simp only [newlines_append, h1, h2, hin], _, rfl⟩
  · refine Or.inr ⟨?_, _, close_statement _⟩
    simp only [newlines_append, h3, h4, h5, h6, hop, hin,
      newlines_of_written_in _ (written_in_nat _), newlines_table mask_str mask_str_newlines]
  · exact Or.inl rfl

/-- A named-output statement is empty or one line that ends in `";\n"`. -/
theorem output_statement_line (tokens : List Nat) (cur : Nat) (out_mux : VshOutputMux)
    (opcode inputs : String) (hop : newlines opcode = 0) (hin : newlines inputs = 0) :
    output_statement tokens cur out_mux opcode inputs = ""
      ∨ (newlines (output_statement tokens cur out_mux opcode inputs) = 1
        ∧ ∃ body, output_statement tokens cur out_mux opcode inputs = body ++ ";\n") := by
  have h3 : newlines "  " = 0 := by decide
  have h4 : newlines "(" = 0 := by decide
  have h6 : newlines ");\n" = 1 := by decide
  unfold output_statement
  split_ifs
  · refine Or.inr ⟨?_, _, close_statement _⟩
    simp only [newlines_append, h3, h4, h6, hop, hin, newlines_output_dest,
      newlines_table mask_str mask_str_newlines]
  · exact Or.inl rfl

theorem output_statement_one_unit (tokens : List Nat) (cur : Nat) (opcode inputs : String)
    (opcode' inputs' : String) :
    output_statement tokens cur OMUX_MAC opcode inputs = ""
      ∨ output_statement tokens cur OMUX_ILU opcode' inputs' = "" := by
  by_cases h : field_value tokens cur FLD_OUT_MUX = OMUX_MAC
  · right
    unfold output_statement
    rw [if_neg]
    rintro ⟨h1, -⟩
    rw [h] at h1
    exact absurd h1 (by decide)
  · left
    unfold output_statement
    rw [if_neg]
    rintro ⟨h1, -⟩
    exact h h1

theorem newlines_le_one (s : String)
    (h : s = "" ∨ (newlines s = 1 ∧ ∃ body, s = body ++ ";\n")) : newlines s ≤ 1 := by
  rcases h with rfl | ⟨h, -⟩
  · exact Nat.zero_le _
  · exact Nat.le_of_eq h

/-- C28: the text of a slot that decodes without fault is made of at most four
pieces in this order: the first statement and the named-output statement of the
MAC unit, then those of the ILU unit.  Each piece is empty or one line that ends
in `";\n"`; a named-output statement is present only for the unit that
`FLD_OUT_MUX` selects, so at most one of the two is present, and the text has at
most three newline characters. -/
theorem decode_token_statements (tokens : List Nat) (cur : Nat) (text : String)
    (h : decode_token tokens cur = .ok text) :
    ∃ s1 o1 s2 o2 : String,
      text = s1 ++ o1 ++ s2 ++ o2
        ∧ (∀ s ∈ [s1, o1, s2, o2],
            s = "" ∨ (s.data.count '\n' = 1 ∧ ∃ body, s = body ++ ";\n"))
        ∧ (s1 = "" ∨ ∃ mask opcode inputs,
            s1 = reg_statement tokens cur OMUX_MAC mask opcode inputs)
        ∧ (o1 = "" ∨ ∃ opcode inputs, o1 = output_statement tokens cur OMUX_MAC opcode inputs)
        ∧ (s2 = "" ∨ ∃ mask opcode inputs,
            s2 = reg_statement tokens cur OMUX_ILU mask opcode inputs)
        ∧ (o2 = "" ∨ ∃ opcode inputs, o2 = output_statement tokens cur OMUX_ILU opcode inputs)
        ∧ (o1 ≠ "" → field_value tokens cur FLD_OUT_MUX = OMUX_MAC)
        ∧ (o2 ≠ "" → field_value tokens cur FLD_OUT_MUX = OMUX_ILU)
        ∧ (o1 = "" ∨ o2 = "")
        ∧ text.data.count '\n' ≤ 3 := by
  obtain ⟨-, -, a, b, c, hc, ha, hb, ht⟩ := decode_token_ok_text tokens cur text h
  have hcn : newlines c = 0 :=
    newlines_of_written_in c (decode_opcode_input_written_in _ _ _ _ _ c hc)
  have han : (mac_params (field_value tokens cur FLD_MAC)).A = true → newlines a = 0 :=
    fun hA => newlines_of_written_in a (decode_opcode_input_written_in _ _ _ _ _ a (ha hA))
  have hbn : (mac_params (field_value tokens cur FLD_MAC)).B = true → newlines b = 0 :=
    fun hB => newlines_of_written_in b (decode_opcode_input_written_in _ _ _ _ _ b (hb hB))
  have hmi := newlines_mac_inputs (mac_params (field_value tokens cur FLD_MAC)) a b c han hbn hcn
  have hii : newlines (", " ++ c) = 0 := by
    rw [newlines_append, hcn]
    rfl
  have hmo := newlines_table mac_opcode mac_opcode_newlines (field_value tokens cur FLD_MAC)
  have hio := newlines_table ilu_opcode ilu_opcode_newlines (field_value tokens cur FLD_ILU)
  obtain ⟨s1, o1, hmt, hs1, ho1, hs1', ho1', ho1m⟩ : ∃ s1 o1 : String,
      mac_text tokens cur a b c = s1 ++ o1
        ∧ (s1 = "" ∨ (newlines s1 = 1 ∧ ∃ body, s1 = body ++ ";\n"))
        ∧ (o1 = "" ∨ (newlines o1 = 1 ∧ ∃ body, o1 = body ++ ";\n"))
        ∧ (s1 = "" ∨ ∃ mask opcode inputs,
            s1 = reg_statement tokens cur OMUX_MAC mask opcode inputs)
        ∧ (o1 = "" ∨ ∃ opcode inputs, o1 = output_statement tokens cur OMUX_MAC opcode inputs)
        ∧ (o1 ≠ "" → field_value tokens cur FLD_OUT_MUX = OMUX_MAC) := by
    by_cases hm : field_value tokens cur FLD_MAC = MAC_NOP
    · exact ⟨"", "", by rw [mac_text_nop tokens cur a b c hm]; rfl, Or.inl rfl, Or.inl rfl,
        Or.inl rfl, Or.inl rfl, fun hne => absurd rfl hne⟩
    · refine ⟨reg_statement tokens cur OMUX_MAC (field_value tokens cur FLD_OUT_MAC_MASK)
          (mac_opcode.getD (field_value tokens cur FLD_MAC) "")
          (mac_inputs (mac_params (field_value tokens cur FLD_MAC)) a b c),
        output_statement tokens cur OMUX_MAC (mac_opcode.getD (field_value tokens cur FLD_MAC) "")
          (mac_inputs (mac_params (field_value tokens cur FLD_MAC)) a b c),
        ?_, reg_statement_line tokens cur OMUX_MAC _ _ _ hmo hmi,
        output_statement_line tokens cur OMUX_MAC _ _ hmo hmi, Or.inr ⟨_, _, _, rfl⟩,
        Or.inr ⟨_, _, rfl⟩,
        fun hne => ((output_statement_ne_empty tokens cur OMUX_MAC _ _).mp hne).1⟩
      unfold mac_text
      rw [if_neg hm]
  obtain ⟨s2, o2, hit, hs2, ho2, hs2', ho2', ho2m⟩ : ∃ s2 o2 : String,
      ilu_text tokens cur c = s2 ++ o2
        ∧ (s2 = "" ∨ (newlines s2 = 1 ∧ ∃ body, s2 = body ++ ";\n"))
        ∧ (o2 = "" ∨ (newlines o2 = 1 ∧ ∃ body, o2 = body ++ ";\n"))
        ∧ (s2 = "" ∨ ∃ mask opcode inputs,
            s2 = reg_statement tokens cur OMUX_ILU mask opcode inputs)
        ∧ (o2 = "" ∨ ∃ opcode inputs, o2 = output_statement tokens cur OMUX_ILU opcode inputs)
        ∧ (o2 ≠ "" → field_value tokens cur FLD_OUT_MUX = OMUX_ILU) := by
    by_cases hi : field_value tokens cur FLD_ILU = ILU_NOP
    · exact ⟨"", "", by rw [ilu_text_nop tokens cur c hi]; rfl, Or.inl rfl, Or.inl rfl,
        Or.inl rfl, Or.inl rfl, fun hne => absurd rfl hne⟩
    · refine ⟨reg_statement tokens cur OMUX_ILU (field_value tokens cur FLD_OUT_ILU_MASK)
          (ilu_opcode.getD (field_value tokens cur FLD_ILU) "") (", " ++ c),
        output_statement tokens cur OMUX_ILU (ilu_opcode.getD (field_value tokens cur FLD_ILU) "")
          (", " ++ c),
        ?_, reg_statement_line tokens cur OMUX_ILU _ _ _ hio hii,
        output_statement_line tokens cur OMUX_ILU _ _ hio hii, Or.inr ⟨_, _, _, rfl⟩,
        Or.inr ⟨_, _, rfl⟩,
        fun hne => ((output_statement_ne_empty tokens cur OMUX_ILU _ _).mp hne).1⟩
      unfold ilu_text
      rw [if_neg hi]
  have hone : o1 = "" ∨ o2 = "" := by
    by_cases h1 : o1 = ""
    · exact Or.inl h1
    · by_cases h2 : o2 = ""
      · exact Or.inr h2
      · have e1 := ho1m h1
        have e2 := ho2m h2
        rw [e1] at e2
        exact absurd e2 (by decide)
  have htext : text = s1 ++ o1 ++ s2 ++ o2 := by
    rw [ht, hmt, hit, String.append_assoc, String.append_assoc, String.append_assoc]
  refine ⟨s1, o1, s2, o2, htext, ?_, hs1', ho1', hs2', ho2', ho1m, ho2m, hone, ?_⟩
  · intro s hs
    simp only [List.mem_cons, List.mem_singleton, List.not_mem_nil, or_false] at hs
    rcases hs with rfl | rfl | rfl | rfl
    · exact hs1
    · exact ho1
    · exact hs2
    · exact ho2
  · show newlines text ≤ 3
    rw [htext, newlines_append, newlines_append, newlines_append]
    have b1 := newlines_le_one s1 hs1
    have b2 := newlines_le_one o1 ho1
    have b3 := newlines_le_one s2 hs2
    have b4 := newlines_le_one o2 ho2
    rcases hone with rfl | rfl
    · have : newlines "" = 0 := rfl
      omega
    · have : newlines "" = 0 := rfl
      omega

theorem decode_token_statements_witness :
    decode_token [0, 0x0420001B, 0x0836106C, 0x2F5FF801] 0
        = .ok "  MOV(R5,xyzw, v0);\n  MOV(oPos,xyzw, v0);\n  RCP(R1,xyzw, v0.x);\n"
      ∧ ("  MOV(R5,xyzw, v0);\n  MOV(oPos,xyzw, v0);\n  RCP(R1,xyzw, v0.x);\n").data.count '\n'
          = 3
      ∧ ∃ s1 o1 s2 o2 : String,
          "  MOV(R5,xyzw, v0);\n  MOV(oPos,xyzw, v0);\n  RCP(R1,xyzw, v0.x);\n"
              = s1 ++ o1 ++ s2 ++ o2
            ∧ (o1 = "" ∨ o2 = "") := by
  obtain ⟨s1, o1, s2, o2, ht, -, -, -, -, -, -, -, hone, -⟩ :=
    decode_token_statements [0, 0x0420001B, 0x0836106C, 0x2F5FF801] 0
      "  MOV(R5,xyzw, v0);\n  MOV(oPos,xyzw, v0);\n  RCP(R1,xyzw, v0.x);\n" rfl
  exact ⟨rfl, by decide, s1, o1, s2, o2, ht, hone⟩

/-! ## The R-registers that the header declares -/

theorem count_append_clear (pattern : List Char) (a b : String)
    (h : ends_clear pattern a = true) :
    count_occurrences pattern (a ++ b).data
      = count_occurrences pattern a.data + count_occurrences pattern b.data := by
  unfold ends_clear at h
  cases hl : a.data.getLast? with
  | none => rw [hl] at h; cases h
  | some c =>
    rw [hl] at h
    have hc : c ∉ pattern := by simpa using h
    obtain ⟨l, hl'⟩ : ∃ l, a.data = l ++ [c] := List.getLast?_eq_some_iff.mp hl
    simp only [String.data_append, hl', List.append_assoc, List.singleton_append]
    exact count_append_sep pattern c hc l b.data

theorem ends_clear_append (pattern : List Char) (a b : String)
    (h : ends_clear pattern b = true) : ends_clear pattern (a ++ b) = true := by
  unfold ends_clear at h ⊢
  cases hl : b.data.getLast? with
  | none => rw [hl] at h; cases h
  | some c =>
    rw [hl] at h
    obtain ⟨l, hl'⟩ := List.getLast?_eq_some_iff.mp hl
    have : (a ++ b).data.getLast? = some c := by
      rw [String.data_append, hl', ← List.append_assoc]
      exact List.getLast?_eq_some_iff.mpr ⟨_, rfl⟩
    rw [this]
    exact h

theorem counts_append_none (pattern : List Char) (n : Nat) (a b : String)
    (ha : counts pattern n a) (hb : counts pattern 0 b) : counts pattern n (a ++ b) :=
  ⟨by rw [count_append_clear pattern a b ha.2, ha.1, hb.1, Nat.add_zero],
    ends_clear_append pattern a b hb.2⟩

theorem counts_append_one (pattern : List Char) (a b : String)
    (ha : counts pattern 0 a) (hb : counts pattern 1 b) : counts pattern 1 (a ++ b) :=
  ⟨by rw [count_append_clear pattern a b ha.2, ha.1, hb.1],
    ends_clear_append pattern a b hb.2⟩

set_option maxRecDepth 20000 in
theorem vsh_header_lacks_high_registers (k : Nat) (h13 : 13 ≤ k) (h16 : k < 16) :
    counts ("R" ++ toString k).data 0 vsh_header := by
  unfold vsh_header
  interval_cases k
  all_goals
    repeat (refine counts_append_none _ _ _ _ ?_ (by decide))
    decide

theorem data_isPrefix_self (a : String) : a.data <+: a.data := ⟨[], List.append_nil _⟩

theorem data_isPrefix_append (p a b : String) (h : p.data <+: a.data) : p.data <+: (a ++ b).data := by
  obtain ⟨t, ht⟩ := h
  exact ⟨t ++ b.data, by rw [String.data_append, ← List.append_assoc, ht]⟩

set_option maxRecDepth 20000 in
theorem vsh_header_declarations :
    ("#version 110\n" ++
      "\n" ++
      "vec4 R0 = vec4(0.0,0.0,0.0,1.0);\n" ++
      "vec4 R1 = vec4(0.0,0.0,0.0,1.0);\n" ++
      "vec4 R2 = vec4(0.0,0.0,0.0,1.0);\n" ++
      "vec4 R3 = vec4(0.0,0.0,0.0,1.0);\n" ++
      "vec4 R4 = vec4(0.0,0.0,0.0,1.0);\n" ++
      "vec4 R5 = vec4(0.0,0.0,0.0,1.0);\n" ++
      "vec4 R6 = vec4(0.0,0.0,0.0,1.0);\n" ++
      "vec4 R7 = vec4(0.0,0.0,0.0,1.0);\n" ++
      "vec4 R8 = vec4(0.0,0.0,0.0,1.0);\n" ++
      "vec4 R9 = vec4(0.0,0.0,0.0,1.0);\n" ++
      "vec4 R10 = vec4(0.0,0.0,0.0,1.0);\n" ++
      "vec4 R11 = vec4(0.0,0.0,0.0,1.0);\n" ++
      "vec4 R12 = vec4(0.0,0.0,0.0,1.0);\n").data <+: vsh_header.data := by
  unfold vsh_header
  repeat (first | with_reducible exact data_isPrefix_self _ | refine data_isPrefix_append _ _ _ ?_)

theorem c_reg_index_lt (tokens : List Nat) (cur : Nat) : c_reg_index tokens cur < 16 := by
  have hh : field_value tokens cur FLD_C_R_HIGH < 4 :=
    field_value_lt_width tokens cur FLD_C_R_HIGH 2 rfl
  have hl : field_value tokens cur FLD_C_R_LOW < 4 :=
    field_value_lt_width tokens cur FLD_C_R_LOW 2 rfl
  unfold c_reg_index
  generalize field_value tokens cur FLD_C_R_HIGH = hi at hh
  generalize field_value tokens cur FLD_C_R_LOW = lo at hl
  interval_cases hi <;> interval_cases lo <;> decide

theorem effective_reg_lt (tokens : List Nat) (cur : Nat) (out_mux : VshOutputMux) :
    effective_reg tokens cur out_mux < 16 := by
  unfold effective_reg
  split_ifs
  · decide
  · exact field_value_lt_width tokens cur FLD_OUT_R 4 rfl

/-- C29: the R-register indices of a slot inside the token array come from its
fields: the destination is `FLD_OUT_R` or the forced 1, and the sources, with
which the operands of a slot that decodes are decoded, are `FLD_A_R`, `FLD_B_R`
and `(FLD_C_R_HIGH << 2) | FLD_C_R_LOW`; all of them are below 16.  Every index
0..15 is printed by some slot as a destination, as source A and as source C.
The header begins with the declarations of R0..R12, the names R13, R14 and R15
occur nowhere in it, and the slot that writes R13 translates. -/
theorem decode_token_register_indices (tokens : List Nat) (cur : Nat)
    (hcur : cur + 3 < tokens.length) :
    (∀ f ∈ [FLD_OUT_R, FLD_A_R, FLD_B_R, FLD_C_R_HIGH, FLD_C_R_LOW],
        vsh_get_field tokens cur f = .ok (field_value tokens cur f))
      ∧ (field_value tokens cur FLD_OUT_R < 16 ∧ effective_reg tokens cur OMUX_MAC < 16
        ∧ effective_reg tokens cur OMUX_ILU < 16 ∧ field_value tokens cur FLD_A_R < 16
        ∧ field_value tokens cur FLD_B_R < 16
        ∧ ((field_value tokens cur FLD_C_R_HIGH <<< 2) ||| field_value tokens cur FLD_C_R_LOW)
            < 16)
      ∧ (∀ text, decode_token tokens cur = .ok text →
          ∃ a b c,
            decode_opcode_input tokens cur (field_value tokens cur FLD_C_MUX) FLD_C_NEG
                (((field_value tokens cur FLD_C_R_HIGH <<< 2)
                  ||| field_value tokens cur FLD_C_R_LOW : Nat) : Int) = .ok c
              ∧ ((mac_params (field_value tokens cur FLD_MAC)).A = true →
                  decode_opcode_input tokens cur (field_value tokens cur FLD_A_MUX) FLD_A_NEG
                    (field_value tokens cur FLD_A_R : Nat) = .ok a)
              ∧ ((mac_params (field_value tokens cur FLD_MAC)).B = true →
                  decode_opcode_input tokens cur (field_value tokens cur FLD_B_MUX) FLD_B_NEG
                    (field_value tokens cur FLD_B_R : Nat) = .ok b)
              ∧ text = mac_text tokens cur a b c ++ ilu_text tokens cur c)
      ∧ (∀ k, k < 16 →
          decode_token [0, 0x0020001B, 0x0836106C, 0x2F000001 + k * 0x100000] 0
              = .ok ("  MOV(R" ++ toString k ++ ",xyzw, v0);\n")
            ∧ decode_token [0, 0x0020001B, 0x0436106C + k * 0x10000000, 0x2F000001] 0
              = .ok ("  MOV(R0,xyzw, R" ++ toString k ++ ");\n")
            ∧ decode_token [0, 0x0200001B, 0x0836106C + k / 4, 0x100F0001 + k % 4 * 0x40000000] 0
              = .ok ("  MOV(R0,xyzw, R" ++ toString k ++ ");\n"))
      ∧ ("#version 110\n" ++
          "\n" ++
          "vec4 R0 = vec4(0.0,0.0,0.0,1.0);\n" ++
          "vec4 R1 = vec4(0.0,0.0,0.0,1.0);\n" ++
          "vec4 R2 = vec4(0.0,0.0,0.0,1.0);\n" ++
          "vec4 R3 = vec4(0.0,0.0,0.0,1.0);\n" ++
          "vec4 R4 = vec4(0.0,0.0,0.0,1.0);\n" ++
          "vec4 R5 = vec4(0.0,0.0,0.0,1.0);\n" ++
          "vec4 R6 = vec4(0.0,0.0,0.0,1.0);\n" ++
          "vec4 R7 = vec4(0.0,0.0,0.0,1.0);\n" ++
          "vec4 R8 = vec4(0.0,0.0,0.0,1.0);\n" ++
          "vec4 R9 = vec4(0.0,0.0,0.0,1.0);\n" ++
          "vec4 R10 = vec4(0.0,0.0,0.0,1.0);\n" ++
          "vec4 R11 = vec4(0.0,0.0,0.0,1.0);\n" ++
          "vec4 R12 = vec4(0.0,0.0,0.0,1.0);\n").data <+: vsh_header.data
      ∧ (∀ k, 13 ≤ k → k < 16 →
          count_occurrences ("R" ++ toString k).data vsh_header.data = 0)
      ∧ vsh_translate 0 [0, 0x0020001B, 0x0836106C, 0x2FD00001] 4
          = .ok (vsh_header ++ "\nvoid main(void)\n\x7b\n"
              ++ ("\n" ++ "  /* Slot 0: 0x00000000 0x0020001B 0x0836106C 0x2FD00001 */\n"
                ++ "  MOV(R13,xyzw, v0);\n" ++ "\n")
              ++ vsh_epilogue ++ "\x7d\n") := by
  refine ⟨fun f hf => vsh_get_field_eq_value tokens cur hcur f (by
      simp only [List.mem_cons, List.mem_singleton, List.not_mem_nil, or_false] at hf
      rcases hf with rfl | rfl | rfl | rfl | rfl <;> decide),
    ⟨field_value_lt_width tokens cur FLD_OUT_R 4 rfl, effective_reg_lt tokens cur OMUX_MAC,
      effective_reg_lt tokens cur OMUX_ILU, field_value_lt_width tokens cur FLD_A_R 4 rfl,
      field_value_lt_width tokens cur FLD_B_R 4 rfl, c_reg_index_lt tokens cur⟩,
    fun text h => (decode_token_ok_text tokens cur text h).2.2, ?_, vsh_header_declarations,
    fun k h13 h16 => (vsh_header_lacks_high_registers k h13 h16).1, ?_⟩
  · intro k hk
    interval_cases k <;> exact ⟨rfl, rfl, rfl⟩
  · have hscan : vsh_scan [0, 0x0020001B, 0x0836106C, 0x2FD00001] 4 (4 + 1) 0 "\n"
        = .ok ("\n" ++ "  /* Slot 0: 0x00000000 0x0020001B 0x0836106C 0x2FD00001 */\n"
            ++ "  MOV(R13,xyzw, v0);\n" ++ "\n", true) := rfl
    rw [vsh_translate_eq, hscan]
    simp only [except_bind_ok, reduceCtorEq, if_false]

theorem decode_token_register_indices_witness :
    field_value [0, 0x0020001B, 0x0836106C, 0x2FD00001] 0 FLD_OUT_R < 16
      ∧ decode_token [0, 0x0020001B, 0x0836106C, 0x2F000001 + 13 * 0x100000] 0
          = .ok ("  MOV(R" ++ toString 13 ++ ",xyzw, v0);\n")
      ∧ count_occurrences ("R" ++ toString 13).data vsh_header.data = 0 :=
  ⟨(decode_token_register_indices [0, 0x0020001B, 0x0836106C, 0x2FD00001] 0 (by decide)).2.1.1,
    ((decode_token_register_indices [0, 0x0020001B, 0x0836106C, 0x2FD00001] 0
      (by decide)).2.2.2.1 13 (by decide)).1,
    (decode_token_register_indices [0, 0x0020001B, 0x0836106C, 0x2FD00001] 0
      (by decide)).2.2.2.2.2.1 13 (by decide) (by decide)⟩

/-! ## The scan up to the first final slot -/

/-- One iteration of the scan loop at a slot that decodes and whose final flag
can be read. -/
theorem vsh_scan_step (tokens : List Nat) (n fuel j f : Nat) (body t : String)
    (hlt : 4 * j < n) (ht : decode_token tokens (4 * j) = .ok t)
    (hfin : vsh_get_field tokens (4 * j) FLD_FINAL = .ok f) :
    vsh_scan tokens n (fuel + 1) (4 * j) body
      = if f ≠ 0 then .ok (body ++ slot_text tokens j, true)
        else vsh_scan tokens n fuel (4 * (j + 1)) (body ++ slot_text tokens j) := by
  have hin : 4 * j + 3 < tokens.length :=
    vsh_get_field_in_bounds tokens (4 * j) FLD_FINAL f ⟨FLD_FINAL, 3, 0, 1⟩ rfl hfin
  have hdiv : 4 * j / 4 = j := Nat.mul_div_cancel_left j (by decide)
  have hchunk : ∀ b : String,
      b ++ slot_comment j (tokens.getD (4 * j + 0) 0 % 2 ^ 32) (tokens.getD (4 * j + 1) 0 % 2 ^ 32)
          (tokens.getD (4 * j + 2) 0 % 2 ^ 32) (tokens.getD (4 * j + 3) 0 % 2 ^ 32) ++ t ++ "\n"
        = b ++ slot_text tokens j := by
    intro b
    rw [slot_comment_mod, slot_text, decoded_text_of_ok _ _ _ ht]
    simp only [String.append_assoc, Nat.add_zero]
  rw [vsh_scan_succ, if_pos hlt, ht, hfin,
    load_token_total tokens (4 * j) 0 (by omega), load_token_total tokens (4 * j) 1 (by omega),
    load_token_total tokens (4 * j) 2 (by omega), load_token_total tokens (4 * j) 3 (by omega)]
  simp only [except_bind_ok, hdiv, hchunk]
  rfl

/-- A slot that faults ends the scan with its fault. -/
theorem vsh_scan_step_fault (tokens : List Nat) (n fuel j : Nat) (body : String) (e : VshFault)
    (hlt : 4 * j < n) (he : decode_token tokens (4 * j) = .error e) :
    vsh_scan tokens n (fuel + 1) (4 * j) body = .error e := by
  rw [vsh_scan_succ, if_pos hlt, he]
  rfl

/-- The scan started at slot `j ≤ k`, with slot `k` the first final slot and the
slots `j .. k` decoding, returns the texts of the slots `j .. k` appended in
order, and the final mark. -/
theorem vsh_scan_to_final (tokens : List Nat) (n k : Nat) (hk : 4 * k < n)
    (hnf : ∀ i, i < k → vsh_get_field tokens (4 * i) FLD_FINAL = .ok 0)
    (hf : ∃ f, f ≠ 0 ∧ vsh_get_field tokens (4 * k) FLD_FINAL = .ok f) :
    ∀ (fuel j : Nat) (body : String), j ≤ k → k - j < fuel →
      (∀ i, j ≤ i → i ≤ k → ∃ t, decode_token tokens (4 * i) = .ok t) →
      vsh_scan tokens n fuel (4 * j) body
        = .ok (body ++ String.join ((List.range' j (k + 1 - j)).map (slot_text tokens)), true) := by
  intro fuel
  induction fuel with
  | zero => intro j body _ h0; omega
  | succ fuel ih =>
    intro j body hjk hfuel hdec
    obtain ⟨t, ht⟩ := hdec j (Nat.le_refl j) hjk
    rcases Nat.lt_or_ge j k with hj | hj
    · rw [vsh_scan_step tokens n fuel j 0 body t (by omega) ht (hnf j hj),
        if_neg (fun h => h rfl),
        ih (j + 1) _ hj (by omega) (fun i hji hik => hdec i (by omega) hik)]
      have hlen : k + 1 - j = (k + 1 - (j + 1)) + 1 := by omega
      rw [hlen, List.range'_succ, List.map_cons, string_join_cons]
      simp only [String.append_assoc]
    · obtain rfl : j = k := by omega
      obtain ⟨f, hne, hfk⟩ := hf
      rw [vsh_scan_step tokens n fuel j f body t hk ht hfk, if_pos hne]
      have hlen : j + 1 - j = 1 := by omega
      rw [hlen]
      have hnil : String.join ([] : List String) = "" := rfl
      simp only [List.range', List.map_cons, List.map_nil, string_join_cons, hnil,
        String.append_empty]

/-- The scan started at slot `j`, with no final slot before slot `i` and the
slots `j .. i - 1` decoding, ends with the fault of slot `i`. -/
theorem vsh_scan_decode_fault (tokens : List Nat) (n i : Nat) (e : VshFault) (hi : 4 * i < n)
    (hnf : ∀ m, m < i → vsh_get_field tokens (4 * m) FLD_FINAL = .ok 0)
    (he : decode_token tokens (4 * i) = .error e) :
    ∀ (fuel j : Nat) (body : String), j ≤ i → i - j < fuel →
      (∀ m, j ≤ m → m < i → ∃ t, decode_token tokens (4 * m) = .ok t) →
      vsh_scan tokens n fuel (4 * j) body = .error e := by
  intro fuel
  induction fuel with
  | zero => intro j body _ h0; omega
  | succ fuel ih =>
    intro j body hji hfuel hdec
    rcases Nat.lt_or_ge j i with hj | hj
    · obtain ⟨t, ht⟩ := hdec j (Nat.le_refl j) hj
      rw [vsh_scan_step tokens n fuel j 0 body t (by omega) ht (hnf j hj),
        if_neg (fun h => h rfl)]
      exact ih (j + 1) _ hj (by omega) (fun m hjm hmi => hdec m (by omega) hmi)
    · obtain rfl : j = i := by omega
      exact vsh_scan_step_fault tokens n fuel j body e hi he

/-- C2: when slot `k` is the first slot with the final flag, the translation
processes the slots `0 .. k` and nothing after them.  Two token arrays that
agree on the words of those slots, each said to be longer than `4 * k` words,
have the same result, whatever follows slot `k`.  When the slots `0 .. k` all
decode, the translation returns a text: the header, the opening of `main`, the
comment and the text of each of the slots `0 .. k` in order, and the epilogue,
the same for both arrays, with exactly `k + 1` slot comments.  When one of them
faults, the fault of the first such slot is the result.  So a text is returned
if and only if the slots `0 .. k` all decode, and every text that is returned
contains exactly `k + 1` slot comments. -/
theorem vsh_translate_stops_at_final (version : Nat) (tokens1 tokens2 : List Nat)
    (n1 n2 k : Nat) (hk1 : 4 * k < n1) (hk2 : 4 * k < n2)
    (hagree : ∀ i, i < 4 * k + 4 → tokens1[i]? = tokens2[i]?)
    (hnf : ∀ i, i < k → vsh_get_field tokens1 (4 * i) FLD_FINAL = .ok 0)
    (hf : ∃ f, f ≠ 0 ∧ vsh_get_field tokens1 (4 * k) FLD_FINAL = .ok f) :
    vsh_translate version tokens1 n1 = vsh_translate version tokens2 n2
      ∧ (∀ text, vsh_translate version tokens1 n1 = .ok text →
          count_slot_comments text = k + 1)
      ∧ ((∀ i, i ≤ k → ∃ t, decode_token tokens1 (4 * i) = .ok t) →
          ∃ text, vsh_translate version tokens1 n1 = .ok text
            ∧ vsh_translate version tokens2 n2 = .ok text
            ∧ text = vsh_header ++ "\nvoid main(void)\n\x7b\n" ++ "\n"
                ++ String.join ((List.range (k + 1)).map fun i =>
                    slot_comment i (tokens1.getD (4 * i) 0) (tokens1.getD (4 * i + 1) 0)
                      (tokens1.getD (4 * i + 2) 0) (tokens1.getD (4 * i + 3) 0)
                    ++ decoded_text tokens1 (4 * i) ++ "\n")
                ++ vsh_epilogue ++ "\x7d\n"
            ∧ count_slot_comments text = k + 1)
      ∧ (∀ i e, i ≤ k → (∀ m, m < i → ∃ t, decode_token tokens1 (4 * m) = .ok t) →
          decode_token tokens1 (4 * i) = .error e →
          vsh_translate version tokens1 n1 = .error e
            ∧ vsh_translate version tokens2 n2 = .error e)
      ∧ ((∃ text, vsh_translate version tokens1 n1 = .ok text)
          ↔ ∀ i, i ≤ k → ∃ t, decode_token tokens1 (4 * i) = .ok t) := by
  have hsame : vsh_translate version tokens1 n1 = vsh_translate version tokens2 n2 := by
    rw [vsh_translate_eq, vsh_translate_eq,
      vsh_scan_congr tokens1 tokens2 n1 n2 k hk1 hk2 hagree hnf hf (n1 + 1) (n2 + 1) 0 "\n"
        (Nat.zero_le k) (by omega) (by omega)]
  have hcount : ∀ text, vsh_translate version tokens1 n1 = .ok text →
      count_slot_comments text = k + 1 := by
    intro text hok
    rw [vsh_translate_eq, except_bind_eq_ok] at hok
    obtain ⟨⟨b, fin⟩, hscan, hres⟩ := hok
    cases fin with
    | false => simp at hres
    | true =>
      simp only [reduceCtorEq, if_false, Except.ok.injEq] at hres
      obtain ⟨-, -, hb⟩ :=
        vsh_scan_final tokens1 n1 k hnf hf (n1 + 1) 0 "\n" b (Nat.zero_le k) hscan
      have hmain : plain "\nvoid main(void)\n\x7b\n" := by decide
      have hnl : plain "\n" := by decide
      have hclose : plain "\x7d\n" := by decide
      rw [← hres, hb]
      simp only [String.append_assoc]
      rw [count_slot_comments_append _ _ plain_vsh_header.2, plain_vsh_header.1,
        count_slot_comments_append _ _ hmain.2, hmain.1,
        count_slot_comments_append _ _ hnl.2, hnl.1, count_slot_comments_join,
        count_slot_comments_append _ _ plain_vsh_epilogue.2, plain_vsh_epilogue.1, hclose.1,
        List.length_range']
      omega
  have hok : (∀ i, i ≤ k → ∃ t, decode_token tokens1 (4 * i) = .ok t) →
      vsh_translate version tokens1 n1
        = .ok (vsh_header ++ "\nvoid main(void)\n\x7b\n" ++ "\n"
            ++ String.join ((List.range (k + 1)).map fun i =>
                slot_comment i (tokens1.getD (4 * i) 0) (tokens1.getD (4 * i + 1) 0)
                  (tokens1.getD (4 * i + 2) 0) (tokens1.getD (4 * i + 3) 0)
                ++ decoded_text tokens1 (4 * i) ++ "\n")
            ++ vsh_epilogue ++ "\x7d\n") := by
    intro hdec
    have hscan := vsh_scan_to_final tokens1 n1 k hk1 hnf hf (n1 + 1) 0 "\n" (Nat.zero_le k)
      (by omega) (fun i _ hik => hdec i hik)
    rw [Nat.mul_zero] at hscan
    rw [vsh_translate_eq, hscan]
    unfold slot_text
    rw [Nat.sub_zero, ← List.range_eq_range']
    simp only [except_bind_ok, reduceCtorEq, if_false, String.append_assoc]
  have hfault : ∀ i e, i ≤ k → (∀ m, m < i → ∃ t, decode_token tokens1 (4 * m) = .ok t) →
      decode_token tokens1 (4 * i) = .error e →
      vsh_translate version tokens1 n1 = .error e := by
    intro i e hik hdec he
    have hscan := vsh_scan_decode_fault tokens1 n1 i e (by omega)
      (fun m hm => hnf m (by omega)) he (n1 + 1) 0 "\n" (Nat.zero_le i) (by omega)
      (fun m _ hmi => hdec m hmi)
    rw [Nat.mul_zero] at hscan
    rw [vsh_translate_eq, hscan]
    rfl
  refine ⟨hsame, hcount, fun hdec => ⟨_, hok hdec, hsame ▸ hok hdec, rfl, hcount _ (hok hdec)⟩,
    fun i e hik hdec he => ⟨hfault i e hik hdec he, hsame ▸ hfault i e hik hdec he⟩,
    fun ⟨text, htext⟩ => ?_, fun hdec => ⟨_, hok hdec⟩⟩
  rw [vsh_translate_eq, except_bind_eq_ok] at htext
  obtain ⟨⟨b, fin⟩, hscan, hres⟩ := htext
  cases fin with
  | false => simp at hres
  | true =>
    obtain ⟨-, hdec, -⟩ :=
      vsh_scan_final tokens1 n1 k hnf hf (n1 + 1) 0 "\n" b (Nat.zero_le k) hscan
    exact fun i hik => hdec i (Nat.zero_le i) hik

theorem vsh_translate_stops_at_final_witness :
    vsh_translate 0 [0, 0x0020001B, 0x0836106C, 0x2F000FF8, 0, 0x0020001B, 0x0836106C, 0x2F000FF9] 8
        = vsh_translate 0 [0, 0x0020001B, 0x0836106C, 0x2F000FF8, 0, 0x0020001B, 0x0836106C,
            0x2F000FF9, 0xFFFFFFFF, 0xFFFFFFFF, 0xFFFFFFFF, 0xFFFFFFFF] 12
      ∧ (∀ text,
          vsh_translate 0 [0, 0x0020001B, 0x0836106C, 0x2F000FF8, 0, 0x0020001B, 0x0836106C,
            0x2F000FF9] 8 = .ok text →
          count_slot_comments text = 1 + 1)
      ∧ ∃ text,
          vsh_translate 0 [0, 0x0020001B, 0x0836106C, 0x2F000FF8, 0, 0x0020001B, 0x0836106C,
              0x2F000FF9] 8 = .ok text
            ∧ vsh_translate 0 [0, 0x0020001B, 0x0836106C, 0x2F000FF8, 0, 0x0020001B, 0x0836106C,
              0x2F000FF9, 0xFFFFFFFF, 0xFFFFFFFF, 0xFFFFFFFF, 0xFFFFFFFF] 12 = .ok text
            ∧ text = vsh_header ++ "\nvoid main(void)\n\x7b\n" ++ "\n"
                ++ String.join ((List.range (1 + 1)).map fun i =>
                    slot_comment i
                      ([0, 0x0020001B, 0x0836106C, 0x2F000FF8, 0, 0x0020001B, 0x0836106C,
                        0x2F000FF9].getD (4 * i) 0)
                      ([0, 0x0020001B, 0x0836106C, 0x2F000FF8, 0, 0x0020001B, 0x0836106C,
                        0x2F000FF9].getD (4 * i + 1) 0)
                      ([0, 0x0020001B, 0x0836106C, 0x2F000FF8, 0, 0x0020001B, 0x0836106C,
                        0x2F000FF9].getD (4 * i + 2) 0)
                      ([0, 0x0020001B, 0x0836106C, 0x2F000FF8, 0, 0x0020001B, 0x0836106C,
                        0x2F000FF9].getD (4 * i + 3) 0)
                    ++ decoded_text [0, 0x0020001B, 0x0836106C, 0x2F000FF8, 0, 0x0020001B,
                        0x0836106C, 0x2F000FF9] (4 * i) ++ "\n")
                ++ vsh_epilogue ++ "\x7d\n"
            ∧ count_slot_comments text = 1 + 1 := by
  have h := vsh_translate_stops_at_final 0
    [0, 0x0020001B, 0x0836106C, 0x2F000FF8, 0, 0x0020001B, 0x0836106C, 0x2F000FF9]
    [0, 0x0020001B, 0x0836106C, 0x2F000FF8, 0, 0x0020001B, 0x0836106C, 0x2F000FF9,
      0xFFFFFFFF, 0xFFFFFFFF, 0xFFFFFFFF, 0xFFFFFFFF]
    8 12 1 (by decide) (by decide) (by decide)
    (fun i hi => by
      obtain rfl : i = 0 := by omega
      rfl)
    ⟨1, by decide, rfl⟩
  refine ⟨h.1, h.2.1, h.2.2.1 ?_⟩
  intro i hi
  interval_cases i
  · exact ⟨"  MOV(R0,xyzw, v0);\n", rfl⟩
  · exact ⟨"  MOV(R0,xyzw, v0);\n", rfl⟩

end Vsh
